import Mathlib

/-!
# Online restore (ep-engine, `restore_impl.cc`)

A shallow embedding of the log-replay engine (`DecrementalRestorer`) and of the
restore job state machine (`RestoreManagerImpl`), of the atomic update helpers
and reference counted pointers of `atomic.h`, and of `Configuration`, with the
properties of the specification proved about it.

Conventions of the embedding:

* `uint32_t` counters are `Nat` values kept below `2^32`; `++` is `inc32`.
* Library calls (`sqlite3_*`, `pthread_*`, `access`) are not part of the
  repository: what they return is an input of the embedded function, and the
  threads that exist are an explicit component of the system state.
* A `throw std::string(..)` is `Except.error` with the message; the state that
  the function leaves behind is returned next to it.
-/

namespace Restore

/-! ## The backup log and the statement `query` -/

/-- Bytes of a text or blob column. -/
abbrev Bytes := List UInt8

/-- One row of table `cpoint_state`: the columns the statement reads. -/
structure CpointState where
  vbucket_id : Int
  cpoint_id : Int
  state : String
  deriving DecidableEq

/-- One row of table `cpoint_op`. -/
structure CpointOp where
  vbucket_id : Int
  cpoint_id : Int
  seq : Int
  op : Bytes
  key : Bytes
  flg : Int
  exp : Int
  cas : Int
  val : Bytes
  deriving DecidableEq

/-- The two tables of a backup log that the restore reads. -/
structure BackupLog where
  cpoint_state : List CpointState
  cpoint_op : List CpointOp
  deriving DecidableEq

/-- The `on (...)` condition of the join together with the `where` clause of
`query`: same vbucket, same checkpoint, and the state row says "closed". -/
def joinsClosed (s : CpointState) (o : CpointOp) : Bool :=
  decide (o.vbucket_id = s.vbucket_id) && decide (o.cpoint_id = s.cpoint_id) &&
    decide (s.state = "closed")

/-- The `from cpoint_state join cpoint_op on (..) where ..` part of `query`:
one output row for every pair of a state row and an operation row that match. -/
def joinRows (log : BackupLog) : List CpointOp :=
  log.cpoint_state.flatMap fun s => log.cpoint_op.filter fun o => joinsClosed s o

/-- The `order by cpoint_op.cpoint_id desc, cpoint_op.seq desc` of `query`:
`a` may stand before `b`. -/
def orderBy (a b : CpointOp) : Prop :=
  b.cpoint_id < a.cpoint_id ∨ (b.cpoint_id = a.cpoint_id ∧ b.seq ≤ a.seq)

instance orderBy_decidable : DecidableRel orderBy := fun a b =>
  inferInstanceAs (Decidable
    (b.cpoint_id < a.cpoint_id ∨ (b.cpoint_id = a.cpoint_id ∧ b.seq ≤ a.seq)))

/-- A result set of `query` on a backup log, before the projection to the
select list: the rows of the join, in an order that
`order by cpoint_op.cpoint_id desc, cpoint_op.seq desc` admits. SQL leaves open
the order of the rows that tie on `(cpoint_id, seq)`, so a backup log can have
several result sets, and the statement may yield any of them. -/
def ResultSet (log : BackupLog) (rs : List CpointOp) : Prop :=
  rs.Perm (joinRows log) ∧ List.Pairwise orderBy rs

instance ResultSet_decidable (log : BackupLog) (rs : List CpointOp) :
    Decidable (ResultSet log rs) :=
  inferInstanceAs (Decidable (rs.Perm (joinRows log) ∧ List.Pairwise orderBy rs))

/-- One row as the statement presents it: the seven columns of the select list
of `query`, index 0 to 6. -/
structure Row where
  vbucket_id : Int
  op : Bytes
  key : Bytes
  flg : Int
  exp : Int
  cas : Int
  val : Bytes
  deriving DecidableEq

/-- The select list of `query`:
`cpoint_op.vbucket_id, op, key, flg, exp, cas, val`. -/
def selectList (o : CpointOp) : Row :=
  { vbucket_id := o.vbucket_id, op := o.op, key := o.key, flg := o.flg,
    exp := o.exp, cas := o.cas, val := o.val }

/-! ## The store adapter and the sqlite statement, as seen by `process` -/

/-- Values of `enum queue_operation` that the restore uses. -/
inductive queue_operation where
  | queue_op_set
  | queue_op_del
  deriving DecidableEq

/-- What `sqlite3_column_int` returns for a stored 64-bit integer: its low 32
bits, read as a signed `int`. -/
def sqlite3_column_int (v : Int) : Int :=
  (v + 2147483648) % 4294967296 - 2147483648

/-- The arguments of one call of `store.addUnlessThere`, as `processEntry`
computes them, before any conversion to the parameter types. -/
structure StoreCall where
  key : Bytes
  vbid : Nat
  op : queue_operation
  value : Bytes
  flags : Int
  exp : Int
  cas : Int
  deriving DecidableEq

/-- The store adapter: `addUnlessThere` on a store in state `σ` returns the
`int` result and the next state of the store. -/
structure Store (σ : Type) where
  addUnlessThere : σ → StoreCall → Int × σ

/-- The store during a replay, with the calls of `addUnlessThere` made so far
(oldest first). -/
structure World (σ : Type) where
  store : σ
  calls : List StoreCall

/-- What one `sqlite3_step` returns: `SQLITE_ROW` with the row, `SQLITE_BUSY`,
`SQLITE_DONE`, or another code, with what `sqlite3_errmsg` says then. -/
inductive StepResult where
  | row (r : Row)
  | busy
  | done
  | other (errmsg : String)
  deriving DecidableEq

/-- What the sqlite library does during one `process()`: whether
`sqlite3_open` and `sqlite3_prepare_v2` return `SQLITE_OK`, and what the
successive calls of `sqlite3_step` return. -/
structure Sqlite where
  open_ok : Bool
  prepare_ok : Bool
  steps : List StepResult

/-! ## DecrementalRestorer -/

/-- The increment of a `uint32_t`. -/
def inc32 (n : Nat) : Nat := (n + 1) % 4294967296

/-- The data members of `DecrementalRestorer`; `db` says whether the
database handle is non-NULL. -/
structure DecrementalRestorer where
  db : Bool
  file : String
  restored : Nat
  skipped : Nat
  busy : Nat
  deriving DecidableEq

/-- The constructor `DecrementalRestorer(theEngine, dbname)`. -/
def DecrementalRestorer.new (dbname : String) : DecrementalRestorer :=
  { db := false, file := dbname, restored := 0, skipped := 0, busy := 0 }

/-- The operation that `processEntry` derives from column `op`. -/
def entryOp (op : Bytes) : queue_operation :=
  if op.length > 0 ∧ op.head? = some 100 then queue_operation.queue_op_del
  else queue_operation.queue_op_set

/-- The arguments that `processEntry` passes to `addUnlessThere` for a row. -/
def storeCall (row : Row) : StoreCall :=
  { key := row.key
    vbid := (sqlite3_column_int row.vbucket_id % 65536).toNat
    op := entryOp row.op
    value := row.val
    flags := sqlite3_column_int row.flg
    exp := sqlite3_column_int row.exp
    cas := sqlite3_column_int row.cas }

/-- `DecrementalRestorer::processEntry` on the current row of the statement. -/
def DecrementalRestorer.processEntry {σ : Type} (S : Store σ) (row : Row)
    (self : DecrementalRestorer) (w : World σ) :
    Except String Unit × DecrementalRestorer × World σ :=
  let call := storeCall row
  let r := S.addUnlessThere w.store call
  let w1 : World σ := { store := r.2, calls := w.calls ++ [call] }
  if r.1 = 0 then
    (Except.ok (), { self with restored := inc32 self.restored }, w1)
  else if r.1 = 1 then
    (Except.ok (), { self with skipped := inc32 self.skipped }, w1)
  else
    (Except.error "Failed to restore item", self, w1)

/-- The `while ((rc = sqlite3_step(statement)) != SQLITE_DONE)` loop of
`process`, over the results of the successive steps. `none`: the steps given
end without `SQLITE_DONE` and without an error, so the loop has not ended. -/
def DecrementalRestorer.processLoop {σ : Type} (S : Store σ) :
    List StepResult → DecrementalRestorer → World σ →
    Option (Except String Unit × DecrementalRestorer × World σ)
  | [], _, _ => none
  | StepResult.done :: _, self, w => some (Except.ok (), self, w)
  | StepResult.row r :: rest, self, w =>
    match DecrementalRestorer.processEntry S r self w with
    | (Except.ok _, self1, w1) => DecrementalRestorer.processLoop S rest self1 w1
    | (Except.error e, self1, w1) => some (Except.error e, self1, w1)
  | StepResult.busy :: rest, self, w =>
    DecrementalRestorer.processLoop S rest { self with busy := inc32 self.busy } w
  | StepResult.other errmsg :: _, self, w =>
    some (Except.error ("sqlite error: " ++ errmsg), self, w)

/-- `DecrementalRestorer::process`. -/
def DecrementalRestorer.process {σ : Type} (S : Store σ) (sq : Sqlite)
    (self : DecrementalRestorer) (w : World σ) :
    Option (Except String Unit × DecrementalRestorer × World σ) :=
  if sq.open_ok = false then
    some (Except.error "Failed to open database", { self with db := false }, w)
  else if sq.prepare_ok = false then
    some (Except.error "Failed to prepare statement", { self with db := false }, w)
  else
    match DecrementalRestorer.processLoop S sq.steps { self with db := true } w with
    | some (Except.ok _, self1, w1) => some (Except.ok (), { self1 with db := false }, w1)
    | r => r

/-! ## Runs of the replay loop -/

/-- An outcome of a step that keeps the loop going: a row or a busy signal. -/
inductive Event where
  | row (r : Row)
  | busy
  deriving DecidableEq

/-- The step result of an event. -/
def Event.toStep : Event → StepResult
  | Event.row r => StepResult.row r
  | Event.busy => StepResult.busy

/-- The rows among the events, in order. -/
def rowsOf : List Event → List Row
  | [] => []
  | Event.row r :: es => r :: rowsOf es
  | Event.busy :: es => rowsOf es

/-- The number of busy signals among the events. -/
def busyCount : List Event → Nat
  | [] => 0
  | Event.row _ :: es => busyCount es
  | Event.busy :: es => busyCount es + 1

/-- A statement that produces the events and then `SQLITE_DONE`, on a database
that opens and a query that prepares. -/
def sqliteOf (es : List Event) : Sqlite :=
  { open_ok := true, prepare_ok := true, steps := es.map Event.toStep ++ [StepResult.done] }

/-- The results that the store gives to a sequence of calls, from state `st`. -/
def storeResults {σ : Type} (S : Store σ) : σ → List StoreCall → List Int
  | _, [] => []
  | st, c :: cs =>
    (S.addUnlessThere st c).1 :: storeResults S (S.addUnlessThere st c).2 cs

/-- The state of the store after a sequence of calls, from state `st`. -/
def storeAfter {σ : Type} (S : Store σ) : σ → List StoreCall → σ
  | st, [] => st
  | st, c :: cs => storeAfter S (S.addUnlessThere st c).2 cs

/-- The slot of the store that a call addresses: the vbucket and the key. -/
def StoreCall.slot (c : StoreCall) : Nat × Bytes := (c.vbid, c.key)

/-- A store adapter that applies the first mutation it receives for a
(vbucket, key) and answers "already present" to every later one: what the
glossary calls "unless there". `EventuallyPersistentStore::addUnlessThere`
itself is not among the sources; `process` takes any adapter, and this is the
one whose state is the list of the mutations applied, oldest first. -/
def firstWins : Store (List StoreCall) :=
  { addUnlessThere := fun st c =>
      if c.slot ∈ st.map StoreCall.slot then (1, st) else (0, st ++ [c]) }

/-- The slot of the store that the row of an operation addresses. -/
def rowSlot (o : CpointOp) : Nat × Bytes := (storeCall (selectList o)).slot

/-- Row `a` is newer than row `b`: greater checkpoint, or the same checkpoint
and a greater sequence number. -/
def newer (a b : CpointOp) : Prop :=
  b.cpoint_id < a.cpoint_id ∨ (b.cpoint_id = a.cpoint_id ∧ b.seq < a.seq)

/-- Two rows of one slot differ in (checkpoint, sequence). -/
def distinctPerKey (a b : CpointOp) : Prop :=
  rowSlot a = rowSlot b → ¬ (a.cpoint_id = b.cpoint_id ∧ a.seq = b.seq)

instance distinctPerKey_decidable : DecidableRel distinctPerKey := fun a b =>
  inferInstanceAs (Decidable
    (rowSlot a = rowSlot b → ¬ (a.cpoint_id = b.cpoint_id ∧ a.seq = b.seq)))

/-- The backup log of the scenario of §8: checkpoints 1 and 2 of vbucket 0 are
closed; checkpoint 1 sets key `a` (byte 97) to `v1`, checkpoint 2 sets it to
`v2`. -/
def log2 : BackupLog :=
  { cpoint_state :=
      [{ vbucket_id := 0, cpoint_id := 1, state := "closed" },
       { vbucket_id := 0, cpoint_id := 2, state := "closed" }]
    cpoint_op :=
      [{ vbucket_id := 0, cpoint_id := 1, seq := 1, op := [115], key := [97],
         flg := 0, exp := 0, cas := 0, val := [118, 49] },
       { vbucket_id := 0, cpoint_id := 2, seq := 1, op := [115], key := [97],
         flg := 0, exp := 0, cas := 0, val := [118, 50] }] }

/-- The result set of `query` on `log2`: the row of checkpoint 2, then the row
of checkpoint 1. -/
def rows2 : List CpointOp :=
  [{ vbucket_id := 0, cpoint_id := 2, seq := 1, op := [115], key := [97],
     flg := 0, exp := 0, cas := 0, val := [118, 50] },
   { vbucket_id := 0, cpoint_id := 1, seq := 1, op := [115], key := [97],
     flg := 0, exp := 0, cas := 0, val := [118, 49] }]

/-- The operation row number `i` of a long checkpoint: checkpoint 1 of
vbucket 0, sequence number `i`, a set of key `a`. -/
def longOp (i : Nat) : CpointOp :=
  { vbucket_id := 0, cpoint_id := 1, seq := i, op := [115], key := [97],
    flg := 0, exp := 0, cas := 0, val := [118] }

/-- The rows `n - 1`, .., `0` of the long checkpoint. -/
def longOps : Nat → List CpointOp
  | 0 => []
  | n + 1 => longOp n :: longOps n

/-- A backup log with one closed checkpoint of `n` operations on one key. -/
def longLog (n : Nat) : BackupLog :=
  { cpoint_state := [{ vbucket_id := 0, cpoint_id := 1, state := "closed" }]
    cpoint_op := longOps n }

/-- The call that sets key `a` of vbucket 0 to the given value. -/
def setA (value : Bytes) : StoreCall :=
  { key := [97], vbid := 0, op := queue_operation.queue_op_set, value := value,
    flags := 0, exp := 0, cas := 0 }

/-- A store that applies every mutation: `addUnlessThere` always returns 0. -/
def acceptAll : Store Unit :=
  { addUnlessThere := fun _ _ => (0, ()) }

/-- A row of the statement: vbucket 0, a set of key `a` (byte 97). -/
def rowA : Row :=
  { vbucket_id := 0, op := [115], key := [97], flg := 0, exp := 0, cas := 0, val := [118] }

instance orderBy_total : IsTotal CpointOp orderBy :=
  ⟨fun a b => by
    unfold orderBy
    omega⟩

instance orderBy_trans : IsTrans CpointOp orderBy :=
  ⟨fun a b c hab hbc => by
    unfold orderBy at *
    omega⟩

/-- The (vbucket, checkpoint) of the operation row has a row in `cpoint_state`
whose state is "closed". -/
def closedIn (log : BackupLog) (o : CpointOp) : Bool :=
  log.cpoint_state.any fun s => joinsClosed s o

/-- Table `cpoint_state` is keyed by (vbucket, checkpoint), as §6 of the
specification describes it: no two of its rows have the same key. -/
def stateKeyed (log : BackupLog) : Prop :=
  (log.cpoint_state.map fun (s : CpointState) => (s.vbucket_id, s.cpoint_id)).Nodup

instance stateKeyed_decidable (log : BackupLog) : Decidable (stateKeyed log) :=
  inferInstanceAs (Decidable
    (log.cpoint_state.map fun (s : CpointState) => (s.vbucket_id, s.cpoint_id)).Nodup)

/-- A store that counts the calls, applies the first mutation and fails every
later one with result 2. -/
def failSecond : Store Nat :=
  { addUnlessThere := fun n _ => (if n = 0 then 0 else 2, n + 1) }

/-! ## RestoreManagerImpl -/

/-- The five `State` objects; the code compares their addresses. -/
inductive State where
  | Uninitialized
  | Initialized
  | Starting
  | Running
  | Zombie
  deriving DecidableEq

/-- `State::toString`: the name given to the constructor of each object. -/
def State.toString : State → String
  | State.Uninitialized => "uninitialized"
  | State.Initialized => "Initialized"
  | State.Starting => "starting"
  | State.Running => "running"
  | State.Zombie => "Zombie"

/-- Where a worker thread stands in `restoreThreadMain`, that is in `run()`. -/
inductive Pc where
  /-- created, before `setState(State::Running)` -/
  | spawned
  /-- after `setState(State::Running)`, in `instance->process()` -/
  | replaying
  /-- `process()` has returned, before `setState(State::Zombie)` -/
  | replayed
  /-- `run()` has returned: the thread has terminated -/
  | finished
  deriving DecidableEq

/-- A thread made by `pthread_create` and not yet joined. -/
structure Thread where
  tid : Nat
  pc : Pc
  deriving DecidableEq

/-- The data members of `RestoreManagerImpl` (the mutex apart: every member
function holds it from its first to its last access of the members). The
pointer `instance` is `instance_`, `none` for NULL. -/
structure RestoreManagerImpl where
  instance_ : Option DecrementalRestorer
  terminate : Bool
  state : State
  thread : Nat
  deriving DecidableEq

/-- The manager together with the part of the process it acts on: the worker
threads created and not yet joined, and the number of `DecrementalRestorer`
objects allocated with `new` and not yet deleted. -/
structure System where
  mgr : RestoreManagerImpl
  threads : List Thread
  jobs : Nat
  deriving DecidableEq

/-- The constructor `RestoreManagerImpl(theEngine)`. It sets `instance` and
`state`; the values that `terminate` and `thread` have then are parameters. -/
def RestoreManagerImpl.new (terminate : Bool) (thread : Nat) : RestoreManagerImpl :=
  { instance_ := none, terminate := terminate, state := State.Uninitialized,
    thread := thread }

/-- A process with a freshly constructed manager. -/
def System.init (terminate : Bool) (thread : Nat) : System :=
  { mgr := RestoreManagerImpl.new terminate thread, threads := [], jobs := 0 }

/-- The C library as the manager uses it: `access(path, F_OK) == 0`, and
`strerror`. -/
structure Os where
  access : String → Bool
  strerror : Int → String

/-- The value of `ESRCH` in `errno.h`. -/
def ESRCH : Int := 3

/-- The errors of `pthread_join` other than `ESRCH`. -/
inductive JoinFault where
  | EINVAL
  | EDEADLK
  deriving DecidableEq

/-- The values of `EINVAL` and `EDEADLK` in `errno.h`. -/
def JoinFault.code : JoinFault → Int
  | JoinFault.EINVAL => 22
  | JoinFault.EDEADLK => 35

/-- How a call of a member function ends: it returns or throws and leaves a
state; or it does not return in this state (`pthread_join` waits for a thread
that has not terminated); or the process is aborted (a failed `assert`, or an
exception that leaves the thread function). -/
inductive Call (α : Type) where
  | returned (r : Except String Unit) (s : α)
  | blocked
  | aborted

/-- `pthread_join(thread, &rcode)` on the threads that exist. With a fault it
returns that error. Otherwise: `ESRCH` when no thread has this id; 0 when the
thread has terminated, and the thread is gone; `none` when the thread has not
terminated, so the call does not return. -/
def pthread_join (threads : List Thread) (thread : Nat) (fault : Option JoinFault) :
    Option (Int × List Thread) :=
  match fault with
  | some e => some (e.code, threads)
  | none =>
    match threads.find? fun t => decide (t.tid = thread) with
    | none => some (ESRCH, threads)
    | some t =>
      if t.pc = Pc.finished then
        some (0, threads.filter fun t => decide (t.tid ≠ thread))
      else none

/-- `RestoreManagerImpl::setState_UNLOCKED`. -/
def RestoreManagerImpl.setState_UNLOCKED (s : State) (m : RestoreManagerImpl) :
    RestoreManagerImpl :=
  { m with state := s }

/-- `RestoreManagerImpl::setState`: `setState_UNLOCKED` under the mutex. -/
def RestoreManagerImpl.setState (s : State) (m : RestoreManagerImpl) :
    RestoreManagerImpl :=
  RestoreManagerImpl.setState_UNLOCKED s m

/-- `RestoreManagerImpl::reap_UNLOCKED`. -/
def RestoreManagerImpl.reap_UNLOCKED (os : Os) (fault : Option JoinFault) (sys : System) :
    Call System :=
  match sys.mgr.instance_ with
  | some _ =>
    match pthread_join sys.threads sys.mgr.thread fault with
    | none => Call.blocked
    | some (ret, threads1) =>
      if ret ≠ 0 ∧ ret ≠ ESRCH then
        Call.returned
          (Except.error ("Failed to join restore thread: " ++ os.strerror ret))
          { sys with threads := threads1 }
      else
        Call.returned (Except.ok ())
          { mgr := RestoreManagerImpl.setState_UNLOCKED State.Uninitialized
              { sys.mgr with instance_ := none }
            threads := threads1
            jobs := sys.jobs - 1 }
  | none => Call.returned (Except.ok ()) sys

/-- The end of `initialize`, from `assert(instance == NULL)` on. -/
def RestoreManagerImpl.initialize_new (config : String) (sys : System) : Call System :=
  match sys.mgr.instance_ with
  | some _ => Call.aborted
  | none =>
    Call.returned (Except.ok ())
      { sys with
        mgr := RestoreManagerImpl.setState_UNLOCKED State.Initialized
          { sys.mgr with instance_ := some (DecrementalRestorer.new config) }
        jobs := sys.jobs + 1 }

/-- `RestoreManagerImpl::initialize`. -/
def RestoreManagerImpl.initialize (os : Os) (config : String) (fault : Option JoinFault)
    (sys : System) : Call System :=
  if os.access config = false then
    Call.returned (Except.error "File not found") sys
  else if sys.mgr.state ≠ State.Uninitialized then
    if sys.mgr.state ≠ State.Zombie then
      Call.returned (Except.error "restorer isn't idle!") sys
    else
      match RestoreManagerImpl.reap_UNLOCKED os fault sys with
      | Call.returned (Except.ok _) sys1 => RestoreManagerImpl.initialize_new config sys1
      | r => r
  else
    RestoreManagerImpl.initialize_new config sys

/-- `RestoreManagerImpl::start`; `ret` is what `pthread_create` returns, and
`tid` the id it stores in `thread` when it returns 0. -/
def RestoreManagerImpl.start (os : Os) (ret : Int) (tid : Nat) (sys : System) :
    Call System :=
  match sys.mgr.instance_ with
  | none => Call.returned (Except.error "you need to call initialize before start") sys
  | some _ =>
    if sys.mgr.state ≠ State.Initialized then
      Call.returned (Except.error "Restore already running") sys
    else if ret ≠ 0 then
      Call.returned
        (Except.error ("Failed to create restore thread: " ++ os.strerror ret))
        { sys with
          mgr := { sys.mgr with state := State.Uninitialized, instance_ := none }
          jobs := sys.jobs - 1 }
    else
      Call.returned (Except.ok ())
        { sys with
          mgr := { sys.mgr with state := State.Starting, thread := tid }
          threads := sys.threads ++ [{ tid := tid, pc := Pc.spawned }] }

/-- `RestoreManagerImpl::abort`. -/
def RestoreManagerImpl.abort (sys : System) : Call System :=
  Call.returned (Except.ok ()) { sys with mgr := { sys.mgr with terminate := true } }

/-- `RestoreManagerImpl::wait`. -/
def RestoreManagerImpl.wait (os : Os) (fault : Option JoinFault) (sys : System) :
    Call System :=
  if sys.mgr.state ≠ State.Initialized ∧ sys.mgr.state ≠ State.Uninitialized then
    RestoreManagerImpl.reap_UNLOCKED os fault sys
  else
    Call.returned (Except.ok ()) sys

/-- The value of a stat, before `addStat` formats it. -/
inductive StatValue where
  | str (s : String)
  | num (n : Nat)
  | flag (b : Bool)
  deriving DecidableEq

/-- `RestoreManagerImpl::stats`: the stats it adds after those of the base
class `RestoreManager`, in order. -/
def RestoreManagerImpl.stats (m : RestoreManagerImpl) : List (String × StatValue) :=
  [("engine", StatValue.str "RestoreManagerImpl"),
   ("state", StatValue.str m.state.toString)] ++
  match m.instance_ with
  | some job =>
    [("file", StatValue.str job.file),
     ("number_busy", StatValue.num job.busy),
     ("number_skipped", StatValue.num job.skipped),
     ("number_restored", StatValue.num job.restored),
     ("terminate", StatValue.flag m.terminate)]
  | none => []

/-- `RestoreManagerImpl::isRunning`. -/
def RestoreManagerImpl.isRunning (m : RestoreManagerImpl) : Bool :=
  decide (m.state = State.Starting) || decide (m.state = State.Running)

/-- The store as a run of `process()` sees it: the results of the successive
calls of `addUnlessThere` (0 once they are used up). -/
def scripted : Store (List Int) :=
  { addUnlessThere := fun st _ => (st.head?.getD 0, st.tail) }

/-- `instance->process()` in `run()`, for the sqlite library and the store
results of this run. The exception of a failed `process()` is not caught in
`run()` nor in `restoreThreadMain`: the process is aborted. Steps that end
without `SQLITE_DONE`: `process()` has not returned. -/
def RestoreManagerImpl.run_process (sq : Sqlite) (results : List Int)
    (m : RestoreManagerImpl) : Call RestoreManagerImpl :=
  match m.instance_ with
  | none => Call.aborted
  | some job =>
    match DecrementalRestorer.process scripted sq job { store := results, calls := [] } with
    | none => Call.blocked
    | some (Except.ok _, job1, _) =>
      Call.returned (Except.ok ()) { m with instance_ := some job1 }
    | some (Except.error _, _, _) => Call.aborted

/-- `RestoreManagerImpl::run`, the body of the worker thread. -/
def RestoreManagerImpl.run (sq : Sqlite) (results : List Int) (m : RestoreManagerImpl) :
    Call RestoreManagerImpl :=
  match RestoreManagerImpl.run_process sq results
      (RestoreManagerImpl.setState State.Running m) with
  | Call.returned r m1 => Call.returned r (RestoreManagerImpl.setState State.Zombie m1)
  | r => r

/-! ## The manager and its worker as a transition system -/

/-- What can happen next: a call of a member function from some thread, with
what the library answers in it, or the next piece of `run()` in a worker. -/
inductive Action where
  | initializeCall (config : String) (fault : Option JoinFault)
  | startCall (ret : Int) (tid : Nat)
  | abortCall
  | waitCall (fault : Option JoinFault)
  | statsCall
  | isRunningCall
  | workerSetRunning (tid : Nat)
  | workerReplay (tid : Nat) (sq : Sqlite) (results : List Int)
  | workerSetZombie (tid : Nat)

/-- The state that a call leaves, if it returns (normally or by a throw). -/
def Call.state? {α : Type} : Call α → Option α
  | Call.returned _ s => some s
  | Call.blocked => none
  | Call.aborted => none

/-- Move the thread `tid` from `pc` to `pc1`. -/
def advance (tid : Nat) (pc pc1 : Pc) (threads : List Thread) : List Thread :=
  threads.map fun t => if t.tid = tid ∧ t.pc = pc then { t with pc := pc1 } else t

/-- One step of the system: `none` when the action cannot happen in this state
(a call that does not return, a thread that is not at this point of `run()`,
a thread id that `pthread_create` cannot hand out) or ends the process. -/
def step (os : Os) (a : Action) (sys : System) : Option System :=
  match a with
  | Action.initializeCall config fault =>
    ( RestoreManagerImpl.initialize os config fault sys).state?
  | Action.startCall ret tid =>
    if tid ∈ sys.threads.map Thread.tid then none
    else (RestoreManagerImpl.start os ret tid sys).state?
  | Action.abortCall => (RestoreManagerImpl.abort sys).state?
  | Action.waitCall fault => (RestoreManagerImpl.wait os fault sys).state?
  | Action.statsCall => some sys
  | Action.isRunningCall => some sys
  | Action.workerSetRunning tid =>
    if { tid := tid, pc := Pc.spawned } ∈ sys.threads then
      some { sys with
        mgr := RestoreManagerImpl.setState State.Running sys.mgr
        threads := advance tid Pc.spawned Pc.replaying sys.threads }
    else none
  | Action.workerReplay tid sq results =>
    if { tid := tid, pc := Pc.replaying } ∈ sys.threads then
      match RestoreManagerImpl.run_process sq results sys.mgr with
      | Call.returned _ m1 =>
        some { sys with mgr := m1, threads := advance tid Pc.replaying Pc.replayed sys.threads }
      | _ => none
    else none
  | Action.workerSetZombie tid =>
    if { tid := tid, pc := Pc.replayed } ∈ sys.threads then
      some { sys with
        mgr := RestoreManagerImpl.setState State.Zombie sys.mgr
        threads := advance tid Pc.replayed Pc.finished sys.threads }
    else none

/-- The states that a process reaches from a freshly constructed manager. -/
inductive Reachable (os : Os) : System → Prop where
  | init (terminate : Bool) (thread : Nat) : Reachable os (System.init terminate thread)
  | step (a : Action) (sys sys1 : System) :
      Reachable os sys → step os a sys = some sys1 → Reachable os sys1

/-- What holds of the job, the workers and the allocated jobs in each state of
the manager. -/
def Inv (sys : System) : Prop :=
  match sys.mgr.state with
  | State.Uninitialized => sys.mgr.instance_ = none ∧ sys.threads = [] ∧ sys.jobs = 0
  | State.Initialized => sys.mgr.instance_.isSome = true ∧ sys.threads = [] ∧ sys.jobs = 1
  | State.Starting =>
    sys.mgr.instance_.isSome = true ∧
      sys.threads = [{ tid := sys.mgr.thread, pc := Pc.spawned }] ∧ sys.jobs = 1
  | State.Running =>
    sys.mgr.instance_.isSome = true ∧
      (sys.threads = [{ tid := sys.mgr.thread, pc := Pc.replaying }] ∨
        sys.threads = [{ tid := sys.mgr.thread, pc := Pc.replayed }]) ∧ sys.jobs = 1
  | State.Zombie =>
    sys.mgr.instance_.isSome = true ∧
      sys.threads = [{ tid := sys.mgr.thread, pc := Pc.finished }] ∧ sys.jobs = 1

/-- A C library in which the one file that exists is `backup.mbb`. -/
def os0 : Os :=
  { access := fun path => decide (path = "backup.mbb"), strerror := fun _ => "error" }

/-- The system after `initialize("backup.mbb")` on a fresh manager. -/
def sysInitialized : System :=
  { mgr := { instance_ := some (DecrementalRestorer.new "backup.mbb"), terminate := false,
             state := State.Initialized, thread := 0 }
    threads := [], jobs := 1 }

/-- The system after `initialize("backup.mbb")` and `start()`, the worker being
thread 7. -/
def sysStarting : System :=
  { mgr := { instance_ := some (DecrementalRestorer.new "backup.mbb"), terminate := false,
             state := State.Starting, thread := 7 }
    threads := [{ tid := 7, pc := Pc.spawned }], jobs := 1 }

/-- The system once the worker has set the state to running. -/
def sysRunning : System :=
  { mgr := { instance_ := some (DecrementalRestorer.new "backup.mbb"), terminate := false,
             state := State.Running, thread := 7 }
    threads := [{ tid := 7, pc := Pc.replaying }], jobs := 1 }

/-- The system once the worker has replayed one row, which the store applied,
and has terminated. -/
def sysZombie : System :=
  { mgr := { instance_ := some { db := false, file := "backup.mbb", restored := 1,
                                 skipped := 0, busy := 0 },
             terminate := false, state := State.Zombie, thread := 7 }
    threads := [{ tid := 7, pc := Pc.finished }], jobs := 1 }

/-- A database that cannot be opened. -/
def sqOpenFails : Sqlite :=
  { open_ok := false, prepare_ok := true, steps := [] }

/-- A database on which the statement cannot be prepared. -/
def sqPrepareFails : Sqlite :=
  { open_ok := true, prepare_ok := false, steps := [] }

/-- A statement whose second step fails with an error of sqlite. -/
def sqStepFails : Sqlite :=
  { open_ok := true, prepare_ok := true
    steps := [StepResult.row rowA, StepResult.other "disk I/O error"] }

/-- The system after `wait()` in the state `sysZombie`: the worker is joined
and the job is freed. -/
def sysReaped : System :=
  { mgr := { instance_ := none, terminate := false, state := State.Uninitialized,
             thread := 7 }
    threads := [], jobs := 0 }

/-- The loop of `process` over a sequence of events, up to the end of the
sequence or to the row at which `processEntry` throws: the job and the store as
the loop has left them then. -/
def DecrementalRestorer.replay {σ : Type} (S : Store σ) :
    List Event → DecrementalRestorer → World σ →
    Except String Unit × DecrementalRestorer × World σ
  | [], self, w => (Except.ok (), self, w)
  | Event.row r :: es, self, w =>
    match DecrementalRestorer.processEntry S r self w with
    | (Except.ok _, self1, w1) => DecrementalRestorer.replay S es self1 w1
    | (Except.error e, self1, w1) => (Except.error e, self1, w1)
  | Event.busy :: es, self, w =>
    DecrementalRestorer.replay S es { self with busy := inc32 self.busy } w

/-! ## The atomic update helpers of `atomic.h` -/

/-- What a helper has done when it returns: the value that `obj` holds then,
the value that its successful compare-exchange replaced (if it made one), and
the last value of `obj` that it observed. -/
structure AtomicRun (T : Type) where
  obj : T
  replaced : Option T
  lastSeen : T

/-- `atomic_setIfBigger(obj, newValue)`, from the value that its first load
reads. `env` is what other threads do at the places where they can come between
two accesses of the helper, in order: between a load and the compare-exchange
that follows it, and between a failed compare-exchange and the load that follows
it; `some v`: they have written, and `obj` holds `v` there; `none`: nothing.
After the end of `env` nobody writes. -/
def atomic_setIfBigger {T : Type} [LinearOrder T] :
    List (Option T) → T → T → AtomicRun T
  | [], obj, newValue =>
    if newValue > obj then { obj := newValue, replaced := some obj, lastSeen := obj }
    else { obj := obj, replaced := none, lastSeen := obj }
  | a :: env1, obj, newValue =>
    if newValue > obj then
      if a.getD obj = obj then
        { obj := newValue, replaced := some obj, lastSeen := obj }
      else
        match env1 with
        | [] => atomic_setIfBigger [] (a.getD obj) newValue
        | b :: env2 => atomic_setIfBigger env2 (b.getD (a.getD obj)) newValue
    else { obj := obj, replaced := none, lastSeen := obj }

/-- `atomic_setIfLess(obj, newValue)`, with `env` as for `atomic_setIfBigger`. -/
def atomic_setIfLess {T : Type} [LinearOrder T] :
    List (Option T) → T → T → AtomicRun T
  | [], obj, newValue =>
    if newValue < obj then { obj := newValue, replaced := some obj, lastSeen := obj }
    else { obj := obj, replaced := none, lastSeen := obj }
  | a :: env1, obj, newValue =>
    if newValue < obj then
      if a.getD obj = obj then
        { obj := newValue, replaced := some obj, lastSeen := obj }
      else
        match env1 with
        | [] => atomic_setIfLess [] (a.getD obj) newValue
        | b :: env2 => atomic_setIfLess env2 (b.getD (a.getD obj)) newValue
    else { obj := obj, replaced := none, lastSeen := obj }

/-- `atomic_swapIfNot(obj, badValue, newValue)`, from the value that its first
load reads, with `env` as for `atomic_setIfBigger`: the value it returns and the
value that `obj` holds when it returns. -/
def atomic_swapIfNot {T : Type} [DecidableEq T] :
    List (Option T) → T → T → T → T × T
  | [], obj, badValue, newValue =>
    if obj ≠ badValue then (obj, newValue) else (obj, obj)
  | a :: env1, obj, badValue, newValue =>
    if obj ≠ badValue then
      if a.getD obj = obj then (obj, newValue)
      else
        match env1 with
        | [] => atomic_swapIfNot [] (a.getD obj) badValue newValue
        | b :: env2 => atomic_swapIfNot env2 (b.getD (a.getD obj)) badValue newValue
    else (obj, obj)

/-! ## The mutex of the manager during `wait()` -/

/-- The system at the grain of the mutex in `wait()`: `waiter` says that a
thread is inside `wait()`, after `LockHolder lh(mutex)` and before the end of
the function, so that it holds the mutex. -/
structure Locked where
  sys : System
  waiter : Bool
  deriving DecidableEq

/-- What can happen next at this grain: a thread enters `wait()` and takes the
mutex; the thread in `wait()` runs the rest of the function and releases the
mutex; or any other action, as in `step`. -/
inductive LockAction where
  | enterWait
  | leaveWait (fault : Option JoinFault)
  | other (a : Action)

/-- The actions that cannot end without the mutex: start, abort, wait, stats
and isRunning (`LockHolder lh(mutex)`), `initialize` on a path for which
`access` succeeds, and the `setState` of the worker. `initialize` throws "File
not found" before its `LockHolder` when `access` fails, and
`instance->process()` in `run()` runs without the mutex. -/
def needsMutex (os : Os) : Action → Bool
  | Action.workerReplay _ _ _ => false
  | Action.initializeCall config _ => os.access config
  | _ => true

/-- One step at the grain of the mutex: `none` when the action cannot happen
now: the mutex it needs is held by the thread in `wait()`, or the rest of
`wait()` does not return because `pthread_join` waits for the worker. -/
def lockStep (os : Os) (a : LockAction) (s : Locked) : Option Locked :=
  match a with
  | LockAction.enterWait =>
    if s.waiter then none else some { s with waiter := true }
  | LockAction.leaveWait fault =>
    if s.waiter then
      match RestoreManagerImpl.wait os fault s.sys with
      | Call.returned _ sys1 => some { sys := sys1, waiter := false }
      | _ => none
    else none
  | LockAction.other a =>
    if s.waiter && needsMutex os a then none
    else (step os a s.sys).map fun sys1 => { s with sys := sys1 }

/-- The states reached at the grain of the mutex from a freshly constructed
manager. -/
inductive LockReachable (os : Os) : Locked → Prop where
  | init (terminate : Bool) (thread : Nat) :
      LockReachable os { sys := System.init terminate thread, waiter := false }
  | step (a : LockAction) (s s1 : Locked) :
      LockReachable os s → lockStep os a s = some s1 → LockReachable os s1

/-- The system after the worker has replayed one row, which the store applied,
and before it sets the state to Zombie. -/
def sysReplayed : System :=
  { mgr := { instance_ := some { db := false, file := "backup.mbb", restored := 1,
                                 skipped := 0, busy := 0 },
             terminate := false, state := State.Running, thread := 7 }
    threads := [{ tid := 7, pc := Pc.replayed }], jobs := 1 }

/-! ## The reference counted pointers of `atomic.h`, one operation at a time -/

/-- The value of an `int` after an operation whose exact result is `v`. -/
def int32 (v : Int) : Int :=
  (v + 2147483648) % 4294967296 - 2147483648

/-- The `RCValue` objects and the handles on them. Objects are named by their
addresses: `refcount p` is the `_rc_refcount` of the object at `p` and
`deleted p` the number of times `delete` has run on it. The handles (of class
`RCPtr` or `SingleThreadedRCPtr`) are numbered in the order of their
construction: entry `h` is `some value` while handle `h` lives, with `value`
its pointer (`none` for NULL), and `none` once the handle is destroyed. -/
structure RcHeap where
  refcount : Nat → Int
  deleted : Nat → Nat
  handles : List (Option (Option Nat))

/-- Freshly constructed objects (`RCValue()` sets the count to 0) and no
handle. -/
def RcHeap.fresh : RcHeap :=
  { refcount := fun _ => 0, deleted := fun _ => 0, handles := [] }

/-- The pointer of handle `h`, if the handle lives. -/
def RcHeap.value? (hp : RcHeap) (h : Nat) : Option (Option Nat) :=
  match hp.handles[h]? with
  | some (some value) => some value
  | _ => none

/-- The number of live handles that point to the object at `p`. -/
def RcHeap.live (hp : RcHeap) (p : Nat) : Nat :=
  hp.handles.count (some (some p))

/-- `RCValue::_rc_incref`: the value returned and the heap afterwards. -/
def RCValue._rc_incref (p : Nat) (hp : RcHeap) : Int × RcHeap :=
  (int32 (hp.refcount p + 1),
    { hp with refcount := Function.update hp.refcount p (int32 (hp.refcount p + 1)) })

/-- `RCValue::_rc_decref`: the value returned and the heap afterwards. -/
def RCValue._rc_decref (p : Nat) (hp : RcHeap) : Int × RcHeap :=
  (int32 (hp.refcount p - 1),
    { hp with refcount := Function.update hp.refcount p (int32 (hp.refcount p - 1)) })

/-- The statement `delete` on the object at `p`. -/
def RcHeap.delete (p : Nat) (hp : RcHeap) : RcHeap :=
  { hp with deleted := Function.update hp.deleted p (hp.deleted p + 1) }

/-- The statement at the end of `swap` and in the destructors of both classes:
`if (tmp != NULL && static_cast<RCValue *>(tmp)->_rc_decref() == 0) delete tmp`. -/
def dropRef (tmp : Option Nat) (hp : RcHeap) : RcHeap :=
  match tmp with
  | none => hp
  | some p =>
    if (RCValue._rc_decref p hp).1 = 0 then (RCValue._rc_decref p hp).2.delete p
    else (RCValue._rc_decref p hp).2

/-- `RCPtr::gimme` on a handle whose pointer is `value`. -/
def RCPtr.gimme (value : Option Nat) (hp : RcHeap) : Option Nat × RcHeap :=
  match value with
  | some p => (some p, (RCValue._rc_incref p hp).2)
  | none => (none, hp)

/-- `RCPtr::swap(newValue)` on handle `h`. -/
def RCPtr.swap (h : Nat) (newValue : Option Nat) (hp : RcHeap) : Option RcHeap :=
  match hp.value? h with
  | none => none
  | some tmp => some (dropRef tmp { hp with handles := hp.handles.set h (some newValue) })

/-- The constructor `RCPtr(C *init)`; the new handle is the next one. -/
def RCPtr.ctor (init : Option Nat) (hp : RcHeap) : RcHeap :=
  match init with
  | some p =>
    (RCValue._rc_incref p { hp with handles := hp.handles ++ [some init] }).2
  | none => { hp with handles := hp.handles ++ [some init] }

/-- The copy constructor `RCPtr(const RCPtr<C> &other)`. -/
def RCPtr.copy (other : Nat) (hp : RcHeap) : Option RcHeap :=
  match hp.value? other with
  | none => none
  | some value =>
    some { (RCPtr.gimme value hp).2 with
      handles := (RCPtr.gimme value hp).2.handles ++ [some (RCPtr.gimme value hp).1] }

/-- The destructor `~RCPtr()` on handle `h`. -/
def RCPtr.dtor (h : Nat) (hp : RcHeap) : Option RcHeap :=
  match hp.value? h with
  | none => none
  | some value => some (dropRef value { hp with handles := hp.handles.set h none })

/-- `RCPtr::reset(C *newValue)` on handle `h`. -/
def RCPtr.reset (h : Nat) (newValue : Option Nat) (hp : RcHeap) : Option RcHeap :=
  match newValue with
  | some p => RCPtr.swap h newValue (RCValue._rc_incref p hp).2
  | none => RCPtr.swap h newValue hp

/-- `RCPtr::reset(const RCPtr<C> &other)` on handle `h`; `operator=` is the
same call. -/
def RCPtr.assign (h other : Nat) (hp : RcHeap) : Option RcHeap :=
  match hp.value? other with
  | none => none
  | some value => RCPtr.swap h (RCPtr.gimme value hp).1 (RCPtr.gimme value hp).2

/-- `SingleThreadedRCPtr::gimme` on a handle whose pointer is `value`. -/
def SingleThreadedRCPtr.gimme (value : Option Nat) (hp : RcHeap) : Option Nat × RcHeap :=
  match value with
  | some p => (some p, (RCValue._rc_incref p hp).2)
  | none => (none, hp)

/-- `SingleThreadedRCPtr::swap(newValue)` on handle `h`. -/
def SingleThreadedRCPtr.swap (h : Nat) (newValue : Option Nat) (hp : RcHeap) :
    Option RcHeap :=
  match hp.value? h with
  | none => none
  | some old => some (dropRef old { hp with handles := hp.handles.set h (some newValue) })

/-- The constructor `SingleThreadedRCPtr(T *init)`. -/
def SingleThreadedRCPtr.ctor (init : Option Nat) (hp : RcHeap) : RcHeap :=
  match init with
  | some p =>
    (RCValue._rc_incref p { hp with handles := hp.handles ++ [some init] }).2
  | none => { hp with handles := hp.handles ++ [some init] }

/-- The copy constructor of `SingleThreadedRCPtr`. -/
def SingleThreadedRCPtr.copy (other : Nat) (hp : RcHeap) : Option RcHeap :=
  match hp.value? other with
  | none => none
  | some value =>
    some { (SingleThreadedRCPtr.gimme value hp).2 with
      handles := (SingleThreadedRCPtr.gimme value hp).2.handles ++
        [some (SingleThreadedRCPtr.gimme value hp).1] }

/-- The destructor `~SingleThreadedRCPtr()` on handle `h`. -/
def SingleThreadedRCPtr.dtor (h : Nat) (hp : RcHeap) : Option RcHeap :=
  match hp.value? h with
  | none => none
  | some value => some (dropRef value { hp with handles := hp.handles.set h none })

/-- `SingleThreadedRCPtr::reset(T *newValue)` on handle `h`. -/
def SingleThreadedRCPtr.reset (h : Nat) (newValue : Option Nat) (hp : RcHeap) :
    Option RcHeap :=
  match newValue with
  | some p => SingleThreadedRCPtr.swap h newValue (RCValue._rc_incref p hp).2
  | none => SingleThreadedRCPtr.swap h newValue hp

/-- `SingleThreadedRCPtr::reset(const SingleThreadedRCPtr<T> &other)` on handle
`h`; `operator=` is the same call. -/
def SingleThreadedRCPtr.assign (h other : Nat) (hp : RcHeap) : Option RcHeap :=
  match hp.value? other with
  | none => none
  | some value =>
    SingleThreadedRCPtr.swap h (SingleThreadedRCPtr.gimme value hp).1
      (SingleThreadedRCPtr.gimme value hp).2

/-- The two handle classes. -/
inductive PtrClass where
  | RCPtr
  | SingleThreadedRCPtr
  deriving DecidableEq

/-- A handle operation: construct a handle from a raw pointer, copy a handle,
reset a handle to a raw pointer, assign a handle to a handle, destroy a
handle. -/
inductive RcOp where
  | construct (init : Option Nat)
  | copy (other : Nat)
  | reset (h : Nat) (newValue : Option Nat)
  | assign (h other : Nat)
  | destroy (h : Nat)
  deriving DecidableEq

/-- A raw pointer that an operation may be given: NULL, or the address of an
object on which `delete` has not run (a fresh object, or one that a live handle
holds). -/
def RcHeap.rawOk (hp : RcHeap) (raw : Option Nat) : Bool :=
  match raw with
  | none => true
  | some p => decide (hp.deleted p = 0)

/-- One handle operation of the class `cls`: `none` when the operation names a
handle that does not live or a raw pointer to a deleted object. -/
def rcStep (cls : PtrClass) (op : RcOp) (hp : RcHeap) : Option RcHeap :=
  match cls, op with
  | PtrClass.RCPtr, RcOp.construct init =>
    if hp.rawOk init then some (RCPtr.ctor init hp) else none
  | PtrClass.RCPtr, RcOp.copy other => RCPtr.copy other hp
  | PtrClass.RCPtr, RcOp.reset h newValue =>
    if hp.rawOk newValue then RCPtr.reset h newValue hp else none
  | PtrClass.RCPtr, RcOp.assign h other => RCPtr.assign h other hp
  | PtrClass.RCPtr, RcOp.destroy h => RCPtr.dtor h hp
  | PtrClass.SingleThreadedRCPtr, RcOp.construct init =>
    if hp.rawOk init then some (SingleThreadedRCPtr.ctor init hp) else none
  | PtrClass.SingleThreadedRCPtr, RcOp.copy other => SingleThreadedRCPtr.copy other hp
  | PtrClass.SingleThreadedRCPtr, RcOp.reset h newValue =>
    if hp.rawOk newValue then SingleThreadedRCPtr.reset h newValue hp else none
  | PtrClass.SingleThreadedRCPtr, RcOp.assign h other =>
    SingleThreadedRCPtr.assign h other hp
  | PtrClass.SingleThreadedRCPtr, RcOp.destroy h => SingleThreadedRCPtr.dtor h hp

/-- The heaps reached from fresh objects by handle operations of one class,
one at a time, with at most `bound` live handles on an object at a time. -/
inductive RcReach (cls : PtrClass) (bound : Nat) : RcHeap → Prop where
  | fresh : RcReach cls bound RcHeap.fresh
  | step (op : RcOp) (hp hp1 : RcHeap) :
      RcReach cls bound hp → rcStep cls op hp = some hp1 →
      (∀ p, hp1.live p ≤ bound) → RcReach cls bound hp1

/-- The invariant of the heap while a reference to `pend` has been counted and
not yet stored in a handle (`none`: no such reference): the count of an object
is the number of its live handles, plus one for the object `pend`, as an `int`;
`delete` has run at most once on an object, and then no handle lives on it. -/
def RcPending (hp : RcHeap) (pend : Option Nat) : Prop :=
  ∀ p, hp.refcount p = int32 ((hp.live p : Int) + (if pend = some p then 1 else 0)) ∧
    hp.deleted p ≤ 1 ∧ (hp.deleted p = 1 → hp.live p = 0 ∧ pend ≠ some p)

/-- A sequence of handle operations of one class, one at a time. -/
def rcRun (cls : PtrClass) : List RcOp → RcHeap → Option RcHeap
  | [], hp => some hp
  | op :: ops, hp =>
    match rcStep cls op hp with
    | some hp1 => rcRun cls ops hp1
    | none => none

/-- The heap after `RCPtr<C> a(p)` on the fresh object at address 0. -/
def heapOne : RcHeap := RCPtr.ctor (some 0) RcHeap.fresh

/-- The loop of `atomic_setIfBigger(obj, newValue)` from the test of its
condition, under any interference. `oldValue` is what the last load has read.
`sched` is what other threads do at the places where they can come between two
accesses of the helper, numbered from `place`: at `place`, between that load and
the compare-exchange that follows it; at `place + 1`, between a failed
compare-exchange and the load that follows it; `some v`: they have written, and
`obj` holds `v` there; `none`: nothing. `fuel` bounds the number of tests of the
loop condition: `none` when the helper has not returned within them. -/
def atomic_setIfBigger_loop {T : Type} [LinearOrder T] (sched : Nat → Option T)
    (newValue : T) : Nat → Nat → T → Option (AtomicRun T)
  | 0, _, _ => none
  | fuel + 1, place, oldValue =>
    if newValue > oldValue then
      if (sched place).getD oldValue = oldValue then
        some { obj := newValue, replaced := some oldValue, lastSeen := oldValue }
      else
        atomic_setIfBigger_loop sched newValue fuel (place + 2)
          ((sched (place + 1)).getD ((sched place).getD oldValue))
    else some { obj := oldValue, replaced := none, lastSeen := oldValue }

/-- The loop of `atomic_setIfLess(obj, newValue)`, with `sched`, `place` and
`fuel` as for `atomic_setIfBigger_loop`. -/
def atomic_setIfLess_loop {T : Type} [LinearOrder T] (sched : Nat → Option T)
    (newValue : T) : Nat → Nat → T → Option (AtomicRun T)
  | 0, _, _ => none
  | fuel + 1, place, oldValue =>
    if newValue < oldValue then
      if (sched place).getD oldValue = oldValue then
        some { obj := newValue, replaced := some oldValue, lastSeen := oldValue }
      else
        atomic_setIfLess_loop sched newValue fuel (place + 2)
          ((sched (place + 1)).getD ((sched place).getD oldValue))
    else some { obj := oldValue, replaced := none, lastSeen := oldValue }

/-- The interference that a finite list describes: entry `i` at place `i`, and
nothing after the end of the list. -/
def schedOf {T : Type} (env : List (Option T)) : Nat → Option T :=
  fun i => (env[i]?).getD none

/-- Another thread writes 7 between the first load and the compare-exchange,
and nothing else happens. -/
def schedOnce : Nat → Option Nat :=
  fun i => if i = 0 then some 7 else none

/-- A sequence of actions, one after the other: `none` when one of them cannot
happen in the state that the ones before it have left. -/
def steps (os : Os) : List Action → System → Option System
  | [], sys => some sys
  | a :: rest, sys =>
    match step os a sys with
    | some sys1 => steps os rest sys1
    | none => none

/-- The system after `abort()`, `wait()` and `initialize("backup.mbb")` in the
state `sysZombie`: a new job, and the flag that `abort()` has set. -/
def sysAgain : System :=
  { mgr := { instance_ := some (DecrementalRestorer.new "backup.mbb"), terminate := true,
             state := State.Initialized, thread := 7 }
    threads := [], jobs := 1 }

/-! ## Configuration (`configuration.cc`, `configuration.hh`) -/

/-- The enumerators of `config_datatype` that `configuration.cc` names; the
enumeration itself is declared in the engine interface of memcached. -/
inductive config_datatype where
  | DT_SIZE
  | DT_FLOAT
  | DT_BOOL
  | DT_STRING
  | DT_CONFIGFILE
  deriving DecidableEq

/-- The union `val` of `value_t`, as the member that was written last: a
`size_t`; a `float`, given by its bit pattern; a `bool`; or a `const char *`,
given by the string it points to (`none` for NULL). -/
inductive Val where
  | v_size (n : Nat)
  | v_float (bits : Nat)
  | v_bool (b : Bool)
  | v_string (s : Option String)
  deriving DecidableEq

/-- `Configuration::value_t`. -/
structure value_t where
  datatype : config_datatype
  val : Val
  deriving DecidableEq

/-- What the code takes from the compiler and the headers of memcached: the
enumerator of `config_datatype` whose value is 0, and
`std::numeric_limits<size_t>::max()`. -/
structure Target where
  zero_datatype : config_datatype
  size_max : Nat

/-- The data members of `Configuration`, the mutex apart: the map `attributes`,
with `none` for a key that the map does not hold. -/
structure Configuration where
  attributes : String → Option value_t

/-- `attributes[key]` of `std::map`: the entry of the key, which the map makes
first if it does not hold the key. The new `value_t` is value-initialised: its
`datatype` is the enumerator of value 0, and its union is zeroed, so that
`v_size` is 0. -/
def Configuration.entry (t : Target) (c : Configuration) (key : String) : value_t :=
  (c.attributes key).getD { datatype := t.zero_datatype, val := Val.v_size 0 }

/-- The assignment `attributes[key].datatype = datatype`. -/
def Configuration.setDatatype (t : Target) (key : String) (datatype : config_datatype)
    (c : Configuration) : Configuration :=
  { attributes := Function.update c.attributes key
      (some { c.entry t key with datatype := datatype }) }

/-- An assignment to a member of the union, `attributes[key].val.v_size = ..`
or one of the others. -/
def Configuration.setVal (t : Target) (key : String) (val : Val) (c : Configuration) :
    Configuration :=
  { attributes := Function.update c.attributes key (some { c.entry t key with val := val }) }

/-- `Configuration::setParameter(const std::string &key, bool value)`. -/
def Configuration.setParameter_bool (t : Target) (key : String) (value : Bool)
    (c : Configuration) : Configuration :=
  (c.setDatatype t key config_datatype.DT_BOOL).setVal t key (Val.v_bool value)

/-- `Configuration::setParameter(const std::string &key, size_t value)`. -/
def Configuration.setParameter_size (t : Target) (key : String) (value : Nat)
    (c : Configuration) : Configuration :=
  if key = "cache_size" then
    (c.setDatatype t key config_datatype.DT_SIZE).setVal t "max_size" (Val.v_size value)
  else
    (c.setDatatype t key config_datatype.DT_SIZE).setVal t key (Val.v_size value)

/-- `Configuration::setParameter(const std::string &key, float value)`, the
value given by its bit pattern. -/
def Configuration.setParameter_float (t : Target) (key : String) (value : Nat)
    (c : Configuration) : Configuration :=
  (c.setDatatype t key config_datatype.DT_FLOAT).setVal t key (Val.v_float value)

/-- `Configuration::setParameter(const std::string &key, const char *value)`,
with `none` for a NULL `value`. The string freed and the copy that `strdup`
makes are not part of the state; `strdup` returns a copy. -/
def Configuration.setParameter_string (t : Target) (key : String) (value : Option String)
    (c : Configuration) : Configuration :=
  match value with
  | some s =>
    (((c.setDatatype t key config_datatype.DT_STRING).setVal t key (Val.v_string none)).setVal
      t key (Val.v_string (some s)))
  | none => (c.setDatatype t key config_datatype.DT_STRING).setVal t key (Val.v_string none)

/-- `Configuration::getInteger`: 0 for a key that the map does not hold. `none`:
the `assert` on the datatype fails, or the member of the union that was written
last is not `v_size`, so that what the read gives is not defined. -/
def Configuration.getInteger (c : Configuration) (key : String) : Option Nat :=
  match c.attributes key with
  | none => some 0
  | some e =>
    if e.datatype = config_datatype.DT_SIZE then
      match e.val with
      | Val.v_size n => some n
      | _ => none
    else none

/-- `Configuration::getBool`, with `none` as for `getInteger`. -/
def Configuration.getBool (c : Configuration) (key : String) : Option Bool :=
  match c.attributes key with
  | none => some false
  | some e =>
    if e.datatype = config_datatype.DT_BOOL then
      match e.val with
      | Val.v_bool b => some b
      | _ => none
    else none

/-- `Configuration::getFloat`, as a bit pattern, with `none` as for
`getInteger`. -/
def Configuration.getFloat (c : Configuration) (key : String) : Option Nat :=
  match c.attributes key with
  | none => some 0
  | some e =>
    if e.datatype = config_datatype.DT_FLOAT then
      match e.val with
      | Val.v_float bits => some bits
      | _ => none
    else none

/-- `Configuration::getString`, with `none` as for `getInteger`. -/
def Configuration.getString (c : Configuration) (key : String) : Option String :=
  match c.attributes key with
  | none => some ""
  | some e =>
    if e.datatype = config_datatype.DT_STRING then
      match e.val with
      | Val.v_string (some s) => some s
      | Val.v_string none => some ""
      | _ => none
    else none

/-- `Configuration::getMaxSize`. -/
def Configuration.getMaxSize (c : Configuration) : Option Nat :=
  c.getInteger "max_size"

/-- The constructor `Configuration()`: the calls of `setParameter` in the order
of the source, on an empty map. The three `float` values 5.0, 0.9 and 0.0 are
given by their bit patterns in IEEE 754 single precision. -/
def Configuration.new (t : Target) : Configuration :=
  ({ attributes := fun _ => none } : Configuration)
  |>.setParameter_string t "dbname" (some "/tmp/test.db")
  |>.setParameter_string t "shardpattern" (some "%d/%b-%i.sqlite")
  |>.setParameter_string t "db_strategy" (some "multiDB")
  |>.setParameter_bool t "warmup" true
  |>.setParameter_bool t "waitforwarmup" true
  |>.setParameter_bool t "failpartialwarmup" true
  |>.setParameter_bool t "vb0" true
  |>.setParameter_bool t "concurrentDB" true
  |>.setParameter_size t "tap_keepalive" 0
  |>.setParameter_size t "ht_size" 0
  |>.setParameter_string t "stored_val_type" none
  |>.setParameter_size t "ht_locks" 0
  |>.setParameter_size t "max_size" 0
  |>.setParameter_size t "max_txn_size" 0
  |>.setParameter_size t "cache_size" 0
  |>.setParameter_size t "tap_idle_timeout" t.size_max
  |>.setParameter_size t "tap_noop_interval" 200
  |>.setParameter_string t "config_file" none
  |>.setParameter_size t "max_item_size" (20 * 1024 * 1024)
  |>.setParameter_size t "min_data_age" 0
  |>.setParameter_size t "mem_low_wat" t.size_max
  |>.setParameter_size t "mem_high_wat" t.size_max
  |>.setParameter_size t "queue_age_cap" 900
  |>.setParameter_size t "tap_backlog_limit" 5000
  |>.setParameter_size t "expiry_window" 3
  |>.setParameter_size t "exp_pager_stime" 3600
  |>.setParameter_size t "db_shards" 4
  |>.setParameter_size t "max_vbuckets" 1024
  |>.setParameter_size t "vb_del_chunk_size" 100
  |>.setParameter_size t "tap_bg_max_pending" 500
  |>.setParameter_size t "vb_chunk_del_time" 500
  |>.setParameter_float t "tap_backoff_period" 1084227584
  |>.setParameter_size t "tap_ack_window_size" 10
  |>.setParameter_size t "tap_ack_interval" 1000
  |>.setParameter_size t "tap_ack_grace_period" 300
  |>.setParameter_size t "tap_ack_initial_sequence_number" 1
  |>.setParameter_size t "chk_remover_stime" 5
  |>.setParameter_size t "chk_max_items" 5000
  |>.setParameter_size t "chk_period" 600
  |>.setParameter_bool t "inconsistent_slave_chk" false
  |>.setParameter_bool t "restore_mode" false
  |>.setParameter_float t "bf_resident_threshold" 1063675494
  |>.setParameter_size t "getl_default_timeout" 15
  |>.setParameter_size t "getl_max_timeout" 30
  |>.setParameter_size t "sync_cmd_timeout" 2500
  |>.setParameter_float t "mutation_mem_threshold" 0
  |>.setParameter_string t "backend" (some "sqlite")
  |>.setParameter_string t "couch_host" none
  |>.setParameter_size t "couch_port" 11213
  |>.setParameter_size t "couch_reconnect_stime" 250
  |>.setParameter_string t "couch_bucket" (some "default")

/-- A 64-bit target on which `DT_SIZE` is the first enumerator. -/
def target64 : Target :=
  { zero_datatype := config_datatype.DT_SIZE, size_max := 18446744073709551615 }

/-- The value that load number `k` of a helper reads (`k = 0`: its first load),
when the first load reads `obj`, the other threads act as `sched` says from
place 0 on, and no compare-exchange of the helper has succeeded before: between
load `k` and load `k + 1` lie place `2 * k`, before compare-exchange `k`, and
place `2 * k + 1`, after it. -/
def loadedAt {T : Type} (sched : Nat → Option T) (obj : T) : Nat → T
  | 0 => obj
  | k + 1 => (sched (2 * k + 1)).getD ((sched (2 * k)).getD (loadedAt sched obj k))

/-- The value that `obj` holds when compare-exchange number `k` of the helper
runs: what load `k` has read, or what the other threads have written since. -/
def heldAt {T : Type} (sched : Nat → Option T) (obj : T) (k : Nat) : T :=
  (sched (2 * k)).getD (loadedAt sched obj k)

theorem inc32_lt (n : Nat) : inc32 n < 4294967296 := by
  unfold inc32
  omega

theorem storeResults_append {σ : Type} (S : Store σ) (st : σ) (xs ys : List StoreCall) :
    storeResults S st (xs ++ ys) =
      storeResults S st xs ++ storeResults S (storeAfter S st xs) ys := by
  induction xs generalizing st with
  | nil => rfl
  | cons c cs ih => simp [storeResults, storeAfter, ih]

theorem storeResults_length {σ : Type} (S : Store σ) (st : σ) (cs : List StoreCall) :
    (storeResults S st cs).length = cs.length := by
  induction cs generalizing st with
  | nil => rfl
  | cons c cs ih => simp [storeResults, ih]

/-- A list of results that are all 0 or 1 has as many zeros and ones as
entries. -/
theorem count_zero_add_count_one (l : List Int) (h : ∀ c ∈ l, c = 0 ∨ c = 1) :
    l.count 0 + l.count 1 = l.length := by
  induction l with
  | nil => rfl
  | cons a t ih =>
    have ht : ∀ c ∈ t, c = 0 ∨ c = 1 := fun c hc => h c (List.mem_cons_of_mem a hc)
    have iht := ih ht
    rcases h a (List.mem_cons_self a t) with h0 | h1
    · subst h0
      simp [List.count_cons]
      omega
    · subst h1
      simp [List.count_cons]
      omega

/-- The replay loop on events followed by further steps, when the store answers
0 or 1 to every row of the events: the loop goes on with the further steps, after
every row was passed to the store once and in order, and each counter advanced,
modulo `2^32`, by the number of its events. -/
theorem processLoop_append {σ : Type} (S : Store σ) (es : List Event)
    (rest : List StepResult) (self : DecrementalRestorer) (w : World σ)
    (hr : self.restored < 4294967296) (hs : self.skipped < 4294967296)
    (hb : self.busy < 4294967296)
    (h01 : ∀ c ∈ storeResults S w.store ((rowsOf es).map storeCall), c = 0 ∨ c = 1) :
    DecrementalRestorer.processLoop S (es.map Event.toStep ++ rest) self w =
      DecrementalRestorer.processLoop S rest
        { self with
          restored := (self.restored +
            (storeResults S w.store ((rowsOf es).map storeCall)).count 0) % 4294967296
          skipped := (self.skipped +
            (storeResults S w.store ((rowsOf es).map storeCall)).count 1) % 4294967296
          busy := (self.busy + busyCount es) % 4294967296 }
        { store := storeAfter S w.store ((rowsOf es).map storeCall)
          calls := w.calls ++ (rowsOf es).map storeCall } := by
  induction es generalizing self w with
  | nil =>
    simp [rowsOf, busyCount, storeResults, storeAfter,
      Nat.mod_eq_of_lt hr, Nat.mod_eq_of_lt hs, Nat.mod_eq_of_lt hb]
  | cons e es ih =>
    cases e with
    | busy =>
      rw [List.map_cons, List.cons_append]
      simp only [Event.toStep, DecrementalRestorer.processLoop, rowsOf, busyCount]
      rw [ih { self with busy := inc32 self.busy } w hr hs (inc32_lt _) h01]
      have e1 : (inc32 self.busy + busyCount es) % 4294967296 =
          (self.busy + (busyCount es + 1)) % 4294967296 := by
        unfold inc32
        omega
      simp only [e1]
    | row r =>
      simp only [rowsOf, List.map_cons, storeResults, List.mem_cons] at h01
      have hhead := h01 _ (Or.inl rfl)
      have htail : ∀ c ∈ storeResults S (S.addUnlessThere w.store (storeCall r)).2
          ((rowsOf es).map storeCall), c = 0 ∨ c = 1 := fun c hc => h01 c (Or.inr hc)
      rw [List.map_cons, List.cons_append]
      simp only [List.map_cons, Event.toStep, busyCount,
        DecrementalRestorer.processLoop, DecrementalRestorer.processEntry, rowsOf,
        storeResults, storeAfter]
      rcases hhead with h0 | h1
      · simp only [h0, if_true]
        rw [ih { self with restored := inc32 self.restored } _ (inc32_lt _) hs hb htail]
        have e1 : ∀ k : Nat, (inc32 self.restored + k) % 4294967296 =
            (self.restored + (k + 1)) % 4294967296 := by
          intro k
          unfold inc32
          omega
        simp [e1, List.count_cons]
      · have hne : ¬ ((1 : Int) = 0) := by decide
        simp only [h1, hne, if_true, if_false]
        rw [ih { self with skipped := inc32 self.skipped } _ hr (inc32_lt _) hb htail]
        have e1 : ∀ k : Nat, (inc32 self.skipped + k) % 4294967296 =
            (self.skipped + (k + 1)) % 4294967296 := by
          intro k
          unfold inc32
          omega
        simp [e1, List.count_cons]

/-- The replay loop on events followed by `SQLITE_DONE`, when the store answers
0 or 1 to every call: the loop ends normally. -/
theorem processLoop_events {σ : Type} (S : Store σ) (es : List Event)
    (self : DecrementalRestorer) (w : World σ)
    (hr : self.restored < 4294967296) (hs : self.skipped < 4294967296)
    (hb : self.busy < 4294967296)
    (h01 : ∀ c ∈ storeResults S w.store ((rowsOf es).map storeCall), c = 0 ∨ c = 1) :
    DecrementalRestorer.processLoop S (es.map Event.toStep ++ [StepResult.done]) self w =
      some (Except.ok (),
        { self with
          restored := (self.restored +
            (storeResults S w.store ((rowsOf es).map storeCall)).count 0) % 4294967296
          skipped := (self.skipped +
            (storeResults S w.store ((rowsOf es).map storeCall)).count 1) % 4294967296
          busy := (self.busy + busyCount es) % 4294967296 },
        { store := storeAfter S w.store ((rowsOf es).map storeCall)
          calls := w.calls ++ (rowsOf es).map storeCall }) := by
  rw [processLoop_append S es [StepResult.done] self w hr hs hb h01]
  rfl

/-- The whole of `process` on a fresh job and a statement that yields the
events and then `SQLITE_DONE`, when the store answers 0 or 1 to every call. -/
theorem process_events {σ : Type} (S : Store σ) (file : String) (es : List Event)
    (w : World σ)
    (h01 : ∀ c ∈ storeResults S w.store ((rowsOf es).map storeCall), c = 0 ∨ c = 1) :
    DecrementalRestorer.process S (sqliteOf es) (DecrementalRestorer.new file) w =
      some (Except.ok (),
        { db := false
          file := file
          restored :=
            (storeResults S w.store ((rowsOf es).map storeCall)).count 0 % 4294967296
          skipped :=
            (storeResults S w.store ((rowsOf es).map storeCall)).count 1 % 4294967296
          busy := busyCount es % 4294967296 },
        { store := storeAfter S w.store ((rowsOf es).map storeCall)
          calls := w.calls ++ (rowsOf es).map storeCall }) := by
  have h := processLoop_events S es
    { DecrementalRestorer.new file with db := true } w (Nat.zero_lt_succ _) (Nat.zero_lt_succ _) (Nat.zero_lt_succ _) h01
  simp only [DecrementalRestorer.process, sqliteOf, DecrementalRestorer.new] at h ⊢
  simp only [h]
  simp

theorem rowsOf_replicate_busy (n : Nat) : rowsOf (List.replicate n Event.busy) = [] := by
  induction n with
  | zero => rfl
  | succ n ih => rw [List.replicate_succ, rowsOf, ih]

theorem busyCount_replicate_busy (n : Nat) :
    busyCount (List.replicate n Event.busy) = n := by
  induction n with
  | zero => rfl
  | succ n ih => rw [List.replicate_succ, busyCount, ih]

/-! ## C1: the counters after a replay that ends normally -/

/-- A statement that answers `SQLITE_BUSY` `n` times and then `SQLITE_DONE`:
it has no row, `n` busy outcomes, and `process()` returns normally with the
counter `busy` at `n` modulo `2^32`. -/
theorem process_busy_only (n : Nat) :
    (rowsOf (List.replicate n Event.busy)).length = 0 ∧
    (∀ c ∈ storeResults acceptAll ()
        ((rowsOf (List.replicate n Event.busy)).map storeCall), c = 0 ∨ c = 1) ∧
    busyCount (List.replicate n Event.busy) = n ∧
    DecrementalRestorer.process acceptAll (sqliteOf (List.replicate n Event.busy))
        (DecrementalRestorer.new "backup") { store := (), calls := [] } =
      some (Except.ok (),
        { db := false, file := "backup", restored := 0, skipped := 0,
          busy := n % 4294967296 },
        { store := (), calls := [] }) := by
  have h01 : ∀ c ∈ storeResults acceptAll ()
      ((rowsOf (List.replicate n Event.busy)).map storeCall), c = 0 ∨ c = 1 := by
    rw [rowsOf_replicate_busy]
    intro c hc
    exact absurd hc (List.not_mem_nil c)
  refine ⟨by rw [rowsOf_replicate_busy]; rfl, h01, busyCount_replicate_busy n, ?_⟩
  rw [process_events acceptAll "backup" _ { store := (), calls := [] } h01,
    rowsOf_replicate_busy, busyCount_replicate_busy]
  rfl

/-- C1, the claim as stated, fails: a statement that answers `SQLITE_BUSY`
2^32 times and then `SQLITE_DONE` has no row at all (fewer than 2^32 rows), and
`process()` returns normally with `busy` equal to 0, not to the 2^32 busy
outcomes: the `uint32_t` counter has wrapped. -/
theorem C1_busy_counter_wraps :
    (rowsOf (List.replicate 4294967296 Event.busy)).length < 4294967296 ∧
    (∀ c ∈ storeResults acceptAll ()
        ((rowsOf (List.replicate 4294967296 Event.busy)).map storeCall), c = 0 ∨ c = 1) ∧
    ∃ self1 w1,
      DecrementalRestorer.process acceptAll (sqliteOf (List.replicate 4294967296 Event.busy))
        (DecrementalRestorer.new "backup") { store := (), calls := [] } =
          some (Except.ok (), self1, w1) ∧
      self1.busy = 0 ∧
      busyCount (List.replicate 4294967296 Event.busy) = 4294967296 ∧
      self1.busy ≠ busyCount (List.replicate 4294967296 Event.busy) := by
  obtain ⟨h1, h2, h3, h4⟩ := process_busy_only 4294967296
  refine ⟨?_, h2, _, _, h4, ?_, h3, ?_⟩
  · rw [h1]
    decide
  · decide
  · rw [h3]
    decide

/-- C1 (amended): for every finite sequence of step outcomes (rows and busy
signals) followed by `SQLITE_DONE`, with fewer than 2^32 rows, fewer than 2^32
busy signals, and a store that answers 0 or 1 to every row, `process()` on a
fresh job returns normally, `restored + skipped` is the number of rows, `busy`
is the number of busy signals, and the store was called exactly once per row,
in the order of the rows (a busy signal calls nothing and drops no row). -/
theorem C1_process_counts {σ : Type} (S : Store σ) (file : String) (es : List Event)
    (w : World σ)
    (hrows : (rowsOf es).length < 4294967296)
    (hbusy : busyCount es < 4294967296)
    (h01 : ∀ c ∈ storeResults S w.store ((rowsOf es).map storeCall), c = 0 ∨ c = 1) :
    ∃ self1 w1,
      DecrementalRestorer.process S (sqliteOf es) (DecrementalRestorer.new file) w =
        some (Except.ok (), self1, w1) ∧
      self1.restored + self1.skipped = (rowsOf es).length ∧
      self1.busy = busyCount es ∧
      w1.calls = w.calls ++ (rowsOf es).map storeCall ∧
      self1.restored = (storeResults S w.store ((rowsOf es).map storeCall)).count 0 ∧
      self1.skipped = (storeResults S w.store ((rowsOf es).map storeCall)).count 1 ∧
      self1.file = file := by
  have hsum := count_zero_add_count_one _ h01
  rw [storeResults_length, List.length_map] at hsum
  refine ⟨_, _, process_events S file es w h01, ?_, ?_, rfl, ?_, ?_, rfl⟩
  · show _ % 4294967296 + _ % 4294967296 = _
    omega
  · exact Nat.mod_eq_of_lt hbusy
  · show _ % 4294967296 = _
    omega
  · show _ % 4294967296 = _
    omega

/-- C1 at a concrete run: a row, a busy signal, a row, then `SQLITE_DONE`. -/
theorem C1_process_counts_witness :
    ∃ self1 w1,
      DecrementalRestorer.process acceptAll
        (sqliteOf [Event.row rowA, Event.busy, Event.row rowA])
        (DecrementalRestorer.new "backup") { store := (), calls := [] } =
        some (Except.ok (), self1, w1) ∧
      self1.restored + self1.skipped = 2 ∧
      self1.busy = 1 ∧
      w1.calls = [storeCall rowA, storeCall rowA] ∧
      self1.restored = 2 ∧
      self1.skipped = 0 ∧
      self1.file = "backup" :=
  C1_process_counts acceptAll "backup" [Event.row rowA, Event.busy, Event.row rowA]
    { store := (), calls := [] } (by decide) (by decide) (by decide)

/-! ## Lemmas on the first-wins store -/

theorem firstWins_present (st : List StoreCall) (d : StoreCall)
    (h : d.slot ∈ st.map StoreCall.slot) : firstWins.addUnlessThere st d = (1, st) := by
  simp only [firstWins, h, if_true]

theorem firstWins_absent (st : List StoreCall) (d : StoreCall)
    (h : d.slot ∉ st.map StoreCall.slot) :
    firstWins.addUnlessThere st d = (0, st ++ [d]) := by
  simp only [firstWins, h, if_false]

theorem firstWins_results (st : List StoreCall) (cs : List StoreCall) :
    ∀ c ∈ storeResults firstWins st cs, c = 0 ∨ c = 1 := by
  induction cs generalizing st with
  | nil => intro c hc; exact absurd hc (List.not_mem_nil c)
  | cons d ds ih =>
    intro c hc
    by_cases hd : d.slot ∈ st.map StoreCall.slot
    · simp only [storeResults, firstWins_present st d hd, List.mem_cons] at hc
      rcases hc with h | h
      · exact Or.inr h
      · exact ih _ c h
    · simp only [storeResults, firstWins_absent st d hd, List.mem_cons] at hc
      rcases hc with h | h
      · exact Or.inl h
      · exact ih _ c h

theorem firstWins_nodup (st cs : List StoreCall) (h : (st.map StoreCall.slot).Nodup) :
    ((storeAfter firstWins st cs).map StoreCall.slot).Nodup := by
  induction cs generalizing st with
  | nil => exact h
  | cons d ds ih =>
    by_cases hd : d.slot ∈ st.map StoreCall.slot
    · simp only [storeAfter, firstWins_present st d hd]
      exact ih st h
    · simp only [storeAfter, firstWins_absent st d hd]
      apply ih
      rw [List.map_append, List.nodup_append]
      refine ⟨h, by simp, ?_⟩
      intro a ha hb
      simp only [List.map_cons, List.map_nil, List.mem_singleton] at hb
      subst hb
      exact hd ha

theorem firstWins_count (st cs : List StoreCall) :
    (storeResults firstWins st cs).count 0 + st.length =
      (storeAfter firstWins st cs).length := by
  induction cs generalizing st with
  | nil => simp [storeResults, storeAfter]
  | cons d ds ih =>
    by_cases hd : d.slot ∈ st.map StoreCall.slot
    · simp only [storeAfter, storeResults, firstWins_present st d hd]
      rw [← ih st]
      simp [List.count_cons]
    · simp only [storeAfter, storeResults, firstWins_absent st d hd]
      rw [← ih (st ++ [d])]
      simp [List.count_cons]
      omega

theorem firstWins_slots (st cs : List StoreCall) (x : Nat × Bytes) :
    x ∈ (storeAfter firstWins st cs).map StoreCall.slot ↔
      x ∈ st.map StoreCall.slot ∨ x ∈ cs.map StoreCall.slot := by
  induction cs generalizing st with
  | nil => simp [storeAfter]
  | cons d ds ih =>
    by_cases hd : d.slot ∈ st.map StoreCall.slot
    · simp only [storeAfter, firstWins_present st d hd]
      rw [ih st]
      simp only [List.map_cons, List.mem_cons]
      constructor
      · rintro (h | h)
        · exact Or.inl h
        · exact Or.inr (Or.inr h)
      · rintro (h | h | h)
        · exact Or.inl h
        · exact Or.inl (h ▸ hd)
        · exact Or.inr h
    · simp only [storeAfter, firstWins_absent st d hd]
      rw [ih (st ++ [d])]
      simp only [List.map_append, List.map_cons, List.map_nil, List.mem_append,
        List.mem_singleton, List.mem_cons]
      tauto

/-- Every mutation that the first-wins store holds after a sequence of calls
was there before, or is the first call of the sequence for its slot. -/
theorem firstWins_first (st cs : List StoreCall) (c : StoreCall)
    (hc : c ∈ storeAfter firstWins st cs) :
    c ∈ st ∨ (c.slot ∉ st.map StoreCall.slot ∧
      ∃ pre post, cs = pre ++ c :: post ∧ ∀ d ∈ pre, d.slot ≠ c.slot) := by
  induction cs generalizing st with
  | nil => exact Or.inl hc
  | cons d ds ih =>
    by_cases hd : d.slot ∈ st.map StoreCall.slot
    · simp only [storeAfter, firstWins_present st d hd] at hc
      rcases ih st hc with h | ⟨hn, pre, post, he, hp⟩
      · exact Or.inl h
      · refine Or.inr ⟨hn, d :: pre, post, by rw [he]; rfl, ?_⟩
        intro e he'
        rcases List.mem_cons.mp he' with h | h
        · intro hs
          exact hn (hs ▸ h ▸ hd)
        · exact hp e h
    · simp only [storeAfter, firstWins_absent st d hd] at hc
      rcases ih (st ++ [d]) hc with h | ⟨hn, pre, post, he, hp⟩
      · rcases List.mem_append.mp h with h | h
        · exact Or.inl h
        · rw [List.mem_singleton] at h
          subst h
          exact Or.inr ⟨hd, [], ds, rfl, fun e he => absurd he (List.not_mem_nil e)⟩
      · rw [List.map_append, List.mem_append, not_or] at hn
        refine Or.inr ⟨hn.1, d :: pre, post, by rw [he]; rfl, ?_⟩
        intro e he'
        rcases List.mem_cons.mp he' with h | h
        · intro hs
          apply hn.2
          rw [← hs, h]
          simp
        · exact hp e h

/-- The number of mutations that the first-wins store, empty at first, has
applied after a sequence of calls is the number of distinct slots called. -/
theorem firstWins_distinct (cs : List StoreCall) :
    (storeAfter firstWins [] cs).length = (cs.map StoreCall.slot).toFinset.card := by
  have hn := firstWins_nodup [] cs List.nodup_nil
  have hl := List.toFinset_card_of_nodup hn
  rw [List.length_map] at hl
  rw [← hl]
  congr 1
  ext x
  simp only [List.mem_toFinset]
  rw [firstWins_slots]
  simp

/-! ## Lemmas on the result sets of `query` -/

theorem resultSet_mem (log : BackupLog) (rs : List CpointOp) (hrs : ResultSet log rs)
    (o : CpointOp) : o ∈ rs ↔ o ∈ log.cpoint_op ∧ closedIn log o = true := by
  rw [hrs.1.mem_iff]
  simp only [joinRows, closedIn, List.mem_flatMap, List.mem_filter, List.any_eq_true]
  constructor
  · rintro ⟨s, hs, ho, hj⟩
    exact ⟨ho, s, hs, hj⟩
  · rintro ⟨ho, s, hs, hj⟩
    exact ⟨s, hs, ho, hj⟩

/-- The replay of any sequence of operation rows into the first-wins store,
empty at first: the run ends normally with `restored` at the number of distinct
slots and `skipped` at the number of the remaining rows, both modulo `2^32`. -/
theorem process_firstWins_rows (rs : List CpointOp) (es : List Event) (file : String)
    (hes : rowsOf es = rs.map selectList) :
    DecrementalRestorer.process firstWins (sqliteOf es) (DecrementalRestorer.new file)
        { store := [], calls := [] } =
      some (Except.ok (),
        { db := false
          file := file
          restored := (rs.map rowSlot).toFinset.card % 4294967296
          skipped := (rs.length - (rs.map rowSlot).toFinset.card) % 4294967296
          busy := busyCount es % 4294967296 },
        { store := storeAfter firstWins [] (rs.map fun o => storeCall (selectList o))
          calls := rs.map fun o => storeCall (selectList o) }) := by
  have h01 := firstWins_results [] ((rowsOf es).map storeCall)
  rw [process_events firstWins file es { store := [], calls := [] } h01]
  have hsum := count_zero_add_count_one _ h01
  rw [storeResults_length, List.length_map] at hsum
  have hc0 := firstWins_count [] ((rowsOf es).map storeCall)
  rw [firstWins_distinct] at hc0
  rw [hes] at hsum hc0 ⊢
  have hcalls : (rs.map selectList).map storeCall =
      rs.map fun o => storeCall (selectList o) := by
    rw [List.map_map]
    rfl
  have hslots : ((rs.map selectList).map storeCall).map StoreCall.slot = rs.map rowSlot := by
    rw [hcalls, List.map_map]
    rfl
  rw [hslots] at hc0
  rw [List.length_map] at hsum
  simp only [List.length_nil, Nat.add_zero] at hc0
  have hc1 : (storeResults firstWins [] ((rs.map selectList).map storeCall)).count 1 =
      rs.length - (rs.map rowSlot).toFinset.card := by omega
  rw [hc0, hc1, hcalls]
  simp only [List.nil_append]

/-- In a sorted result of `query`, the first row of a slot is at least as new
as every row of that slot. -/
theorem first_of_slot_newest (qs pre post : List CpointOp) (o : CpointOp)
    (hsort : List.Pairwise orderBy qs) (hq : qs = pre ++ o :: post)
    (hpre : ∀ d ∈ pre, rowSlot d ≠ rowSlot o) (o2 : CpointOp) (h2 : o2 ∈ qs)
    (hslot : rowSlot o2 = rowSlot o) : o2 = o ∨ (o2 ∈ post ∧ orderBy o o2) := by
  subst hq
  rw [List.pairwise_append, List.pairwise_cons] at hsort
  rcases List.mem_append.mp h2 with h | h
  · exact absurd hslot (hpre o2 h)
  · rcases List.mem_cons.mp h with h | h
    · exact Or.inl h
    · exact Or.inr ⟨h, hsort.2.1.1 o2 h⟩

/-! ## C2: the newest mutation of a key wins -/

theorem mem_longOps (n : Nat) (o : CpointOp) (h : o ∈ longOps n) :
    ∃ i, i < n ∧ o = longOp i := by
  induction n with
  | zero => exact absurd h (List.not_mem_nil o)
  | succ n ih =>
    rcases List.mem_cons.mp h with h | h
    · exact ⟨n, Nat.lt_succ_self n, h⟩
    · obtain ⟨i, hi, ho⟩ := ih h
      exact ⟨i, Nat.lt_succ_of_lt hi, ho⟩

theorem longOps_length (n : Nat) : (longOps n).length = n := by
  induction n with
  | zero => rfl
  | succ n ih => simp [longOps, ih]

theorem longOps_sorted (n : Nat) : List.Pairwise orderBy (longOps n) := by
  induction n with
  | zero => exact List.Pairwise.nil
  | succ n ih =>
    refine List.Pairwise.cons ?_ ih
    intro o ho
    obtain ⟨i, hi, rfl⟩ := mem_longOps n o ho
    right
    exact ⟨rfl, Int.ofNat_le.mpr (Nat.le_of_lt hi)⟩

theorem longOps_distinct (n : Nat) : List.Pairwise distinctPerKey (longOps n) := by
  induction n with
  | zero => exact List.Pairwise.nil
  | succ n ih =>
    refine List.Pairwise.cons ?_ ih
    intro o ho
    obtain ⟨i, hi, rfl⟩ := mem_longOps n o ho
    rintro _ ⟨_, hseq⟩
    simp only [longOp, Nat.cast_inj] at hseq
    omega

theorem longOps_slots (n : Nat) :
    (longOps n).map rowSlot = List.replicate n (0, [97]) := by
  induction n with
  | zero => rfl
  | succ n ih =>
    rw [longOps, List.map_cons, ih, List.replicate_succ]
    rfl

theorem longOps_resultSet (n : Nat) : ResultSet (longLog n) (longOps n) := by
  have hj : joinRows (longLog n) = longOps n := by
    simp only [joinRows, longLog, List.flatMap_cons, List.flatMap_nil, List.append_nil]
    rw [List.filter_eq_self]
    intro o ho
    obtain ⟨i, _, rfl⟩ := mem_longOps n o ho
    rfl
  exact ⟨by rw [hj], longOps_sorted n⟩

theorem rowsOf_map_row (rs : List Row) : rowsOf (rs.map Event.row) = rs := by
  induction rs with
  | nil => rfl
  | cons r rs ih => rw [List.map_cons, rowsOf, ih]

theorem busyCount_map_row (rs : List Row) : busyCount (rs.map Event.row) = 0 := by
  induction rs with
  | nil => rfl
  | cons r rs ih => rw [List.map_cons, busyCount, ih]

/-- The replay of the long checkpoint of `n + 1` rows into the first-wins
store: the rows are a result set of the statement and differ in their sequence
numbers, there is one slot, and `skipped` ends at `n` modulo `2^32`. -/
theorem process_longLog (n : Nat) :
    ResultSet (longLog (n + 1)) (longOps (n + 1)) ∧
    List.Pairwise distinctPerKey (longOps (n + 1)) ∧
    (longOps (n + 1)).length = n + 1 ∧
    ((longOps (n + 1)).map rowSlot).toFinset.card = 1 ∧
    DecrementalRestorer.process firstWins
        (sqliteOf (((longOps (n + 1)).map selectList).map Event.row))
        (DecrementalRestorer.new "backup") { store := [], calls := [] } =
      some (Except.ok (),
        { db := false, file := "backup", restored := 1, skipped := n % 4294967296,
          busy := 0 },
        { store := storeAfter firstWins []
            ((longOps (n + 1)).map fun o => storeCall (selectList o))
          calls := (longOps (n + 1)).map fun o => storeCall (selectList o) }) := by
  have hd : ((longOps (n + 1)).map rowSlot).toFinset.card = 1 := by
    rw [longOps_slots, List.toFinset_replicate_of_ne_zero (Nat.succ_ne_zero n)]
    rfl
  have hl : (longOps (n + 1)).length = n + 1 := longOps_length (n + 1)
  refine ⟨longOps_resultSet (n + 1), longOps_distinct (n + 1), hl, hd, ?_⟩
  rw [process_firstWins_rows (longOps (n + 1)) _ "backup" (rowsOf_map_row _), hd, hl,
    busyCount_map_row]
  rfl

/-- C2, the claim as stated, fails: a backup log whose one closed checkpoint
holds 2^32 + 1 operations on one key, with sequence number 2^32, .., 0. The
rows differ in (checkpoint, sequence), so the statement has one result set;
there is one (vbucket, key) slot, and the replay ends with `skipped` equal to 0
and not to N - 1 = 2^32: the `uint32_t` counter has wrapped. -/
theorem C2_skipped_counter_wraps :
    ResultSet (longLog (4294967296 + 1)) (longOps (4294967296 + 1)) ∧
    List.Pairwise distinctPerKey (longOps (4294967296 + 1)) ∧
    (longOps (4294967296 + 1)).length -
        ((longOps (4294967296 + 1)).map rowSlot).toFinset.card = 4294967296 ∧
    ∃ self1 w1,
      DecrementalRestorer.process firstWins
        (sqliteOf (((longOps (4294967296 + 1)).map selectList).map Event.row))
        (DecrementalRestorer.new "backup") { store := [], calls := [] } =
          some (Except.ok (), self1, w1) ∧
      self1.skipped = 0 ∧
      self1.skipped ≠ (longOps (4294967296 + 1)).length -
        ((longOps (4294967296 + 1)).map rowSlot).toFinset.card := by
  obtain ⟨h0, h1, h2, h3, h4⟩ := process_longLog 4294967296
  have h5 : (longOps (4294967296 + 1)).length -
      ((longOps (4294967296 + 1)).map rowSlot).toFinset.card = 4294967296 := by
    rw [h2, h3]
  refine ⟨h0, h1, h5, _, _, h4, ?_, ?_⟩
  · decide
  · rw [h5]
    decide

/-- C2 (amended): with the first-wins store adapter, empty at first, for every
backup log and every result set `rs` that the statement may yield for it (the
closed rows in any order that `order by` admits), with fewer than 2^32 rows, in
which the rows of one (vbucket, key) differ in (checkpoint, sequence): the
replay ends normally, `restored` is the number of distinct (vbucket, key)
slots, `skipped` is the number N of closed rows minus that number, the store
holds one mutation per slot, and the mutation it holds for a slot is the row
with the greatest (checkpoint, sequence) of that slot. -/
theorem C2_newest_wins (log : BackupLog) (rs : List CpointOp) (es : List Event)
    (file : String) (hrs : ResultSet log rs)
    (hes : rowsOf es = rs.map selectList)
    (hN : rs.length < 4294967296)
    (hdist : List.Pairwise distinctPerKey rs) :
    (∀ o, o ∈ rs ↔ o ∈ log.cpoint_op ∧ closedIn log o = true) ∧
    rs.length = (joinRows log).length ∧
    ∃ self1 w1,
      DecrementalRestorer.process firstWins (sqliteOf es) (DecrementalRestorer.new file)
        { store := [], calls := [] } = some (Except.ok (), self1, w1) ∧
      self1.restored = (rs.map rowSlot).toFinset.card ∧
      self1.skipped = rs.length - (rs.map rowSlot).toFinset.card ∧
      w1.calls = rs.map (fun o => storeCall (selectList o)) ∧
      (w1.store.map StoreCall.slot).Nodup ∧
      (∀ o ∈ rs, ∃ c ∈ w1.store, c.slot = rowSlot o) ∧
      (∀ c ∈ w1.store, ∃ o ∈ rs, c = storeCall (selectList o) ∧
        ∀ o2 ∈ rs, rowSlot o2 = rowSlot o → o2 = o ∨ newer o o2) := by
  have hle : (rs.map rowSlot).toFinset.card ≤ rs.length := by
    have := List.toFinset_card_le (rs.map rowSlot)
    rw [List.length_map] at this
    exact this
  refine ⟨resultSet_mem log rs hrs, hrs.1.length_eq, _, _,
    process_firstWins_rows rs es file hes, ?_, ?_, rfl, ?_, ?_, ?_⟩
  · exact Nat.mod_eq_of_lt (by omega)
  · exact Nat.mod_eq_of_lt (by omega)
  · exact firstWins_nodup [] _ List.nodup_nil
  · intro o ho
    have hx : rowSlot o ∈ (storeAfter firstWins []
        (rs.map fun o => storeCall (selectList o))).map StoreCall.slot := by
      rw [firstWins_slots]
      right
      simp only [List.map_map, List.mem_map]
      exact ⟨o, ho, rfl⟩
    obtain ⟨c, hc, hcs⟩ := List.mem_map.mp hx
    exact ⟨c, hc, hcs⟩
  · intro c hc
    rcases firstWins_first [] _ c hc with h | ⟨_, pre, post, he, hp⟩
    · exact absurd h (List.not_mem_nil c)
    · obtain ⟨l1, l2, hq, h1, h2⟩ := List.map_eq_append_iff.mp he
      obtain ⟨o, l3, hl2, ho, _⟩ := List.map_eq_cons_iff.mp h2
      subst hl2
      have hmem : o ∈ rs := by
        rw [hq]
        simp
      refine ⟨o, hmem, ho.symm, ?_⟩
      intro o2 h2mem hslot
      have hpre : ∀ d ∈ l1, rowSlot d ≠ rowSlot o := by
        intro d hd
        have hd1 : storeCall (selectList d) ∈ pre := by
          rw [← h1]
          exact List.mem_map.mpr ⟨d, hd, rfl⟩
        have := hp _ hd1
        rw [← ho] at this
        exact this
      rcases first_of_slot_newest rs l1 l3 o hrs.2 hq hpre
          o2 h2mem hslot with h | ⟨hin, hord⟩
      · exact Or.inl h
      · right
        rw [hq, List.pairwise_append, List.pairwise_cons] at hdist
        have hne := hdist.2.1.1 o2 hin hslot.symm
        unfold orderBy at hord
        unfold newer
        omega

/-- C2 at the backup log of the scenario: the row of checkpoint 2 is passed to
the store before the row of checkpoint 1, the store keeps `v2`, and the
counters end at restored = 1 and skipped = 1. -/
theorem C2_newest_wins_witness :
    rows2.map (fun o => storeCall (selectList o)) = [setA [118, 50], setA [118, 49]] ∧
    DecrementalRestorer.process firstWins (sqliteOf ((rows2.map selectList).map Event.row))
        (DecrementalRestorer.new "backup") { store := [], calls := [] } =
      some (Except.ok (),
        { db := false, file := "backup", restored := 1, skipped := 1, busy := 0 },
        { store := [setA [118, 50]], calls := [setA [118, 50], setA [118, 49]] }) ∧
    (∀ o, o ∈ rows2 ↔ o ∈ log2.cpoint_op ∧ closedIn log2 o = true) ∧
    rows2.length = (joinRows log2).length ∧
    ∃ self1 w1,
      DecrementalRestorer.process firstWins (sqliteOf ((rows2.map selectList).map Event.row))
        (DecrementalRestorer.new "backup")
        { store := [], calls := [] } = some (Except.ok (), self1, w1) ∧
      self1.restored = (rows2.map rowSlot).toFinset.card ∧
      self1.skipped = rows2.length - (rows2.map rowSlot).toFinset.card ∧
      w1.calls = rows2.map (fun o => storeCall (selectList o)) ∧
      (w1.store.map StoreCall.slot).Nodup ∧
      (∀ o ∈ rows2, ∃ c ∈ w1.store, c.slot = rowSlot o) ∧
      (∀ c ∈ w1.store, ∃ o ∈ rows2, c = storeCall (selectList o) ∧
        ∀ o2 ∈ rows2, rowSlot o2 = rowSlot o → o2 = o ∨ newer o o2) :=
  ⟨by decide, by rfl,
    C2_newest_wins log2 rows2 ((rows2.map selectList).map Event.row) "backup"
      (by decide) (by decide) (by decide) (by decide)⟩

/-! ## C3: the rows that are passed to the store -/

theorem mem_joinRows (log : BackupLog) (o : CpointOp) :
    o ∈ joinRows log ↔ o ∈ log.cpoint_op ∧ closedIn log o = true := by
  simp only [joinRows, closedIn, List.mem_flatMap, List.mem_filter, List.any_eq_true]
  constructor
  · rintro ⟨s, hs, ho, hj⟩
    exact ⟨ho, s, hs, hj⟩
  · rintro ⟨ho, s, hs, hj⟩
    exact ⟨s, hs, ho, hj⟩

theorem rowsOf_replicate_row (n : Nat) (r : Row) :
    rowsOf (List.replicate n (Event.row r)) = List.replicate n r := by
  induction n with
  | zero => rfl
  | succ n ih => rw [List.replicate_succ, rowsOf, ih, List.replicate_succ]

theorem busyCount_replicate_row (n : Nat) (r : Row) :
    busyCount (List.replicate n (Event.row r)) = 0 := by
  induction n with
  | zero => rfl
  | succ n ih => rw [List.replicate_succ, busyCount, ih]

theorem storeResults_acceptAll (cs : List StoreCall) :
    storeResults acceptAll () cs = List.replicate cs.length 0 := by
  induction cs with
  | nil => rfl
  | cons c cs ih =>
    simp only [storeResults, List.length_cons, List.replicate_succ]
    exact congrArg _ ih

/-- A statement that yields the row `rowA` `n` times, replayed into the store
that applies every mutation: every call has the result 0, and `process()`
returns normally with `restored` at `n` modulo `2^32`. -/
theorem process_accept_rows (n : Nat) :
    storeResults acceptAll ()
        ((rowsOf (List.replicate n (Event.row rowA))).map storeCall) =
      List.replicate n 0 ∧
    DecrementalRestorer.process acceptAll (sqliteOf (List.replicate n (Event.row rowA)))
        (DecrementalRestorer.new "backup") { store := (), calls := [] } =
      some (Except.ok (),
        { db := false, file := "backup", restored := n % 4294967296, skipped := 0,
          busy := 0 },
        { store := (), calls := List.replicate n (storeCall rowA) }) := by
  have hres : storeResults acceptAll ()
      ((rowsOf (List.replicate n (Event.row rowA))).map storeCall) =
        List.replicate n 0 := by
    rw [storeResults_acceptAll, List.length_map, rowsOf_replicate_row, List.length_replicate]
  have h01 : ∀ c ∈ storeResults acceptAll ()
      ((rowsOf (List.replicate n (Event.row rowA))).map storeCall), c = 0 ∨ c = 1 := by
    rw [hres]
    intro c hc
    exact Or.inl (List.eq_of_mem_replicate hc)
  refine ⟨hres, ?_⟩
  rw [process_events acceptAll "backup" _ { store := (), calls := [] } h01, hres,
    busyCount_replicate_row, rowsOf_replicate_row]
  have hc1 : (List.replicate n (0 : Int)).count 1 = 0 := by
    rw [List.count_eq_zero]
    intro hmem
    have := List.eq_of_mem_replicate hmem
    omega
  simp only [List.count_replicate_self, hc1, List.map_replicate, List.nil_append,
    Nat.zero_mod]

/-- C4, the claim as stated, fails: with `restored` at 2^32 - 1, a row for
which the store returns 0 leaves `restored` at 0, which is not one more. A run
reaches this: a statement that yields 2^32 rows, each of which the store
applies (result 0), ends normally with `restored` equal to 0. -/
theorem C4_restored_wraps :
    (acceptAll.addUnlessThere () (storeCall rowA)).1 = 0 ∧
    (DecrementalRestorer.processEntry acceptAll rowA
        { db := true, file := "backup", restored := 4294967295, skipped := 0, busy := 0 }
        { store := (), calls := [] }).2.1.restored = 0 ∧
    (0 : Nat) ≠ 4294967295 + 1 ∧
    storeResults acceptAll ()
        ((rowsOf (List.replicate 4294967296 (Event.row rowA))).map storeCall) =
      List.replicate 4294967296 0 ∧
    ∃ self1 w1,
      DecrementalRestorer.process acceptAll
        (sqliteOf (List.replicate 4294967296 (Event.row rowA)))
        (DecrementalRestorer.new "backup") { store := (), calls := [] } =
          some (Except.ok (), self1, w1) ∧
      self1.restored = 0 := by
  obtain ⟨h1, h2⟩ := process_accept_rows 4294967296
  exact ⟨rfl, by decide, by decide, h1, _, _, h2, by decide⟩

/-- C4 (amended): for every row, whatever the state of the job and of the
store: result 0 increments `restored` as a `uint32_t`, that is by one below
`2^32 - 1` and to 0 from `2^32 - 1`, and changes no other counter; result 1
does the same to `skipped`; and any other result makes `processEntry` throw
"Failed to restore item" with no counter changed. In a run of `process()` in
which the store answered 0 or 1 to the rows before, `process()` then fails with
that message, the counters are those that the rows before left, and the failed
call is the last call made, whatever the statement would have yielded next. -/
theorem C4_store_result {σ : Type} (S : Store σ) (pre : List Event) (row : Row)
    (rest : List StepResult) (file : String) (w : World σ)
    (h01 : ∀ c ∈ storeResults S w.store ((rowsOf pre).map storeCall), c = 0 ∨ c = 1) :
    (∀ n, n < 4294967295 → inc32 n = n + 1) ∧
    inc32 4294967295 = 0 ∧
    (∀ (self : DecrementalRestorer) (w0 : World σ),
      ((S.addUnlessThere w0.store (storeCall row)).1 = 0 →
        DecrementalRestorer.processEntry S row self w0 =
          (Except.ok (), { self with restored := inc32 self.restored },
            { store := (S.addUnlessThere w0.store (storeCall row)).2
              calls := w0.calls ++ [storeCall row] })) ∧
      ((S.addUnlessThere w0.store (storeCall row)).1 = 1 →
        DecrementalRestorer.processEntry S row self w0 =
          (Except.ok (), { self with skipped := inc32 self.skipped },
            { store := (S.addUnlessThere w0.store (storeCall row)).2
              calls := w0.calls ++ [storeCall row] })) ∧
      ((S.addUnlessThere w0.store (storeCall row)).1 ≠ 0 →
        (S.addUnlessThere w0.store (storeCall row)).1 ≠ 1 →
        DecrementalRestorer.processEntry S row self w0 =
          (Except.error "Failed to restore item", self,
            { store := (S.addUnlessThere w0.store (storeCall row)).2
              calls := w0.calls ++ [storeCall row] }))) ∧
    ∃ self1 w1,
      DecrementalRestorer.process S (sqliteOf pre) (DecrementalRestorer.new file) w =
        some (Except.ok (), self1, w1) ∧
      ((S.addUnlessThere w1.store (storeCall row)).1 ≠ 0 →
        (S.addUnlessThere w1.store (storeCall row)).1 ≠ 1 →
        DecrementalRestorer.process S
            { open_ok := true, prepare_ok := true
              steps := pre.map Event.toStep ++ StepResult.row row :: rest }
            (DecrementalRestorer.new file) w =
          some (Except.error "Failed to restore item", { self1 with db := true },
            { store := (S.addUnlessThere w1.store (storeCall row)).2
              calls := w1.calls ++ [storeCall row] })) := by
  refine ⟨?_, by decide, ?_, _, _, process_events S file pre w h01, ?_⟩
  · intro n hn
    unfold inc32
    omega
  · intro self w0
    refine ⟨?_, ?_, ?_⟩
    · intro h
      simp only [DecrementalRestorer.processEntry, h, if_true]
    · intro h
      have hne : ¬ ((1 : Int) = 0) := by decide
      simp only [DecrementalRestorer.processEntry, h, hne, if_true, if_false]
    · intro h0 h1
      simp only [DecrementalRestorer.processEntry, h0, h1, if_false]
  · intro h0 h1
    simp only [DecrementalRestorer.process, Bool.true_eq_false, if_false]
    rw [processLoop_append S pre _ _ w (Nat.zero_lt_succ _) (Nat.zero_lt_succ _)
      (Nat.zero_lt_succ _) h01]
    simp only [DecrementalRestorer.processLoop, DecrementalRestorer.processEntry, h0, h1,
      if_false, DecrementalRestorer.new, Nat.zero_add]

/-- C4 at a concrete run: the store applies the first row and fails the
second; the third row is never passed. -/
theorem C4_store_result_witness :
    DecrementalRestorer.process failSecond
        { open_ok := true, prepare_ok := true
          steps := [StepResult.row rowA, StepResult.row rowA, StepResult.row rowA,
            StepResult.done] }
        (DecrementalRestorer.new "backup") { store := 0, calls := [] } =
      some (Except.error "Failed to restore item",
        { db := true, file := "backup", restored := 1, skipped := 0, busy := 0 },
        { store := 2, calls := [storeCall rowA, storeCall rowA] }) ∧
    ((∀ n, n < 4294967295 → inc32 n = n + 1) ∧
    inc32 4294967295 = 0 ∧
    (∀ (self : DecrementalRestorer) (w0 : World Nat),
      ((failSecond.addUnlessThere w0.store (storeCall rowA)).1 = 0 →
        DecrementalRestorer.processEntry failSecond rowA self w0 =
          (Except.ok (), { self with restored := inc32 self.restored },
            { store := (failSecond.addUnlessThere w0.store (storeCall rowA)).2
              calls := w0.calls ++ [storeCall rowA] })) ∧
      ((failSecond.addUnlessThere w0.store (storeCall rowA)).1 = 1 →
        DecrementalRestorer.processEntry failSecond rowA self w0 =
          (Except.ok (), { self with skipped := inc32 self.skipped },
            { store := (failSecond.addUnlessThere w0.store (storeCall rowA)).2
              calls := w0.calls ++ [storeCall rowA] })) ∧
      ((failSecond.addUnlessThere w0.store (storeCall rowA)).1 ≠ 0 →
        (failSecond.addUnlessThere w0.store (storeCall rowA)).1 ≠ 1 →
        DecrementalRestorer.processEntry failSecond rowA self w0 =
          (Except.error "Failed to restore item", self,
            { store := (failSecond.addUnlessThere w0.store (storeCall rowA)).2
              calls := w0.calls ++ [storeCall rowA] }))) ∧
    ∃ self1 w1,
      DecrementalRestorer.process failSecond (sqliteOf [Event.row rowA])
          (DecrementalRestorer.new "backup") { store := 0, calls := [] } =
        some (Except.ok (), self1, w1) ∧
      ((failSecond.addUnlessThere w1.store (storeCall rowA)).1 ≠ 0 →
        (failSecond.addUnlessThere w1.store (storeCall rowA)).1 ≠ 1 →
        DecrementalRestorer.process failSecond
            { open_ok := true, prepare_ok := true
              steps := [Event.row rowA].map Event.toStep ++
                StepResult.row rowA :: [StepResult.row rowA, StepResult.done] }
            (DecrementalRestorer.new "backup") { store := 0, calls := [] } =
          some (Except.error "Failed to restore item", { self1 with db := true },
            { store := (failSecond.addUnlessThere w1.store (storeCall rowA)).2
              calls := w1.calls ++ [storeCall rowA] }))) :=
  ⟨by rfl, C4_store_result failSecond [Event.row rowA] rowA
    [StepResult.row rowA, StepResult.done] "backup" { store := 0, calls := [] }
    (by decide)⟩

/-! ## The invariant of the manager -/

theorem inv_init (terminate : Bool) (thread : Nat) : Inv (System.init terminate thread) := by
  simp [Inv, System.init, RestoreManagerImpl.new]

theorem inv_step (os : Os) (a : Action) (sys sys1 : System) (hinv : Inv sys)
    (hstep : step os a sys = some sys1) : Inv sys1 := by
  obtain ⟨⟨inst, term, st, th⟩, threads, jobs⟩ := sys
  cases a with
  | initializeCall config fault =>
    simp only [step, RestoreManagerImpl.initialize] at hstep
    by_cases hacc : os.access config = false
    · simp only [hacc, if_true, Call.state?, Option.some.injEq] at hstep
      exact hstep ▸ hinv
    · simp only [hacc, if_false] at hstep
      cases st <;> simp only [Inv] at hinv <;> obtain ⟨h1, h2, h3⟩ := hinv
      · subst h1 h2 h3
        simp [RestoreManagerImpl.initialize_new, Call.state?,
          RestoreManagerImpl.setState_UNLOCKED] at hstep
        subst hstep
        simp [Inv]
      · simp [Call.state?] at hstep
        subst hstep
        exact ⟨h1, h2, h3⟩
      · simp [Call.state?] at hstep
        subst hstep
        exact ⟨h1, h2, h3⟩
      · simp [Call.state?] at hstep
        subst hstep
        exact ⟨h1, h2, h3⟩
      · obtain ⟨job, rfl⟩ := Option.isSome_iff_exists.mp h1
        subst h2 h3
        cases fault with
        | some e =>
          cases e <;>
            simp [RestoreManagerImpl.reap_UNLOCKED, pthread_join, JoinFault.code, ESRCH,
              Call.state?] at hstep <;> subst hstep <;> simp [Inv]
        | none =>
          simp [RestoreManagerImpl.reap_UNLOCKED, pthread_join, ESRCH,
            RestoreManagerImpl.initialize_new, RestoreManagerImpl.setState_UNLOCKED,
            Call.state?] at hstep
          subst hstep
          simp [Inv]
  | startCall ret tid =>
    simp only [step] at hstep
    split at hstep
    · cases hstep
    · cases st <;> simp only [Inv] at hinv <;> obtain ⟨h1, h2, h3⟩ := hinv
      · subst h1 h2 h3
        simp [RestoreManagerImpl.start, Call.state?] at hstep
        subst hstep
        simp [Inv]
      · obtain ⟨job, rfl⟩ := Option.isSome_iff_exists.mp h1
        subst h2 h3
        by_cases hret : ret = 0
        · simp [RestoreManagerImpl.start, Call.state?, hret] at hstep
          subst hstep
          simp [Inv]
        · simp [RestoreManagerImpl.start, Call.state?, hret] at hstep
          subst hstep
          simp [Inv]
      all_goals
        obtain ⟨job, rfl⟩ := Option.isSome_iff_exists.mp h1
        simp [RestoreManagerImpl.start, Call.state?] at hstep
        subst hstep
        exact ⟨rfl, h2, h3⟩
  | abortCall =>
    simp only [step, RestoreManagerImpl.abort, Call.state?, Option.some.injEq] at hstep
    subst hstep
    cases st <;> exact hinv
  | waitCall fault =>
    simp only [step, RestoreManagerImpl.wait] at hstep
    cases st <;> simp only [Inv] at hinv <;> obtain ⟨h1, h2, h3⟩ := hinv
    · simp [Call.state?] at hstep
      subst hstep
      exact ⟨h1, h2, h3⟩
    · simp [Call.state?] at hstep
      subst hstep
      exact ⟨h1, h2, h3⟩
    · obtain ⟨job, rfl⟩ := Option.isSome_iff_exists.mp h1
      subst h2 h3
      cases fault with
      | some e =>
        cases e <;>
          simp [RestoreManagerImpl.reap_UNLOCKED, pthread_join, JoinFault.code, ESRCH,
            Call.state?] at hstep <;> subst hstep <;> simp [Inv]
      | none =>
        simp [RestoreManagerImpl.reap_UNLOCKED, pthread_join, Call.state?] at hstep
    · obtain ⟨job, rfl⟩ := Option.isSome_iff_exists.mp h1
      subst h3
      cases fault with
      | some e =>
        cases e <;>
          simp [RestoreManagerImpl.reap_UNLOCKED, pthread_join, JoinFault.code, ESRCH,
            Call.state?] at hstep <;> subst hstep <;> simp [Inv, h2]
      | none =>
        rcases h2 with h2 | h2 <;> subst h2 <;>
          simp [RestoreManagerImpl.reap_UNLOCKED, pthread_join, Call.state?] at hstep
    · obtain ⟨job, rfl⟩ := Option.isSome_iff_exists.mp h1
      subst h2 h3
      cases fault with
      | some e =>
        cases e <;>
          simp [RestoreManagerImpl.reap_UNLOCKED, pthread_join, JoinFault.code, ESRCH,
            Call.state?] at hstep <;> subst hstep <;> simp [Inv]
      | none =>
        simp [RestoreManagerImpl.reap_UNLOCKED, pthread_join, ESRCH,
          RestoreManagerImpl.setState_UNLOCKED, Call.state?] at hstep
        subst hstep
        simp [Inv]
  | statsCall =>
    simp only [step, Option.some.injEq] at hstep
    exact hstep ▸ hinv
  | isRunningCall =>
    simp only [step, Option.some.injEq] at hstep
    exact hstep ▸ hinv
  | workerSetRunning tid =>
    simp only [step] at hstep
    split at hstep
    · rename_i hmem
      simp only [Option.some.injEq] at hstep
      subst hstep
      cases st <;> simp only [Inv] at hinv <;> obtain ⟨h1, h2, h3⟩ := hinv
      · subst h2
        simp at hmem
      · subst h2
        simp at hmem
      · subst h2 h3
        simp only [List.mem_singleton, Thread.mk.injEq, and_true] at hmem
        subst hmem
        simp [Inv, advance, RestoreManagerImpl.setState,
          RestoreManagerImpl.setState_UNLOCKED, h1]
      · rcases h2 with h2 | h2 <;> subst h2 <;> simp at hmem
      · subst h2
        simp at hmem
    · cases hstep
  | workerReplay tid sq results =>
    simp only [step] at hstep
    split at hstep
    · rename_i hmem
      cases st <;> simp only [Inv] at hinv <;> obtain ⟨h1, h2, h3⟩ := hinv
      · subst h2
        simp at hmem
      · subst h2
        simp at hmem
      · subst h2
        simp at hmem
      · obtain ⟨job, rfl⟩ := Option.isSome_iff_exists.mp h1
        rcases h2 with h2 | h2 <;> subst h2
        · simp only [List.mem_singleton, Thread.mk.injEq, and_true] at hmem
          subst hmem h3
          simp only [RestoreManagerImpl.run_process] at hstep
          split at hstep
          · rename_i r m1 heq
            simp only [Option.some.injEq] at hstep
            subst hstep
            split at heq
            · cases heq
            · cases heq
              simp [Inv, advance]
            · cases heq
          · cases hstep
        · simp at hmem
      · subst h2
        simp at hmem
    · cases hstep
  | workerSetZombie tid =>
    simp only [step] at hstep
    split at hstep
    · rename_i hmem
      simp only [Option.some.injEq] at hstep
      subst hstep
      cases st <;> simp only [Inv] at hinv <;> obtain ⟨h1, h2, h3⟩ := hinv
      · subst h2
        simp at hmem
      · subst h2
        simp at hmem
      · subst h2
        simp at hmem
      · rcases h2 with h2 | h2 <;> subst h2
        · simp at hmem
        · simp only [List.mem_singleton, Thread.mk.injEq, and_true] at hmem
          subst hmem h3
          simp [Inv, advance, RestoreManagerImpl.setState,
            RestoreManagerImpl.setState_UNLOCKED, h1]
      · subst h2
        simp at hmem
    · cases hstep

/-- Every state that the system reaches satisfies the invariant. -/
theorem reachable_inv (os : Os) (sys : System) (h : Reachable os sys) : Inv sys := by
  induction h with
  | init terminate thread => exact inv_init terminate thread
  | step a sys sys1 _ hstep ih => exact inv_step os a sys sys1 ih hstep

theorem inv_job_iff (sys : System) (h : Inv sys) :
    sys.mgr.instance_.isSome = true ↔ sys.mgr.state ≠ State.Uninitialized := by
  obtain ⟨⟨inst, term, st, th⟩, threads, jobs⟩ := sys
  cases st <;> simp only [Inv] at h <;> simp [h.1]

theorem inv_threads_le (sys : System) (h : Inv sys) :
    sys.threads.length ≤ 1 ∧ sys.jobs ≤ 1 := by
  obtain ⟨⟨inst, term, st, th⟩, threads, jobs⟩ := sys
  cases st <;> simp only [Inv] at h <;> obtain ⟨_, h2, h3⟩ := h
  · simp [h2, h3]
  · simp [h2, h3]
  · simp [h2, h3]
  · rcases h2 with h2 | h2 <;> simp [h2, h3]
  · simp [h2, h3]

theorem reach_initialized : Reachable os0 sysInitialized :=
  Reachable.step (Action.initializeCall "backup.mbb" none) (System.init false 0) _
    (Reachable.init false 0) rfl

theorem reach_starting : Reachable os0 sysStarting :=
  Reachable.step (Action.startCall 0 7) sysInitialized _ reach_initialized rfl

theorem reach_running : Reachable os0 sysRunning :=
  Reachable.step (Action.workerSetRunning 7) sysStarting _ reach_starting rfl

theorem reach_zombie : Reachable os0 sysZombie :=
  Reachable.step (Action.workerSetZombie 7) _ _
    (Reachable.step (Action.workerReplay 7 (sqliteOf [Event.row rowA]) [0]) sysRunning _
      reach_running rfl) rfl

/-- A step that leaves more threads than before is a `start()` in state
Initialized, with no thread before. -/
theorem step_spawns (os : Os) (a : Action) (sys sys1 : System) (hinv : Inv sys)
    (hstep : step os a sys = some sys1) (hmore : sys.threads.length < sys1.threads.length) :
    (∃ ret tid, a = Action.startCall ret tid) ∧ sys.mgr.state = State.Initialized ∧
      sys.threads = [] := by
  have hle := (inv_threads_le sys1 (inv_step os a sys sys1 hinv hstep)).1
  have hnil : sys.threads = [] := List.length_eq_zero.mp (by omega)
  refine ⟨?_, ?_, hnil⟩
  · cases a with
    | startCall ret tid => exact ⟨ret, tid, rfl⟩
    | initializeCall config fault =>
      exfalso
      obtain ⟨⟨inst, term, st, th⟩, threads, jobs⟩ := sys
      simp only [] at hnil
      subst hnil
      cases st <;> simp only [Inv] at hinv <;> obtain ⟨h1, h2, h3⟩ := hinv
      · subst h1
        simp only [step, RestoreManagerImpl.initialize] at hstep
        by_cases hacc : os.access config = false
        · simp [hacc, Call.state?] at hstep
          subst hstep
          simp at hmore
        · simp [hacc, Call.state?, RestoreManagerImpl.initialize_new] at hstep
          subst hstep
          simp at hmore
      · simp only [step, RestoreManagerImpl.initialize] at hstep
        by_cases hacc : os.access config = false
        · simp [hacc, Call.state?] at hstep
          subst hstep
          simp at hmore
        · simp [hacc, Call.state?] at hstep
          subst hstep
          simp at hmore
      · cases h2
      · rcases h2 with h2 | h2 <;> cases h2
      · cases h2
    | abortCall =>
      simp only [step, RestoreManagerImpl.abort, Call.state?, Option.some.injEq] at hstep
      subst hstep
      simp at hmore
    | waitCall fault =>
      exfalso
      obtain ⟨⟨inst, term, st, th⟩, threads, jobs⟩ := sys
      simp only [] at hnil
      subst hnil
      cases st <;> simp only [Inv] at hinv <;> obtain ⟨h1, h2, h3⟩ := hinv
      · simp [step, RestoreManagerImpl.wait, Call.state?] at hstep
        subst hstep
        simp at hmore
      · simp [step, RestoreManagerImpl.wait, Call.state?] at hstep
        subst hstep
        simp at hmore
      · cases h2
      · rcases h2 with h2 | h2 <;> cases h2
      · cases h2
    | statsCall =>
      simp only [step, Option.some.injEq] at hstep
      subst hstep
      simp at hmore
    | isRunningCall =>
      simp only [step, Option.some.injEq] at hstep
      subst hstep
      simp at hmore
    | workerSetRunning tid => simp [step, hnil] at hstep
    | workerReplay tid sq results => simp [step, hnil] at hstep
    | workerSetZombie tid => simp [step, hnil] at hstep
  · obtain ⟨⟨inst, term, st, th⟩, threads, jobs⟩ := sys
    simp only [] at hnil
    subst hnil
    cases st <;> simp only [Inv] at hinv <;> obtain ⟨h1, h2, h3⟩ := hinv
    · exfalso
      subst h1
      cases a <;>
        simp [step, RestoreManagerImpl.initialize, RestoreManagerImpl.initialize_new,
          RestoreManagerImpl.start, RestoreManagerImpl.abort, RestoreManagerImpl.wait,
          Call.state?] at hstep
      · rename_i config fault
        by_cases hacc : os.access config = false
        · simp [hacc] at hstep
          subst hstep
          simp at hmore
        · simp [hacc] at hstep
          subst hstep
          simp at hmore
      all_goals
        subst hstep
        simp at hmore
    · rfl
    · cases h2
    · rcases h2 with h2 | h2 <;> cases h2
    · cases h2

/-- From a state that satisfies the invariant, an `initialize` that succeeds
leaves the new job as the only job, with no worker thread. -/
theorem initialize_ok_inv (os : Os) (config : String) (fault : Option JoinFault)
    (sys sys1 : System) (hinv : Inv sys)
    (h : RestoreManagerImpl.initialize os config fault sys =
      Call.returned (Except.ok ()) sys1) :
    sys1 = { mgr := { instance_ := some (DecrementalRestorer.new config),
                      terminate := sys.mgr.terminate, state := State.Initialized,
                      thread := sys.mgr.thread }
             threads := [], jobs := 1 } ∧
    (sys.mgr.state = State.Uninitialized ∨ sys.mgr.state = State.Zombie) := by
  obtain ⟨⟨inst, term, st, th⟩, threads, jobs⟩ := sys
  simp only [ RestoreManagerImpl.initialize] at h
  by_cases hacc : os.access config = false
  · simp [hacc] at h
  · simp only [hacc, if_false] at h
    cases st <;> simp only [Inv] at hinv <;> obtain ⟨h1, h2, h3⟩ := hinv
    · subst h1 h2 h3
      simp [RestoreManagerImpl.initialize_new, RestoreManagerImpl.setState_UNLOCKED] at h
      exact ⟨h.symm, Or.inl rfl⟩
    · simp at h
    · simp at h
    · simp at h
    · obtain ⟨job, rfl⟩ := Option.isSome_iff_exists.mp h1
      subst h2 h3
      cases fault with
      | some e =>
        cases e <;>
          simp [RestoreManagerImpl.reap_UNLOCKED, pthread_join, JoinFault.code, ESRCH] at h
      | none =>
        simp [RestoreManagerImpl.reap_UNLOCKED, pthread_join, ESRCH,
          RestoreManagerImpl.initialize_new, RestoreManagerImpl.setState_UNLOCKED] at h
        exact ⟨h.symm, Or.inr rfl⟩

/-! ## C5: a job exists if and only if the state is not uninitialized -/

/-- C5: in every state that the system reaches from a freshly constructed
manager by calls of initialize, start (the thread created or not), abort, wait
(the join succeeding or failing), stats, isRunning and by the steps of the
worker, the job pointer is non-null if and only if the state is not
Uninitialized. -/
theorem C5_job_iff_not_uninitialized (os : Os) (sys : System) (h : Reachable os sys) :
    sys.mgr.instance_.isSome = true ↔ sys.mgr.state ≠ State.Uninitialized :=
  inv_job_iff sys (reachable_inv os sys h)

/-- C5 at the state in which the worker has terminated and was not yet
joined. -/
theorem C5_job_iff_not_uninitialized_witness :
    sysZombie.mgr.instance_.isSome = true ↔ sysZombie.mgr.state ≠ State.Uninitialized :=
  C5_job_iff_not_uninitialized os0 sysZombie reach_zombie

/-! ## C6: at most one worker and one job -/

/-- C6: every state that the system reaches has at most one worker thread
created and not yet joined, and at most one job allocated and not yet freed; a
step that creates a thread is a `start()` in state Initialized, when there is
no thread; and an `initialize` that succeeds leaves the new job as the only
job, with no thread: the job before was freed and its worker joined. -/
theorem C6_one_worker_one_job (os : Os) (sys : System) (h : Reachable os sys) :
    sys.threads.length ≤ 1 ∧ sys.jobs ≤ 1 ∧
    (∀ a sys1, step os a sys = some sys1 → sys.threads.length < sys1.threads.length →
      (∃ ret tid, a = Action.startCall ret tid) ∧ sys.mgr.state = State.Initialized ∧
        sys.threads = []) ∧
    (∀ config fault sys1,
      RestoreManagerImpl.initialize os config fault sys =
        Call.returned (Except.ok ()) sys1 →
      sys1.jobs = 1 ∧ sys1.threads = [] ∧
        sys1.mgr.instance_ = some (DecrementalRestorer.new config)) := by
  have hinv := reachable_inv os sys h
  refine ⟨(inv_threads_le sys hinv).1, (inv_threads_le sys hinv).2, ?_, ?_⟩
  · intro a sys1 hstep hmore
    exact step_spawns os a sys sys1 hinv hstep hmore
  · intro config fault sys1 hok
    rw [(initialize_ok_inv os config fault sys sys1 hinv hok).1]
    exact ⟨rfl, rfl, rfl⟩

/-- C6 at the state in which the worker replays. -/
theorem C6_one_worker_one_job_witness :
    sysRunning.threads.length ≤ 1 ∧ sysRunning.jobs ≤ 1 ∧
    (∀ a sys1, step os0 a sysRunning = some sys1 →
      sysRunning.threads.length < sys1.threads.length →
      (∃ ret tid, a = Action.startCall ret tid) ∧
        sysRunning.mgr.state = State.Initialized ∧ sysRunning.threads = []) ∧
    (∀ config fault sys1,
      RestoreManagerImpl.initialize os0 config fault sysRunning =
        Call.returned (Except.ok ()) sys1 →
      sys1.jobs = 1 ∧ sys1.threads = [] ∧
        sys1.mgr.instance_ = some (DecrementalRestorer.new config)) :=
  C6_one_worker_one_job os0 sysRunning reach_running

/-! ## C7, C8, C9: initialize -/

/-- C7: for every path that exists and every manager in state Initialized,
Starting or Running, `initialize(path)` throws "restorer isn't idle!" and
leaves the whole system as it was: the state, the job with its file and its
counters, and the cancellation flag. -/
theorem C7_initialize_not_idle (os : Os) (config : String) (fault : Option JoinFault)
    (sys : System) (hacc : os.access config = true)
    (hst : sys.mgr.state = State.Initialized ∨ sys.mgr.state = State.Starting ∨
      sys.mgr.state = State.Running) :
    RestoreManagerImpl.initialize os config fault sys =
      Call.returned (Except.error "restorer isn't idle!") sys := by
  rcases hst with h | h | h <;> simp [ RestoreManagerImpl.initialize, hacc, h]

/-- C7 while the worker replays. -/
theorem C7_initialize_not_idle_witness :
    RestoreManagerImpl.initialize os0 "backup.mbb" none sysRunning =
      Call.returned (Except.error "restorer isn't idle!") sysRunning :=
  C7_initialize_not_idle os0 "backup.mbb" none sysRunning rfl (Or.inr (Or.inr rfl))

/-- C8: for every path that does not exist and every state of the system,
`initialize(path)` throws "File not found" and leaves the whole system as it
was; the check comes first, so a zombie job is not reaped. -/
theorem C8_initialize_not_found (os : Os) (config : String) (fault : Option JoinFault)
    (sys : System) (hacc : os.access config = false) :
    RestoreManagerImpl.initialize os config fault sys =
      Call.returned (Except.error "File not found") sys := by
  simp [ RestoreManagerImpl.initialize, hacc]

/-- C8 in state Zombie: the job and its terminated worker stay. -/
theorem C8_initialize_not_found_witness :
    RestoreManagerImpl.initialize os0 "missing.mbb" none sysZombie =
      Call.returned (Except.error "File not found") sysZombie :=
  C8_initialize_not_found os0 "missing.mbb" none sysZombie (by decide)

/-- C9: for every path that exists, in a reachable state with the manager
Uninitialized, or Zombie with `pthread_join` returning 0, `initialize(path)`
succeeds and leaves the state Initialized with a new job whose file is the path
and whose counters are 0; nothing of the job before is left: the stats are
those of the new job. -/
theorem C9_initialize_success (os : Os) (config : String) (fault : Option JoinFault)
    (sys : System) (hreach : Reachable os sys) (hacc : os.access config = true)
    (hst : sys.mgr.state = State.Uninitialized ∨
      (sys.mgr.state = State.Zombie ∧
        ∃ threads1, pthread_join sys.threads sys.mgr.thread fault = some (0, threads1))) :
    ∃ sys1,
      RestoreManagerImpl.initialize os config fault sys =
        Call.returned (Except.ok ()) sys1 ∧
      sys1.mgr.state = State.Initialized ∧
      sys1.mgr.instance_ = some
        { db := false, file := config, restored := 0, skipped := 0, busy := 0 } ∧
      sys1.mgr.terminate = sys.mgr.terminate ∧
      sys1.threads = [] ∧ sys1.jobs = 1 ∧
      RestoreManagerImpl.stats sys1.mgr =
        [("engine", StatValue.str "RestoreManagerImpl"),
         ("state", StatValue.str "Initialized"),
         ("file", StatValue.str config),
         ("number_busy", StatValue.num 0),
         ("number_skipped", StatValue.num 0),
         ("number_restored", StatValue.num 0),
         ("terminate", StatValue.flag sys.mgr.terminate)] := by
  have hinv := reachable_inv os sys hreach
  obtain ⟨⟨inst, term, st, th⟩, threads, jobs⟩ := sys
  rcases hst with h | ⟨h, threads1, hj⟩
  · simp only [] at h
    subst h
    simp only [Inv] at hinv
    obtain ⟨h1, h2, h3⟩ := hinv
    subst h1 h2 h3
    refine ⟨_, by simp [ RestoreManagerImpl.initialize, hacc,
      RestoreManagerImpl.initialize_new]; rfl, ?_⟩
    simp [RestoreManagerImpl.setState_UNLOCKED, DecrementalRestorer.new,
      RestoreManagerImpl.stats, State.toString]
  · simp only [] at h hj
    subst h
    simp only [Inv] at hinv
    obtain ⟨h1, h2, h3⟩ := hinv
    obtain ⟨job, rfl⟩ := Option.isSome_iff_exists.mp h1
    subst h2 h3
    cases fault with
    | some e => cases e <;> simp [pthread_join, JoinFault.code] at hj
    | none =>
      refine ⟨_, by simp [ RestoreManagerImpl.initialize, hacc,
        RestoreManagerImpl.reap_UNLOCKED, pthread_join, ESRCH,
        RestoreManagerImpl.initialize_new]; rfl, ?_⟩
      simp [RestoreManagerImpl.setState_UNLOCKED, DecrementalRestorer.new,
        RestoreManagerImpl.stats, State.toString]

/-- C9 in state Zombie: the job that had restored one row is replaced. -/
theorem C9_initialize_success_witness :
    ∃ sys1,
      RestoreManagerImpl.initialize os0 "backup.mbb" none sysZombie =
        Call.returned (Except.ok ()) sys1 ∧
      sys1.mgr.state = State.Initialized ∧
      sys1.mgr.instance_ = some
        { db := false, file := "backup.mbb", restored := 0, skipped := 0, busy := 0 } ∧
      sys1.mgr.terminate = sysZombie.mgr.terminate ∧
      sys1.threads = [] ∧ sys1.jobs = 1 ∧
      RestoreManagerImpl.stats sys1.mgr =
        [("engine", StatValue.str "RestoreManagerImpl"),
         ("state", StatValue.str "Initialized"),
         ("file", StatValue.str "backup.mbb"),
         ("number_busy", StatValue.num 0),
         ("number_skipped", StatValue.num 0),
         ("number_restored", StatValue.num 0),
         ("terminate", StatValue.flag sysZombie.mgr.terminate)] :=
  C9_initialize_success os0 "backup.mbb" none sysZombie reach_zombie rfl
    (Or.inr ⟨rfl, [], rfl⟩)

/-! ## C10: start -/

/-- C10: in every reachable state, `start()` with `pthread_create` returning 0
succeeds exactly when the state is Initialized, and then the state is Starting,
the job is kept and the worker thread exists; in state Uninitialized it throws
"you need to call initialize before start", in state Starting, Running or
Zombie it throws "Restore already running", and these calls, whatever
`pthread_create` would return, leave the whole system as it was. -/
theorem C10_start (os : Os) (tid : Nat) (sys : System) (hreach : Reachable os sys) :
    ((∃ sys1, RestoreManagerImpl.start os 0 tid sys = Call.returned (Except.ok ()) sys1) ↔
      sys.mgr.state = State.Initialized) ∧
    (sys.mgr.state = State.Initialized →
      RestoreManagerImpl.start os 0 tid sys =
        Call.returned (Except.ok ())
          { sys with
            mgr := { sys.mgr with state := State.Starting, thread := tid }
            threads := sys.threads ++ [{ tid := tid, pc := Pc.spawned }] }) ∧
    (sys.mgr.state = State.Uninitialized → ∀ ret,
      RestoreManagerImpl.start os ret tid sys =
        Call.returned (Except.error "you need to call initialize before start") sys) ∧
    (sys.mgr.state = State.Starting ∨ sys.mgr.state = State.Running ∨
        sys.mgr.state = State.Zombie → ∀ ret,
      RestoreManagerImpl.start os ret tid sys =
        Call.returned (Except.error "Restore already running") sys) := by
  have hinv := reachable_inv os sys hreach
  obtain ⟨⟨inst, term, st, th⟩, threads, jobs⟩ := sys
  cases st <;> simp only [Inv] at hinv <;> obtain ⟨h1, _, _⟩ := hinv
  · subst h1
    simp [RestoreManagerImpl.start]
  · obtain ⟨job, rfl⟩ := Option.isSome_iff_exists.mp h1
    simp [RestoreManagerImpl.start]
  · obtain ⟨job, rfl⟩ := Option.isSome_iff_exists.mp h1
    simp [RestoreManagerImpl.start]
  · obtain ⟨job, rfl⟩ := Option.isSome_iff_exists.mp h1
    simp [RestoreManagerImpl.start]
  · obtain ⟨job, rfl⟩ := Option.isSome_iff_exists.mp h1
    simp [RestoreManagerImpl.start]

/-- C10 in state Initialized: `start()` succeeds and the state is Starting. -/
theorem C10_start_witness :
    ((∃ sys1, RestoreManagerImpl.start os0 0 7 sysInitialized =
        Call.returned (Except.ok ()) sys1) ↔
      sysInitialized.mgr.state = State.Initialized) ∧
    (sysInitialized.mgr.state = State.Initialized →
      RestoreManagerImpl.start os0 0 7 sysInitialized =
        Call.returned (Except.ok ())
          { sysInitialized with
            mgr := { sysInitialized.mgr with state := State.Starting, thread := 7 }
            threads := sysInitialized.threads ++ [{ tid := 7, pc := Pc.spawned }] }) ∧
    (sysInitialized.mgr.state = State.Uninitialized → ∀ ret,
      RestoreManagerImpl.start os0 ret 7 sysInitialized =
        Call.returned (Except.error "you need to call initialize before start")
          sysInitialized) ∧
    (sysInitialized.mgr.state = State.Starting ∨ sysInitialized.mgr.state = State.Running ∨
        sysInitialized.mgr.state = State.Zombie → ∀ ret,
      RestoreManagerImpl.start os0 ret 7 sysInitialized =
        Call.returned (Except.error "Restore already running") sysInitialized) :=
  C10_start os0 7 sysInitialized reach_initialized

/-! ## C11: the worker and a failed `process()` -/

/-- When `process()` throws, `run()` does not return: the exception leaves
`run()` before `setState(State::Zombie)`. -/
theorem run_failed_process (sq : Sqlite) (results : List Int) (m : RestoreManagerImpl)
    (job job1 : DecrementalRestorer) (e : String) (w1 : World (List Int))
    (hjob : m.instance_ = some job)
    (hp : DecrementalRestorer.process scripted sq job { store := results, calls := [] } =
      some (Except.error e, job1, w1)) :
    RestoreManagerImpl.run sq results m = Call.aborted := by
  simp [RestoreManagerImpl.run, RestoreManagerImpl.run_process, RestoreManagerImpl.setState,
    RestoreManagerImpl.setState_UNLOCKED, hjob, hp]

/-- When `process()` returns normally, `run()` returns with the state Zombie
and the job as `process()` left it. -/
theorem run_ok_process (sq : Sqlite) (results : List Int) (m : RestoreManagerImpl)
    (job job1 : DecrementalRestorer) (w1 : World (List Int))
    (hjob : m.instance_ = some job)
    (hp : DecrementalRestorer.process scripted sq job { store := results, calls := [] } =
      some (Except.ok (), job1, w1)) :
    RestoreManagerImpl.run sq results m =
      Call.returned (Except.ok ())
        { m with instance_ := some job1, state := State.Zombie } := by
  simp [RestoreManagerImpl.run, RestoreManagerImpl.run_process, RestoreManagerImpl.setState,
    RestoreManagerImpl.setState_UNLOCKED, hjob, hp]

/-- C11, the code at the failing inputs: after `initialize` and a successful
`start()` the worker sets the state to Running; when `process()` then returns
normally, `run()` ends with the state Zombie; but when `process()` throws (the
database does not open, the statement does not prepare, a step fails, or the
store answers 2), the exception leaves `run()`, which has no handler:
`setState(State::Zombie)` is not executed, the worker has no further step and
the state is never Zombie. -/
theorem C11_failed_process_never_zombie :
    RestoreManagerImpl.start os0 0 7 sysInitialized =
      Call.returned (Except.ok ()) sysStarting ∧
    step os0 (Action.workerSetRunning 7) sysStarting = some sysRunning ∧
    sysRunning.mgr.state = State.Running ∧
    RestoreManagerImpl.run (sqliteOf [Event.row rowA]) [0] sysStarting.mgr =
      Call.returned (Except.ok ()) sysZombie.mgr ∧
    RestoreManagerImpl.run sqOpenFails [] sysStarting.mgr = Call.aborted ∧
    RestoreManagerImpl.run sqPrepareFails [] sysStarting.mgr = Call.aborted ∧
    RestoreManagerImpl.run sqStepFails [0] sysStarting.mgr = Call.aborted ∧
    RestoreManagerImpl.run (sqliteOf [Event.row rowA]) [2] sysStarting.mgr = Call.aborted ∧
    step os0 (Action.workerReplay 7 sqOpenFails []) sysRunning = none ∧
    step os0 (Action.workerReplay 7 sqPrepareFails []) sysRunning = none ∧
    step os0 (Action.workerReplay 7 sqStepFails [0]) sysRunning = none ∧
    step os0 (Action.workerReplay 7 (sqliteOf [Event.row rowA]) [2]) sysRunning = none ∧
    step os0 (Action.workerSetZombie 7) sysRunning = none :=
  ⟨rfl, rfl, rfl, rfl, rfl, rfl, rfl, rfl, rfl, rfl, rfl, rfl, rfl⟩

/-! ## C12, C13: wait -/

/-- With no job and the state Uninitialized, `initialize` on a path that exists
succeeds. -/
theorem initialize_from_uninitialized (os : Os) (s : System)
    (hs : s.mgr.state = State.Uninitialized) (hi : s.mgr.instance_ = none)
    (config : String) (fault2 : Option JoinFault) (hacc : os.access config = true) :
    ∃ sys2, RestoreManagerImpl.initialize os config fault2 s =
        Call.returned (Except.ok ()) sys2 ∧
      sys2.mgr.state = State.Initialized ∧
      sys2.mgr.instance_ = some (DecrementalRestorer.new config) := by
  refine ⟨{ s with
      mgr := RestoreManagerImpl.setState_UNLOCKED State.Initialized
        { s.mgr with instance_ := some (DecrementalRestorer.new config) }
      jobs := s.jobs + 1 }, ?_, rfl, rfl⟩
  simp [ RestoreManagerImpl.initialize, hacc, hs, RestoreManagerImpl.initialize_new, hi]

/-- C12, the claim as stated, fails: in the reachable state Initialized
`wait()` returns and has changed nothing; the state is Initialized, not
Uninitialized, the job is still there, and `initialize` on the path that
exists, called right after, throws "restorer isn't idle!". -/
theorem C12_wait_in_initialized_keeps_job :
    Reachable os0 sysInitialized ∧
    RestoreManagerImpl.wait os0 none sysInitialized =
      Call.returned (Except.ok ()) sysInitialized ∧
    sysInitialized.mgr.state = State.Initialized ∧
    sysInitialized.mgr.instance_ = some (DecrementalRestorer.new "backup.mbb") ∧
    os0.access "backup.mbb" = true ∧
    RestoreManagerImpl.initialize os0 "backup.mbb" none sysInitialized =
      Call.returned (Except.error "restorer isn't idle!") sysInitialized :=
  ⟨reach_initialized, rfl, rfl, rfl, rfl, rfl⟩

/-- What a `wait()` that has returned normally has left, in a reachable state:
in state Initialized the system as it was, and in every other state the state
Uninitialized with no job, from which `initialize` on a path that exists
succeeds. -/
theorem wait_returned_effect (os : Os) (fault : Option JoinFault) (sys sys1 : System)
    (hreach : Reachable os sys)
    (hw : RestoreManagerImpl.wait os fault sys = Call.returned (Except.ok ()) sys1) :
    (sys.mgr.state = State.Initialized → sys1 = sys) ∧
    (sys.mgr.state ≠ State.Initialized →
      sys1.mgr.state = State.Uninitialized ∧ sys1.mgr.instance_ = none ∧
      sys1.threads = [] ∧ sys1.jobs = 0 ∧
      ∀ config fault2, os.access config = true →
        ∃ sys2, RestoreManagerImpl.initialize os config fault2 sys1 =
            Call.returned (Except.ok ()) sys2 ∧
          sys2.mgr.state = State.Initialized ∧
          sys2.mgr.instance_ = some (DecrementalRestorer.new config)) := by
  have hinv := reachable_inv os sys hreach
  obtain ⟨⟨inst, term, st, th⟩, threads, jobs⟩ := sys
  have hfin := initialize_from_uninitialized os
  cases st <;> simp only [Inv] at hinv <;> obtain ⟨h1, h2, h3⟩ := hinv
  · subst h1 h2 h3
    simp [RestoreManagerImpl.wait] at hw
    subst hw
    exact ⟨fun h => (by cases h), fun _ => ⟨rfl, rfl, rfl, rfl, fun config fault2 hacc =>
      hfin _ rfl rfl config fault2 hacc⟩⟩
  · simp [RestoreManagerImpl.wait] at hw
    subst hw
    exact ⟨fun _ => rfl, fun h => absurd rfl h⟩
  · obtain ⟨job, rfl⟩ := Option.isSome_iff_exists.mp h1
    subst h2 h3
    cases fault with
    | some e =>
      cases e <;>
        simp [RestoreManagerImpl.wait, RestoreManagerImpl.reap_UNLOCKED, pthread_join,
          JoinFault.code, ESRCH] at hw
    | none =>
      simp [RestoreManagerImpl.wait, RestoreManagerImpl.reap_UNLOCKED, pthread_join] at hw
  · obtain ⟨job, rfl⟩ := Option.isSome_iff_exists.mp h1
    subst h3
    cases fault with
    | some e =>
      cases e <;>
        simp [RestoreManagerImpl.wait, RestoreManagerImpl.reap_UNLOCKED, pthread_join,
          JoinFault.code, ESRCH] at hw
    | none =>
      rcases h2 with h2 | h2 <;> subst h2 <;>
        simp [RestoreManagerImpl.wait, RestoreManagerImpl.reap_UNLOCKED, pthread_join] at hw
  · obtain ⟨job, rfl⟩ := Option.isSome_iff_exists.mp h1
    subst h2 h3
    cases fault with
    | some e =>
      cases e <;>
        simp [RestoreManagerImpl.wait, RestoreManagerImpl.reap_UNLOCKED, pthread_join,
          JoinFault.code, ESRCH] at hw
    | none =>
      simp [RestoreManagerImpl.wait, RestoreManagerImpl.reap_UNLOCKED, pthread_join, ESRCH,
        RestoreManagerImpl.setState_UNLOCKED] at hw
      subst hw
      exact ⟨fun h => (by cases h), fun _ => ⟨rfl, rfl, rfl, rfl, fun config fault2 hacc =>
      hfin _ rfl rfl config fault2 hacc⟩⟩

/-- In state Uninitialized or Initialized `wait()` returns at once and changes
nothing, whatever `pthread_join` would answer. -/
theorem wait_idle (os : Os) (fault : Option JoinFault) (sys : System)
    (h : sys.mgr.state = State.Uninitialized ∨ sys.mgr.state = State.Initialized) :
    RestoreManagerImpl.wait os fault sys = Call.returned (Except.ok ()) sys := by
  rcases h with h | h <;> simp [RestoreManagerImpl.wait, h]

/-- In a state other than Uninitialized and Initialized, with a job, when
`pthread_join` returns 0, `wait()` returns normally: the job is freed and the
state is Uninitialized. -/
theorem wait_join_ok (os : Os) (fault : Option JoinFault) (sys : System)
    (job : DecrementalRestorer) (threads1 : List Thread)
    (h1 : sys.mgr.state ≠ State.Uninitialized) (h2 : sys.mgr.state ≠ State.Initialized)
    (hjob : sys.mgr.instance_ = some job)
    (hjoin : pthread_join sys.threads sys.mgr.thread fault = some (0, threads1)) :
    RestoreManagerImpl.wait os fault sys =
      Call.returned (Except.ok ())
        { mgr := { instance_ := none, terminate := sys.mgr.terminate,
                   state := State.Uninitialized, thread := sys.mgr.thread }
          threads := threads1
          jobs := sys.jobs - 1 } := by
  simp [RestoreManagerImpl.wait, h1, h2, RestoreManagerImpl.reap_UNLOCKED, hjob, hjoin,
    RestoreManagerImpl.setState_UNLOCKED]

/-- In a reachable state Zombie the worker has terminated: `pthread_join`
returns 0 when it does not fail. -/
theorem zombie_join (os : Os) (sys : System) (hreach : Reachable os sys)
    (hst : sys.mgr.state = State.Zombie) :
    pthread_join sys.threads sys.mgr.thread none = some (0, []) := by
  have hinv := reachable_inv os sys hreach
  obtain ⟨⟨inst, term, st, th⟩, threads, jobs⟩ := sys
  simp only at hst
  subst hst
  simp only [Inv] at hinv
  obtain ⟨_, h2, _⟩ := hinv
  subst h2
  simp [pthread_join]

/-- In a reachable state Starting or Running the worker has not terminated:
`wait()` does not return while `pthread_join` waits for it. -/
theorem wait_blocked (os : Os) (sys : System) (hreach : Reachable os sys)
    (hst : sys.mgr.state = State.Starting ∨ sys.mgr.state = State.Running) :
    RestoreManagerImpl.wait os none sys = Call.blocked := by
  have hinv := reachable_inv os sys hreach
  obtain ⟨⟨inst, term, st, th⟩, threads, jobs⟩ := sys
  simp only at hst
  rcases hst with hst | hst <;> subst hst <;> simp only [Inv] at hinv <;>
    obtain ⟨h1, h2, _⟩ := hinv <;> obtain ⟨job, rfl⟩ := Option.isSome_iff_exists.mp h1
  · subst h2
    simp [RestoreManagerImpl.wait, RestoreManagerImpl.reap_UNLOCKED, pthread_join]
  · rcases h2 with h2 | h2 <;> subst h2 <;>
      simp [RestoreManagerImpl.wait, RestoreManagerImpl.reap_UNLOCKED, pthread_join]

/-- C12 (amended): in every reachable state. In state Initialized `wait()`
returns and changes nothing. In state Starting or Running it does not return
while the worker has not terminated. In state Uninitialized, in state Zombie
when `pthread_join` does not fail, and in general in every state other than
Initialized in which `pthread_join` returns 0, `wait()` returns normally, and
then the state is Uninitialized, the job pointer is null, no thread and no job
are left, and an `initialize` on a path that exists, called right after,
succeeds. Whenever `wait()` has returned normally in a state other than
Initialized, that is what it has left. -/
theorem C12_wait_then_initialize (os : Os) (fault : Option JoinFault) (sys : System)
    (hreach : Reachable os sys) :
    (sys.mgr.state = State.Initialized →
      RestoreManagerImpl.wait os fault sys = Call.returned (Except.ok ()) sys) ∧
    (sys.mgr.state = State.Starting ∨ sys.mgr.state = State.Running →
      RestoreManagerImpl.wait os none sys = Call.blocked) ∧
    (sys.mgr.state = State.Uninitialized ∨ (sys.mgr.state = State.Zombie ∧ fault = none) ∨
        (sys.mgr.state ≠ State.Initialized ∧
          ∃ threads1, pthread_join sys.threads sys.mgr.thread fault = some (0, threads1)) →
      ∃ sys1, RestoreManagerImpl.wait os fault sys = Call.returned (Except.ok ()) sys1) ∧
    (∀ sys1, RestoreManagerImpl.wait os fault sys = Call.returned (Except.ok ()) sys1 →
      sys.mgr.state ≠ State.Initialized →
      sys1.mgr.state = State.Uninitialized ∧ sys1.mgr.instance_ = none ∧
      sys1.threads = [] ∧ sys1.jobs = 0 ∧
      ∀ config fault2, os.access config = true →
        ∃ sys2, RestoreManagerImpl.initialize os config fault2 sys1 =
            Call.returned (Except.ok ()) sys2 ∧
          sys2.mgr.state = State.Initialized ∧
          sys2.mgr.instance_ = some (DecrementalRestorer.new config)) := by
  have hinv := reachable_inv os sys hreach
  refine ⟨fun h => wait_idle os fault sys (Or.inr h), wait_blocked os sys hreach, ?_,
    fun sys1 hw hne => (wait_returned_effect os fault sys sys1 hreach hw).2 hne⟩
  have hjoined : sys.mgr.state ≠ State.Initialized →
      (∃ threads1, pthread_join sys.threads sys.mgr.thread fault = some (0, threads1)) →
      ∃ sys1, RestoreManagerImpl.wait os fault sys = Call.returned (Except.ok ()) sys1 := by
    intro hne hj
    obtain ⟨threads1, hj⟩ := hj
    by_cases hun : sys.mgr.state = State.Uninitialized
    · exact ⟨sys, wait_idle os fault sys (Or.inl hun)⟩
    · obtain ⟨job, hjob⟩ := Option.isSome_iff_exists.mp ((inv_job_iff sys hinv).mpr hun)
      exact ⟨_, wait_join_ok os fault sys job threads1 hun hne hjob hj⟩
  rintro (h | ⟨h, rfl⟩ | ⟨hne, hj⟩)
  · exact ⟨sys, wait_idle os fault sys (Or.inl h)⟩
  · exact hjoined (by simp [h]) ⟨[], zombie_join os sys hreach h⟩
  · exact hjoined hne hj

/-- C12 in state Zombie: `wait()` joins the worker and frees the job, and
`initialize` succeeds right after. -/
theorem C12_wait_then_initialize_witness :
    RestoreManagerImpl.wait os0 none sysZombie = Call.returned (Except.ok ()) sysReaped ∧
    (∃ sys1, RestoreManagerImpl.wait os0 none sysZombie =
      Call.returned (Except.ok ()) sys1) ∧
    (sysReaped.mgr.state = State.Uninitialized ∧ sysReaped.mgr.instance_ = none ∧
      sysReaped.threads = [] ∧ sysReaped.jobs = 0 ∧
      ∀ config fault2, os0.access config = true →
        ∃ sys2, RestoreManagerImpl.initialize os0 config fault2 sysReaped =
            Call.returned (Except.ok ()) sys2 ∧
          sys2.mgr.state = State.Initialized ∧
          sys2.mgr.instance_ = some (DecrementalRestorer.new config)) :=
  ⟨rfl,
    ( C12_wait_then_initialize os0 none sysZombie reach_zombie).2.2.1
      (Or.inr (Or.inl ⟨rfl, rfl⟩)),
    ( C12_wait_then_initialize os0 none sysZombie reach_zombie).2.2.2 sysReaped rfl
      (by decide)⟩

/-- C13: `wait()` is idempotent. For every state of the system in which the
job pointer is non-null exactly when the state is not Uninitialized (as in
every reachable state) and in which the join succeeds (`pthread_join` returns 0
in the states in which `wait()` calls it): `wait()` returns normally, and a
second `wait()`, whatever `pthread_join` would answer, returns normally and
leaves exactly the state that the first one left; from Starting, Running or
Zombie that state is Uninitialized with no job; from Initialized or
Uninitialized `wait()` has changed nothing. -/
theorem C13_wait_idempotent (os : Os) (fault fault2 : Option JoinFault) (sys : System)
    (hjob : sys.mgr.instance_.isSome = true ↔ sys.mgr.state ≠ State.Uninitialized)
    (hjoin : sys.mgr.state ≠ State.Uninitialized → sys.mgr.state ≠ State.Initialized →
      ∃ threads1, pthread_join sys.threads sys.mgr.thread fault = some (0, threads1)) :
    ∃ sys1,
      RestoreManagerImpl.wait os fault sys = Call.returned (Except.ok ()) sys1 ∧
      RestoreManagerImpl.wait os fault2 sys1 = Call.returned (Except.ok ()) sys1 ∧
      (sys.mgr.state = State.Starting ∨ sys.mgr.state = State.Running ∨
          sys.mgr.state = State.Zombie →
        sys1.mgr.state = State.Uninitialized ∧ sys1.mgr.instance_ = none) ∧
      (sys.mgr.state = State.Initialized ∨ sys.mgr.state = State.Uninitialized →
        sys1 = sys) := by
  by_cases hidle : sys.mgr.state = State.Uninitialized ∨ sys.mgr.state = State.Initialized
  · refine ⟨sys, wait_idle os fault sys hidle, wait_idle os fault2 sys hidle, ?_,
      fun _ => rfl⟩
    rintro (h | h | h) <;> rcases hidle with h2 | h2 <;> rw [h] at h2 <;> cases h2
  · rw [not_or] at hidle
    obtain ⟨job, hj⟩ := Option.isSome_iff_exists.mp (hjob.mpr hidle.1)
    obtain ⟨threads1, hjn⟩ := hjoin hidle.1 hidle.2
    refine ⟨_, wait_join_ok os fault sys job threads1 hidle.1 hidle.2 hj hjn,
      wait_idle os fault2 _ (Or.inl rfl), fun _ => ⟨rfl, rfl⟩, ?_⟩
    rintro (h | h)
    · exact absurd h hidle.2
    · exact absurd h hidle.1

/-- C13 in state Zombie: two calls of `wait()` leave what one call leaves. -/
theorem C13_wait_idempotent_witness :
    RestoreManagerImpl.wait os0 none sysZombie = Call.returned (Except.ok ()) sysReaped ∧
    ∃ sys1,
      RestoreManagerImpl.wait os0 none sysZombie = Call.returned (Except.ok ()) sys1 ∧
      RestoreManagerImpl.wait os0 none sys1 = Call.returned (Except.ok ()) sys1 ∧
      (sysZombie.mgr.state = State.Starting ∨ sysZombie.mgr.state = State.Running ∨
          sysZombie.mgr.state = State.Zombie →
        sys1.mgr.state = State.Uninitialized ∧ sys1.mgr.instance_ = none) ∧
      (sysZombie.mgr.state = State.Initialized ∨ sysZombie.mgr.state = State.Uninitialized →
        sys1 = sysZombie) :=
  ⟨rfl, C13_wait_idempotent os0 none none sysZombie (by decide)
    (fun _ _ => ⟨[], rfl⟩)⟩

/-! ## C14: abort -/

/-- C14: in every state of the system `abort()` returns normally, the
cancellation flag is true afterwards, and the state, the job pointer, the job
with its file and its three counters, the threads and the allocated jobs are
unchanged. -/
theorem C14_abort_sets_flag (sys : System) :
    ∃ sys1, RestoreManagerImpl.abort sys = Call.returned (Except.ok ()) sys1 ∧
      sys1.mgr.terminate = true ∧
      sys1.mgr.state = sys.mgr.state ∧
      sys1.mgr.instance_ = sys.mgr.instance_ ∧
      sys1.mgr.thread = sys.mgr.thread ∧
      sys1.threads = sys.threads ∧ sys1.jobs = sys.jobs :=
  ⟨_, rfl, rfl, rfl, rfl, rfl, rfl, rfl⟩

/-! ## C15: stats -/

/-- C15: in every reachable state, `stats()` emits (after "engine") the key
"state" with the name of the current state and then, when a job exists, the
keys file, number_busy, number_skipped, number_restored and terminate, in this
order, with the file and the counters of the job and the cancellation flag,
and when no job exists no further key; a job exists exactly when the state is
not Uninitialized, and in state Uninitialized the value of "state" is
"uninitialized" and no further key is emitted; the call leaves the system as
it was. The value of "state" is the name that the source gives to the state
object: "uninitialized", "Initialized", "starting", "running" or "Zombie". -/
theorem C15_stats (os : Os) (sys : System) (hreach : Reachable os sys) :
    (∀ job, sys.mgr.instance_ = some job →
      RestoreManagerImpl.stats sys.mgr =
        [("engine", StatValue.str "RestoreManagerImpl"),
         ("state", StatValue.str sys.mgr.state.toString),
         ("file", StatValue.str job.file),
         ("number_busy", StatValue.num job.busy),
         ("number_skipped", StatValue.num job.skipped),
         ("number_restored", StatValue.num job.restored),
         ("terminate", StatValue.flag sys.mgr.terminate)]) ∧
    (sys.mgr.instance_ = none →
      RestoreManagerImpl.stats sys.mgr =
        [("engine", StatValue.str "RestoreManagerImpl"),
         ("state", StatValue.str sys.mgr.state.toString)]) ∧
    (sys.mgr.state = State.Uninitialized →
      RestoreManagerImpl.stats sys.mgr =
        [("engine", StatValue.str "RestoreManagerImpl"),
         ("state", StatValue.str "uninitialized")]) ∧
    (sys.mgr.instance_.isSome = true ↔ sys.mgr.state ≠ State.Uninitialized) ∧
    step os Action.statsCall sys = some sys ∧
    (sys.mgr.state = State.Uninitialized →
      (RestoreManagerImpl.stats sys.mgr)[1]? = some ("state", StatValue.str "uninitialized")) ∧
    (sys.mgr.state = State.Initialized →
      (RestoreManagerImpl.stats sys.mgr)[1]? = some ("state", StatValue.str "Initialized")) ∧
    (sys.mgr.state = State.Starting →
      (RestoreManagerImpl.stats sys.mgr)[1]? = some ("state", StatValue.str "starting")) ∧
    (sys.mgr.state = State.Running →
      (RestoreManagerImpl.stats sys.mgr)[1]? = some ("state", StatValue.str "running")) ∧
    (sys.mgr.state = State.Zombie →
      (RestoreManagerImpl.stats sys.mgr)[1]? = some ("state", StatValue.str "Zombie")) := by
  have hinv := reachable_inv os sys hreach
  refine ⟨?_, ?_, ?_, inv_job_iff sys hinv, rfl, ?_, ?_, ?_, ?_, ?_⟩
  · intro job hjob
    simp [RestoreManagerImpl.stats, hjob]
  · intro hnone
    simp [RestoreManagerImpl.stats, hnone]
  · intro hst
    have hnone : sys.mgr.instance_ = none := by
      have h := (inv_job_iff sys hinv).not.mpr (by simp [hst])
      simpa using h
    simp [RestoreManagerImpl.stats, hnone, hst, State.toString]
  all_goals
    intro hst
    simp [RestoreManagerImpl.stats, hst, State.toString]

/-- C15 in the state in which the worker has terminated after one row: the
stats that the call emits, value by value, and the theorem at this state. -/
theorem C15_stats_witness :
    RestoreManagerImpl.stats sysZombie.mgr =
      [("engine", StatValue.str "RestoreManagerImpl"),
       ("state", StatValue.str "Zombie"),
       ("file", StatValue.str "backup.mbb"),
       ("number_busy", StatValue.num 0),
       ("number_skipped", StatValue.num 0),
       ("number_restored", StatValue.num 1),
       ("terminate", StatValue.flag false)] ∧
    (∀ job, sysZombie.mgr.instance_ = some job →
      RestoreManagerImpl.stats sysZombie.mgr =
        [("engine", StatValue.str "RestoreManagerImpl"),
         ("state", StatValue.str sysZombie.mgr.state.toString),
         ("file", StatValue.str job.file),
         ("number_busy", StatValue.num job.busy),
         ("number_skipped", StatValue.num job.skipped),
         ("number_restored", StatValue.num job.restored),
         ("terminate", StatValue.flag sysZombie.mgr.terminate)]) ∧
    (sysZombie.mgr.instance_ = none →
      RestoreManagerImpl.stats sysZombie.mgr =
        [("engine", StatValue.str "RestoreManagerImpl"),
         ("state", StatValue.str sysZombie.mgr.state.toString)]) ∧
    (sysZombie.mgr.state = State.Uninitialized →
      RestoreManagerImpl.stats sysZombie.mgr =
        [("engine", StatValue.str "RestoreManagerImpl"),
         ("state", StatValue.str "uninitialized")]) ∧
    (sysZombie.mgr.instance_.isSome = true ↔ sysZombie.mgr.state ≠ State.Uninitialized) ∧
    step os0 Action.statsCall sysZombie = some sysZombie ∧
    (sysZombie.mgr.state = State.Uninitialized →
      (RestoreManagerImpl.stats sysZombie.mgr)[1]? =
        some ("state", StatValue.str "uninitialized")) ∧
    (sysZombie.mgr.state = State.Initialized →
      (RestoreManagerImpl.stats sysZombie.mgr)[1]? =
        some ("state", StatValue.str "Initialized")) ∧
    (sysZombie.mgr.state = State.Starting →
      (RestoreManagerImpl.stats sysZombie.mgr)[1]? =
        some ("state", StatValue.str "starting")) ∧
    (sysZombie.mgr.state = State.Running →
      (RestoreManagerImpl.stats sysZombie.mgr)[1]? =
        some ("state", StatValue.str "running")) ∧
    (sysZombie.mgr.state = State.Zombie →
      (RestoreManagerImpl.stats sysZombie.mgr)[1]? = some ("state", StatValue.str "Zombie")) :=
  ⟨rfl, C15_stats os0 sysZombie reach_zombie⟩

/-! ## C16: the counters during a replay -/

/-- The loop of `process` on events followed by further steps is `replay` on
the events and then the loop on the further steps, unless a row has thrown. -/
theorem processLoop_replay {σ : Type} (S : Store σ) (es : List Event)
    (rest : List StepResult) (self : DecrementalRestorer) (w : World σ) :
    DecrementalRestorer.processLoop S (es.map Event.toStep ++ rest) self w =
      match DecrementalRestorer.replay S es self w with
      | (Except.ok _, self1, w1) => DecrementalRestorer.processLoop S rest self1 w1
      | (Except.error e, self1, w1) => some (Except.error e, self1, w1) := by
  induction es generalizing self w with
  | nil => rfl
  | cons e es ih =>
    cases e with
    | busy =>
      rw [List.map_cons, List.cons_append]
      simp only [Event.toStep, DecrementalRestorer.processLoop, DecrementalRestorer.replay]
      exact ih _ _
    | row r =>
      rw [List.map_cons, List.cons_append]
      simp only [Event.toStep, DecrementalRestorer.processLoop, DecrementalRestorer.replay]
      rcases hpe : DecrementalRestorer.processEntry S r self w with ⟨res, self1, w1⟩
      cases res with
      | ok u => exact ih _ _
      | error e => rfl

theorem replay_append {σ : Type} (S : Store σ) (es1 es2 : List Event)
    (self : DecrementalRestorer) (w : World σ) :
    DecrementalRestorer.replay S (es1 ++ es2) self w =
      match DecrementalRestorer.replay S es1 self w with
      | (Except.ok _, self1, w1) => DecrementalRestorer.replay S es2 self1 w1
      | (Except.error e, self1, w1) => (Except.error e, self1, w1) := by
  induction es1 generalizing self w with
  | nil => rfl
  | cons e es ih =>
    cases e with
    | busy =>
      simp only [List.cons_append, DecrementalRestorer.replay]
      exact ih _ _
    | row r =>
      simp only [List.cons_append, DecrementalRestorer.replay]
      rcases hpe : DecrementalRestorer.processEntry S r self w with ⟨res, self1, w1⟩
      cases res with
      | ok u => exact ih _ _
      | error e => rfl

theorem rowsOf_append (es1 es2 : List Event) :
    rowsOf (es1 ++ es2) = rowsOf es1 ++ rowsOf es2 := by
  induction es1 with
  | nil => rfl
  | cons e es ih => cases e <;> simp [rowsOf, ih]

theorem busyCount_append (es1 es2 : List Event) :
    busyCount (es1 ++ es2) = busyCount es1 + busyCount es2 := by
  induction es1 with
  | nil => simp [busyCount]
  | cons e es ih =>
    cases e <;> simp [busyCount, ih]
    omega

/-- Each counter after `replay` is the counter before plus a number of
increments, modulo `2^32`; `restored` and `skipped` together were incremented at
most once per row, and `busy` at most once per busy signal. -/
theorem replay_counters {σ : Type} (S : Store σ) (es : List Event)
    (self : DecrementalRestorer) (w : World σ)
    (hr : self.restored < 4294967296) (hs : self.skipped < 4294967296)
    (hb : self.busy < 4294967296) :
    ∃ a b c, a + b ≤ (rowsOf es).length ∧ c ≤ busyCount es ∧
      (DecrementalRestorer.replay S es self w).2.1.restored =
        (self.restored + a) % 4294967296 ∧
      (DecrementalRestorer.replay S es self w).2.1.skipped =
        (self.skipped + b) % 4294967296 ∧
      (DecrementalRestorer.replay S es self w).2.1.busy =
        (self.busy + c) % 4294967296 := by
  induction es generalizing self w with
  | nil =>
    exact ⟨0, 0, 0, by simp [rowsOf], by simp [busyCount],
      by simp [DecrementalRestorer.replay, Nat.mod_eq_of_lt hr],
      by simp [DecrementalRestorer.replay, Nat.mod_eq_of_lt hs],
      by simp [DecrementalRestorer.replay, Nat.mod_eq_of_lt hb]⟩
  | cons e es ih =>
    cases e with
    | busy =>
      obtain ⟨a, b, c, h1, h2, h3, h4, h5⟩ :=
        ih { self with busy := inc32 self.busy } w hr hs (inc32_lt _)
      refine ⟨a, b, c + 1, by simpa [rowsOf] using h1, by simp [busyCount]; omega, ?_, ?_, ?_⟩
      · simpa [DecrementalRestorer.replay] using h3
      · simpa [DecrementalRestorer.replay] using h4
      · simp only [DecrementalRestorer.replay]
        rw [h5]
        simp only [inc32]
        omega
    | row r =>
      simp only [DecrementalRestorer.replay, DecrementalRestorer.processEntry, rowsOf,
        busyCount, List.length_cons]
      by_cases h0 : (S.addUnlessThere w.store (storeCall r)).1 = 0
      · simp only [h0, if_true]
        obtain ⟨a, b, c, h1, h2, h3, h4, h5⟩ :=
          ih { self with restored := inc32 self.restored }
            { store := (S.addUnlessThere w.store (storeCall r)).2
              calls := w.calls ++ [storeCall r] } (inc32_lt _) hs hb
        refine ⟨a + 1, b, c, by omega, h2, ?_, h4, h5⟩
        rw [h3]
        simp only [inc32]
        omega
      · by_cases h1 : (S.addUnlessThere w.store (storeCall r)).1 = 1
        · have hne : ¬ ((1 : Int) = 0) := by decide
          simp only [h1, hne, if_true, if_false]
          obtain ⟨a, b, c, h1, h2, h3, h4, h5⟩ :=
            ih { self with skipped := inc32 self.skipped }
              { store := (S.addUnlessThere w.store (storeCall r)).2
                calls := w.calls ++ [storeCall r] } hr (inc32_lt _) hb
          refine ⟨a, b + 1, c, by omega, h2, h3, ?_, h5⟩
          rw [h4]
          simp only [inc32]
          omega
        · simp only [h0, h1, if_false]
          exact ⟨0, 0, 0, by omega, by omega, by simp [Nat.mod_eq_of_lt hr],
            by simp [Nat.mod_eq_of_lt hs], by simp [Nat.mod_eq_of_lt hb]⟩

/-- The replay of `n` busy signals by a fresh job leaves `busy` at `n` modulo
`2^32` and nothing else changed. -/
theorem replay_busy_only (n : Nat) (self : DecrementalRestorer)
    (hb : self.busy < 4294967296) :
    DecrementalRestorer.replay acceptAll (List.replicate n Event.busy) self
        { store := (), calls := [] } =
      (Except.ok (), { self with busy := (self.busy + n) % 4294967296 },
        { store := (), calls := [] }) := by
  induction n generalizing self with
  | zero => simp [DecrementalRestorer.replay, Nat.mod_eq_of_lt hb]
  | succ n ih =>
    rw [List.replicate_succ, DecrementalRestorer.replay,
      ih { self with busy := inc32 self.busy } (inc32_lt _)]
    simp only [inc32]
    congr 3
    omega

/-- The value of `busy` after the replay of `n` busy signals by a fresh job,
and after one busy signal more. -/
theorem replay_busy_values (n : Nat) :
    (DecrementalRestorer.replay acceptAll (List.replicate n Event.busy)
        (DecrementalRestorer.new "backup") { store := (), calls := [] }).2.1.busy =
      n % 4294967296 ∧
    (DecrementalRestorer.replay acceptAll (List.replicate n Event.busy ++ [Event.busy])
        (DecrementalRestorer.new "backup") { store := (), calls := [] }).2.1.busy =
      (n % 4294967296 + 1) % 4294967296 := by
  have h := replay_busy_only n (DecrementalRestorer.new "backup") (Nat.zero_lt_succ _)
  constructor
  · rw [h]
    simp [DecrementalRestorer.new]
  · rw [replay_append, h]
    simp [DecrementalRestorer.replay, DecrementalRestorer.new, inc32]

/-- C16, the claim as stated, fails: after 2^32 - 1 busy signals the counter
`busy` of the job is 2^32 - 1, and after the longer sequence with one busy
signal more it is 0: the `uint32_t` counter has wrapped, and the value after the
prefix is not less than or equal to the value after the longer sequence. -/
theorem C16_busy_counter_decreases :
    List.replicate 4294967295 Event.busy <+:
      List.replicate 4294967295 Event.busy ++ [Event.busy] ∧
    (DecrementalRestorer.replay acceptAll (List.replicate 4294967295 Event.busy)
        (DecrementalRestorer.new "backup") { store := (), calls := [] }).2.1.busy =
      4294967295 ∧
    (DecrementalRestorer.replay acceptAll
        (List.replicate 4294967295 Event.busy ++ [Event.busy])
        (DecrementalRestorer.new "backup") { store := (), calls := [] }).2.1.busy = 0 ∧
    ¬ ((DecrementalRestorer.replay acceptAll (List.replicate 4294967295 Event.busy)
        (DecrementalRestorer.new "backup") { store := (), calls := [] }).2.1.busy ≤
      (DecrementalRestorer.replay acceptAll
        (List.replicate 4294967295 Event.busy ++ [Event.busy])
        (DecrementalRestorer.new "backup") { store := (), calls := [] }).2.1.busy) := by
  obtain ⟨h1, h2⟩ := replay_busy_values 4294967295
  refine ⟨List.prefix_append _ _, h1, h2, ?_⟩
  rw [h1, h2]
  decide

/-- C16 (amended): for every store and every sequence of replay events (rows
with any store result, busy signals) with fewer than 2^32 rows and fewer than
2^32 busy signals, processed by one fresh job, each of `restored`, `skipped`
and `busy` is non-decreasing: its value after any prefix of the events is less
than or equal to its value after any longer prefix. -/
theorem C16_counters_monotone {σ : Type} (S : Store σ) (file : String)
    (es1 es2 : List Event) (w : World σ)
    (hrows : (rowsOf (es1 ++ es2)).length < 4294967296)
    (hbusy : busyCount (es1 ++ es2) < 4294967296) :
    (DecrementalRestorer.replay S es1 (DecrementalRestorer.new file) w).2.1.restored ≤
      (DecrementalRestorer.replay S (es1 ++ es2)
        (DecrementalRestorer.new file) w).2.1.restored ∧
    (DecrementalRestorer.replay S es1 (DecrementalRestorer.new file) w).2.1.skipped ≤
      (DecrementalRestorer.replay S (es1 ++ es2)
        (DecrementalRestorer.new file) w).2.1.skipped ∧
    (DecrementalRestorer.replay S es1 (DecrementalRestorer.new file) w).2.1.busy ≤
      (DecrementalRestorer.replay S (es1 ++ es2)
        (DecrementalRestorer.new file) w).2.1.busy := by
  rw [rowsOf_append, List.length_append] at hrows
  rw [busyCount_append] at hbusy
  obtain ⟨a1, b1, c1, h1, h2, h3, h4, h5⟩ :=
    replay_counters S es1 (DecrementalRestorer.new file) w (Nat.zero_lt_succ _)
      (Nat.zero_lt_succ _) (Nat.zero_lt_succ _)
  rw [replay_append]
  rcases hrep : DecrementalRestorer.replay S es1 (DecrementalRestorer.new file) w with
    ⟨res, self1, w1⟩
  rw [hrep] at h3 h4 h5
  simp only [DecrementalRestorer.new, Nat.zero_add] at h3 h4 h5
  cases res with
  | error e => exact ⟨Nat.le_refl _, Nat.le_refl _, Nat.le_refl _⟩
  | ok u =>
    have hr1 : self1.restored < 4294967296 := by
      rw [h3]
      omega
    have hs1 : self1.skipped < 4294967296 := by
      rw [h4]
      omega
    have hb1 : self1.busy < 4294967296 := by
      rw [h5]
      omega
    obtain ⟨a2, b2, c2, k1, k2, k3, k4, k5⟩ := replay_counters S es2 self1 w1 hr1 hs1 hb1
    simp only []
    rw [k3, k4, k5, h3, h4, h5]
    refine ⟨?_, ?_, ?_⟩ <;> omega

/-- C16 at a concrete run: a row that the store applies, then a busy signal
and a row that the store fails. -/
theorem C16_counters_monotone_witness :
    (DecrementalRestorer.replay failSecond [Event.row rowA]
        (DecrementalRestorer.new "backup") { store := 0, calls := [] }).2.1.restored ≤
      (DecrementalRestorer.replay failSecond
        ([Event.row rowA] ++ [Event.busy, Event.row rowA])
        (DecrementalRestorer.new "backup") { store := 0, calls := [] }).2.1.restored ∧
    (DecrementalRestorer.replay failSecond [Event.row rowA]
        (DecrementalRestorer.new "backup") { store := 0, calls := [] }).2.1.skipped ≤
      (DecrementalRestorer.replay failSecond
        ([Event.row rowA] ++ [Event.busy, Event.row rowA])
        (DecrementalRestorer.new "backup") { store := 0, calls := [] }).2.1.skipped ∧
    (DecrementalRestorer.replay failSecond [Event.row rowA]
        (DecrementalRestorer.new "backup") { store := 0, calls := [] }).2.1.busy ≤
      (DecrementalRestorer.replay failSecond
        ([Event.row rowA] ++ [Event.busy, Event.row rowA])
        (DecrementalRestorer.new "backup") { store := 0, calls := [] }).2.1.busy :=
  C16_counters_monotone failSecond "backup" [Event.row rowA] [Event.busy, Event.row rowA]
    { store := 0, calls := [] } (by decide) (by decide)

/-! ## C18, C19: the atomic update helpers with no concurrent writer -/

theorem atomic_setIfBigger_quiet {T : Type} [LinearOrder T] (k : Nat) (v n : T) :
    (atomic_setIfBigger (List.replicate k none) v n).obj = max v n := by
  cases k with
  | zero =>
    simp only [List.replicate, atomic_setIfBigger]
    split
    · rename_i h
      exact (max_eq_right (le_of_lt h)).symm
    · rename_i h
      exact (max_eq_left (not_lt.mp h)).symm
  | succ k =>
    cases k with
    | zero =>
      simp only [List.replicate, atomic_setIfBigger, Option.getD_none, if_true]
      split
      · rename_i h
        exact (max_eq_right (le_of_lt h)).symm
      · rename_i h
        exact (max_eq_left (not_lt.mp h)).symm
    | succ k =>
      simp only [List.replicate, atomic_setIfBigger, Option.getD_none, if_true]
      split
      · rename_i h
        exact (max_eq_right (le_of_lt h)).symm
      · rename_i h
        exact (max_eq_left (not_lt.mp h)).symm

theorem atomic_setIfLess_quiet {T : Type} [LinearOrder T] (k : Nat) (v n : T) :
    (atomic_setIfLess (List.replicate k none) v n).obj = min v n := by
  cases k with
  | zero =>
    simp only [List.replicate, atomic_setIfLess]
    split
    · rename_i h
      exact (min_eq_right (le_of_lt h)).symm
    · rename_i h
      exact (min_eq_left (not_lt.mp h)).symm
  | succ k =>
    cases k with
    | zero =>
      simp only [List.replicate, atomic_setIfLess, Option.getD_none, if_true]
      split
      · rename_i h
        exact (min_eq_right (le_of_lt h)).symm
      · rename_i h
        exact (min_eq_left (not_lt.mp h)).symm
    | succ k =>
      simp only [List.replicate, atomic_setIfLess, Option.getD_none, if_true]
      split
      · rename_i h
        exact (min_eq_right (le_of_lt h)).symm
      · rename_i h
        exact (min_eq_left (not_lt.mp h)).symm

/-- C18: with no concurrent writer (other threads write at none of the places
where they could come in between), for every old value `v` of `obj` and every
`n` and `m`: after `atomic_setIfBigger(obj, n)` `obj` holds `max(v, n)` and after
`atomic_setIfLess(obj, n)` it holds `min(v, n)`; so the first never decreases
`obj`, the second never increases it, each is idempotent, and two calls of the
same helper commute. -/
theorem C18_setIfBigger_setIfLess {T : Type} [LinearOrder T] (k j : Nat) (v n m : T) :
    (atomic_setIfBigger (List.replicate k none) v n).obj = max v n ∧
    (atomic_setIfLess (List.replicate k none) v n).obj = min v n ∧
    v ≤ (atomic_setIfBigger (List.replicate k none) v n).obj ∧
    (atomic_setIfLess (List.replicate k none) v n).obj ≤ v ∧
    (atomic_setIfBigger (List.replicate j none)
        (atomic_setIfBigger (List.replicate k none) v n).obj n).obj =
      (atomic_setIfBigger (List.replicate k none) v n).obj ∧
    (atomic_setIfLess (List.replicate j none)
        (atomic_setIfLess (List.replicate k none) v n).obj n).obj =
      (atomic_setIfLess (List.replicate k none) v n).obj ∧
    (atomic_setIfBigger (List.replicate j none)
        (atomic_setIfBigger (List.replicate k none) v n).obj m).obj =
      (atomic_setIfBigger (List.replicate j none)
        (atomic_setIfBigger (List.replicate k none) v m).obj n).obj ∧
    (atomic_setIfLess (List.replicate j none)
        (atomic_setIfLess (List.replicate k none) v n).obj m).obj =
      (atomic_setIfLess (List.replicate j none)
        (atomic_setIfLess (List.replicate k none) v m).obj n).obj := by
  simp only [atomic_setIfBigger_quiet, atomic_setIfLess_quiet]
  refine ⟨trivial, trivial, le_max_left v n, min_le_left v n, ?_, ?_, ?_, ?_⟩
  · rw [max_assoc, max_self]
  · rw [min_assoc, min_self]
  · rw [max_assoc, max_assoc, max_comm n m]
  · rw [min_assoc, min_assoc, min_comm n m]

theorem atomic_swapIfNot_quiet {T : Type} [DecidableEq T] (k : Nat) (v bad n : T) :
    atomic_swapIfNot (List.replicate k none) v bad n =
      if v ≠ bad then (v, n) else (v, v) := by
  cases k with
  | zero => simp only [List.replicate, atomic_swapIfNot]
  | succ k =>
    cases k with
    | zero => simp only [List.replicate, atomic_swapIfNot, Option.getD_none, if_true]
    | succ k => simp only [List.replicate, atomic_swapIfNot, Option.getD_none, if_true]

/-- C19: with no concurrent writer, for every old value `v` of `obj`, every
sentinel `bad` and every `n`, `atomic_swapIfNot(obj, bad, n)` returns `v`; if
`v` differs from `bad`, `obj` holds `n` afterwards, and if `v` equals `bad`,
`obj` is unchanged (still `bad`). -/
theorem C19_swapIfNot {T : Type} [DecidableEq T] (k : Nat) (v bad n : T) :
    (atomic_swapIfNot (List.replicate k none) v bad n).1 = v ∧
    (v ≠ bad → (atomic_swapIfNot (List.replicate k none) v bad n).2 = n) ∧
    (v = bad → (atomic_swapIfNot (List.replicate k none) v bad n).2 = v ∧
      (atomic_swapIfNot (List.replicate k none) v bad n).2 = bad) := by
  rw [atomic_swapIfNot_quiet]
  refine ⟨?_, ?_, ?_⟩
  · split <;> rfl
  · intro h
    simp [h]
  · intro h
    simp [h]

/-! ## C20: the mutex while the worker replays -/

/-- A state that the system reaches is reached at the grain of the mutex, with
no thread in `wait()`. -/
theorem lockReachable_of_reachable (os : Os) (sys : System) (h : Reachable os sys) :
    LockReachable os { sys := sys, waiter := false } := by
  induction h with
  | init terminate thread => exact LockReachable.init terminate thread
  | step a sys sys1 _ hstep ih =>
    refine LockReachable.step (LockAction.other a) _ _ ih ?_
    simp [lockStep, hstep]

/-- While a thread is in `wait()` and the worker has left `process()` without
having terminated, nothing can happen but a failure of `pthread_join`, which
ends `wait()`, and an `initialize` on a path that does not exist, which throws
"File not found" and changes nothing. -/
theorem lockStep_deadlock (os : Os) (a : LockAction) (s1 : Locked)
    (hfault : ∀ e, a ≠ LockAction.leaveWait (some e))
    (h : lockStep os a { sys := sysReplayed, waiter := true } = some s1) :
    s1 = { sys := sysReplayed, waiter := true } ∧
    ∃ config fault, a = LockAction.other (Action.initializeCall config fault) ∧
      os.access config = false ∧
      RestoreManagerImpl.initialize os config fault sysReplayed =
        Call.returned (Except.error "File not found") sysReplayed := by
  cases a with
  | enterWait => simp [lockStep] at h
  | leaveWait fault =>
    cases fault with
    | none =>
      simp [lockStep, RestoreManagerImpl.wait, sysReplayed,
        RestoreManagerImpl.reap_UNLOCKED, pthread_join] at h
    | some e => exact absurd rfl (hfault e)
  | other a =>
    cases a with
    | workerReplay tid sq results =>
      simp [lockStep, needsMutex, step, sysReplayed] at h
    | initializeCall config fault =>
      by_cases hacc : os.access config = true
      · simp [lockStep, needsMutex, hacc] at h
      · have hacc1 : os.access config = false := by simpa using hacc
        have hinit : RestoreManagerImpl.initialize os config fault sysReplayed =
            Call.returned (Except.error "File not found") sysReplayed := by
          simp [ RestoreManagerImpl.initialize, hacc1]
        simp only [lockStep, needsMutex, hacc1, Bool.and_false, Bool.false_eq_true,
          if_false, step, hinit, Call.state?, Option.map_some', Option.some.injEq] at h
        exact ⟨h.symm, config, fault, rfl, hacc1, hinit⟩
    | startCall ret tid => simp [lockStep, needsMutex] at h
    | abortCall => simp [lockStep, needsMutex] at h
    | waitCall fault => simp [lockStep, needsMutex] at h
    | statsCall => simp [lockStep, needsMutex] at h
    | isRunningCall => simp [lockStep, needsMutex] at h
    | workerSetRunning tid => simp [lockStep, needsMutex] at h
    | workerSetZombie tid => simp [lockStep, needsMutex] at h

/-- C20, the code at the failing input: while the worker replays (state
Running, the worker in `process()`), a thread calls `wait()`. It takes the mutex
and holds it while `pthread_join` waits for the worker: this state is reachable,
the mutex is held and the worker is in the replay loop. From then on `stats()`
cannot take the mutex, the worker can finish `process()` but cannot set the
state to Zombie, and `wait()` does not return. Once the worker has left
`process()`, the only calls that still end are a `pthread_join` that fails, and
an `initialize` on a path that does not exist, which throws before it asks for
the mutex and leaves the system in the same state. -/
theorem C20_wait_holds_mutex_during_replay :
    LockReachable os0 { sys := sysRunning, waiter := true } ∧
    sysRunning.threads = [{ tid := 7, pc := Pc.replaying }] ∧
    lockStep os0 (LockAction.other Action.statsCall) { sys := sysRunning, waiter := true } =
      none ∧
    lockStep os0 (LockAction.leaveWait none) { sys := sysRunning, waiter := true } = none ∧
    lockStep os0
        (LockAction.other (Action.workerReplay 7 (sqliteOf [Event.row rowA]) [0]))
        { sys := sysRunning, waiter := true } =
      some { sys := sysReplayed, waiter := true } ∧
    lockStep os0 (LockAction.other (Action.workerSetZombie 7))
        { sys := sysReplayed, waiter := true } = none ∧
    lockStep os0 (LockAction.other Action.statsCall)
        { sys := sysReplayed, waiter := true } = none ∧
    lockStep os0 (LockAction.leaveWait none) { sys := sysReplayed, waiter := true } = none ∧
    lockStep os0 (LockAction.other (Action.workerSetZombie 7))
        { sys := sysReplayed, waiter := false } =
      some { sys := sysZombie, waiter := false } ∧
    lockStep os0 (LockAction.other (Action.initializeCall "missing.mbb" none))
        { sys := sysReplayed, waiter := true } =
      some { sys := sysReplayed, waiter := true } ∧
    (∀ a s1, (∀ e, a ≠ LockAction.leaveWait (some e)) →
      lockStep os0 a { sys := sysReplayed, waiter := true } = some s1 →
      s1 = { sys := sysReplayed, waiter := true } ∧
      ∃ config fault, a = LockAction.other (Action.initializeCall config fault) ∧
        os0.access config = false ∧
        RestoreManagerImpl.initialize os0 config fault sysReplayed =
          Call.returned (Except.error "File not found") sysReplayed) :=
  ⟨LockReachable.step LockAction.enterWait _ _
      (lockReachable_of_reachable os0 sysRunning reach_running) rfl,
    rfl, rfl, rfl, rfl, rfl, rfl, rfl, rfl, rfl,
    fun a s1 h hs => lockStep_deadlock os0 a s1 h hs⟩

/-! ## Lemmas on the reference counted pointers -/

theorem int32_eq_zero_iff (n : Nat) (h : n ≤ 2147483647) : int32 (n : Int) = 0 ↔ n = 0 := by
  unfold int32
  omega

theorem int32_of_le (n : Nat) (h : n ≤ 2147483647) : int32 (n : Int) = n := by
  unfold int32
  omega

theorem int32_succ_pred (x : Int) : int32 (int32 (x + 1) - 1) = int32 x := by
  unfold int32
  omega

theorem int32_pred (x : Int) : int32 (int32 x - 1) = int32 (x - 1) := by
  unfold int32
  omega

theorem count_set_of_getElem {α : Type} [DecidableEq α] [BEq α] [LawfulBEq α] (l : List α)
    (h : Nat)
    (x e b : α) (hx : l[h]? = some x) :
    (l.set h e).count b + (if x = b then 1 else 0) =
      l.count b + (if e = b then 1 else 0) := by
  induction l generalizing h with
  | nil => simp at hx
  | cons a t ih =>
    cases h with
    | zero =>
      simp only [List.getElem?_cons_zero, Option.some.injEq] at hx
      subst hx
      simp only [List.set_cons_zero, List.count_cons, beq_iff_eq]
      omega
    | succ h =>
      simp only [List.getElem?_cons_succ] at hx
      have := ih h hx
      simp only [List.set_cons_succ, List.count_cons, beq_iff_eq]
      omega

theorem value?_eq_some (hp : RcHeap) (h : Nat) (v : Option Nat)
    (hv : hp.value? h = some v) : hp.handles[h]? = some (some v) := by
  unfold RcHeap.value? at hv
  split at hv
  · rename_i value heq
    simp only [Option.some.injEq] at hv
    rw [heq, hv]
  · cases hv

/-- A live handle that points to an object counts among its live handles. -/
theorem live_pos_of_value (hp : RcHeap) (h p : Nat) (hv : hp.value? h = some (some p)) :
    1 ≤ hp.live p := by
  have hmem : some (some p) ∈ hp.handles :=
    List.getElem?_mem (value?_eq_some hp h (some p) hv)
  exact List.count_pos_iff.mpr hmem

/-- The effect of storing the entry `e` in the slot of the live handle `h` and
then dropping the reference that the handle held: what `swap` does with `e` the
new pointer, and the destructor with `e` the empty slot. -/
theorem replace_effect (hp : RcHeap) (pend : Option Nat) (h : Nat) (tmp : Option Nat)
    (e : Option (Option Nat)) (hinv : RcPending hp pend) (hv : hp.value? h = some tmp)
    (hpe : ∀ p, pend = some p ↔ e = some (some p))
    (hb : ∀ p, (hp.handles.set h e).count (some (some p)) ≤ 2147483647) :
    RcPending (dropRef tmp { hp with handles := hp.handles.set h e }) none ∧
    (dropRef tmp { hp with handles := hp.handles.set h e }).handles = hp.handles.set h e ∧
    ∀ p, (dropRef tmp { hp with handles := hp.handles.set h e }).deleted p =
      hp.deleted p +
        (if hp.live p = 1 ∧ (hp.handles.set h e).count (some (some p)) = 0 then 1 else 0) := by
  have hget := value?_eq_some hp h tmp hv
  have key : ∀ p, (hp.handles.set h e).count (some (some p)) +
      (if tmp = some p then 1 else 0) =
      hp.live p + (if pend = some p then 1 else 0) := by
    intro p
    have := count_set_of_getElem hp.handles h (some tmp) e (some (some p)) hget
    simp only [Option.some.injEq] at this
    by_cases hp1 : pend = some p
    · have he := (hpe p).mp hp1
      simp only [hp1, he, if_true] at this ⊢
      exact this
    · have he : ¬ e = some (some p) := fun h2 => hp1 ((hpe p).mpr h2)
      simp only [hp1, he, if_false] at this ⊢
      exact this
  -- the count of every object but the one dropped is that of its handles
  have hkeep : ∀ p, tmp ≠ some p →
      hp.refcount p = int32 ((hp.handles.set h e).count (some (some p)) : Int) ∧
      ¬ (hp.live p = 1 ∧ (hp.handles.set h e).count (some (some p)) = 0) ∧
      (hp.deleted p = 1 → (hp.handles.set h e).count (some (some p)) = 0) := by
    intro p hne
    have k := key p
    simp only [hne, if_false, Nat.add_zero] at k
    obtain ⟨h1, _, h3⟩ := hinv p
    refine ⟨?_, ?_, ?_⟩
    · rw [h1, k]
      split <;> simp
    · rintro ⟨h4, h5⟩
      rw [h5, h4] at k
      split at k <;> omega
    · intro hd
      obtain ⟨h4, h5⟩ := h3 hd
      rw [k, h4]
      simp [h5]
  cases tmp with
  | none =>
    refine ⟨?_, rfl, ?_⟩
    · intro p
      obtain ⟨k1, _, k3⟩ := hkeep p (fun h2 => by cases h2)
      refine ⟨?_, (hinv p).2.1, fun hd => ⟨k3 hd, fun h2 => by cases h2⟩⟩
      show hp.refcount p = int32 (((hp.handles.set h e).count (some (some p)) : Int) + 0)
      rw [k1, Int.add_zero]
    · intro p
      obtain ⟨_, k2, _⟩ := hkeep p (fun h2 => by cases h2)
      show hp.deleted p = _
      simp only [k2, if_false, Nat.add_zero]
  | some q =>
    have hq1 : 1 ≤ hp.live q := live_pos_of_value hp h q hv
    have hdq : hp.deleted q = 0 := by
      obtain ⟨_, h2, h3⟩ := hinv q
      by_contra hne
      have h1 : hp.deleted q = 1 := by omega
      have := (h3 h1).1
      omega
    have kq := key q
    simp only [if_true] at kq
    have hrq : int32 (hp.refcount q - 1) =
        int32 ((hp.handles.set h e).count (some (some q)) : Int) := by
      rw [(hinv q).1, int32_pred]
      congr 1
      split at kq <;> rename_i hpq <;> simp only [hpq, if_true, if_false] <;> omega
    have hzero : int32 (hp.refcount q - 1) = 0 ↔
        (hp.handles.set h e).count (some (some q)) = 0 := by
      rw [hrq]
      exact int32_eq_zero_iff _ (hb q)
    have hne : ∀ p, p ≠ q → (some q : Option Nat) ≠ some p :=
      fun p hpq h2 => hpq (Option.some.inj h2).symm
    by_cases hz : int32 (hp.refcount q - 1) = 0
    · have hc0 := hzero.mp hz
      have hR : dropRef (some q) { hp with handles := hp.handles.set h e } =
          { refcount := Function.update hp.refcount q (int32 (hp.refcount q - 1))
            deleted := Function.update hp.deleted q (hp.deleted q + 1)
            handles := hp.handles.set h e } := by
        simp only [dropRef, RCValue._rc_decref, hz, if_true, RcHeap.delete]
      rw [hR]
      refine ⟨?_, rfl, ?_⟩
      · intro p
        by_cases hpq : p = q
        · subst hpq
          refine ⟨?_, ?_, fun _ => ⟨hc0, fun h2 => by cases h2⟩⟩
          · show Function.update hp.refcount p _ p =
              int32 (((hp.handles.set h e).count (some (some p)) : Int) + 0)
            rw [Function.update_same, Int.add_zero, hrq]
          · show Function.update hp.deleted p _ p ≤ 1
            rw [Function.update_same, hdq]
        · obtain ⟨k1, _, k3⟩ := hkeep p (hne p hpq)
          refine ⟨?_, ?_, fun hd => ⟨k3 ?_, fun h2 => by cases h2⟩⟩
          · show Function.update hp.refcount q _ p =
              int32 (((hp.handles.set h e).count (some (some p)) : Int) + 0)
            rw [Function.update_noteq hpq, Int.add_zero, k1]
          · show Function.update hp.deleted q _ p ≤ 1
            rw [Function.update_noteq hpq]
            exact (hinv p).2.1
          · have : Function.update hp.deleted q (hp.deleted q + 1) p = 1 := hd
            rw [Function.update_noteq hpq] at this
            exact this
      · intro p
        by_cases hpq : p = q
        · subst hpq
          show Function.update hp.deleted p _ p = _
          have hl1 : hp.live p = 1 := by
            rw [hc0] at kq
            split at kq <;> omega
          rw [Function.update_same]
          simp [hl1, hc0]
        · obtain ⟨_, k2, _⟩ := hkeep p (hne p hpq)
          show Function.update hp.deleted q _ p = _
          rw [Function.update_noteq hpq]
          simp only [k2, if_false, Nat.add_zero]
    · have hc0 : ¬ (hp.handles.set h e).count (some (some q)) = 0 :=
        fun h2 => hz (hzero.mpr h2)
      have hR : dropRef (some q) { hp with handles := hp.handles.set h e } =
          { refcount := Function.update hp.refcount q (int32 (hp.refcount q - 1))
            deleted := hp.deleted
            handles := hp.handles.set h e } := by
        simp only [dropRef, RCValue._rc_decref, hz, if_false]
      rw [hR]
      refine ⟨?_, rfl, ?_⟩
      · intro p
        by_cases hpq : p = q
        · subst hpq
          refine ⟨?_, (hinv p).2.1, fun hd => ?_⟩
          · show Function.update hp.refcount p _ p =
              int32 (((hp.handles.set h e).count (some (some p)) : Int) + 0)
            rw [Function.update_same, Int.add_zero, hrq]
          · have : hp.deleted p = 1 := hd
            omega
        · obtain ⟨k1, _, k3⟩ := hkeep p (hne p hpq)
          refine ⟨?_, (hinv p).2.1, fun hd => ⟨k3 hd, fun h2 => by cases h2⟩⟩
          show Function.update hp.refcount q _ p =
            int32 (((hp.handles.set h e).count (some (some p)) : Int) + 0)
          rw [Function.update_noteq hpq, Int.add_zero, k1]
      · intro p
        show hp.deleted p = _
        by_cases hpq : p = q
        · subst hpq
          simp [hc0]
        · obtain ⟨_, k2, _⟩ := hkeep p (hne p hpq)
          simp only [k2, if_false, Nat.add_zero]

theorem incref_pending (hp : RcHeap) (p : Nat) (hinv : RcPending hp none)
    (hd : hp.deleted p = 0) : RcPending (RCValue._rc_incref p hp).2 (some p) := by
  intro q
  obtain ⟨h1, h2, h3⟩ := hinv q
  simp only [reduceCtorEq, if_false, Int.add_zero] at h1
  by_cases hqp : q = p
  · subst hqp
    refine ⟨?_, h2, fun h4 => ?_⟩
    · show Function.update hp.refcount q _ q = int32 ((hp.live q : Int) + if some q = some q then 1 else 0)
      rw [Function.update_same, h1]
      simp only [if_true]
      unfold int32
      omega
    · have : hp.deleted q = 1 := h4
      omega
  · refine ⟨?_, h2, fun h4 => ⟨(h3 h4).1, fun h5 => hqp (Option.some.inj h5).symm⟩⟩
    show Function.update hp.refcount p _ q = int32 ((hp.live q : Int) + if some p = some q then 1 else 0)
    have hne : ¬ (some p = some q) := fun h5 => hqp (Option.some.inj h5).symm
    rw [Function.update_noteq hqp, h1]
    simp only [hne, if_false, Int.add_zero]

theorem live_append (hp : RcHeap) (e : Option (Option Nat)) (p : Nat) :
    ({ hp with handles := hp.handles ++ [e] } : RcHeap).live p =
      hp.live p + (if e = some (some p) then 1 else 0) := by
  simp only [RcHeap.live, List.count_append, List.count_cons, List.count_nil, beq_iff_eq,
    Nat.zero_add]

/-- The effect of a constructor from a raw pointer. -/
theorem ctor_effect (hp : RcHeap) (init : Option Nat) (hinv : RcPending hp none)
    (hraw : hp.rawOk init = true) :
    RcPending (RCPtr.ctor init hp) none ∧
    (RCPtr.ctor init hp).handles = hp.handles ++ [some init] ∧
    (RCPtr.ctor init hp).deleted = hp.deleted := by
  cases init with
  | none =>
    refine ⟨?_, rfl, rfl⟩
    intro p
    obtain ⟨h1, h2, h3⟩ := hinv p
    have hl := live_append hp (some none) p
    simp only [Option.some.injEq, reduceCtorEq, if_false, Nat.add_zero] at hl
    refine ⟨?_, h2, fun h4 => ⟨?_, fun h5 => by cases h5⟩⟩
    · show hp.refcount p = int32 ((({ hp with handles := hp.handles ++ [some none] } :
        RcHeap).live p : Int) + if (none : Option Nat) = some p then 1 else 0)
      rw [hl, h1]
    · show ({ hp with handles := hp.handles ++ [some none] } : RcHeap).live p = 0
      rw [hl]
      exact (h3 h4).1
  | some q =>
    have hdq : hp.deleted q = 0 := by
      simpa [RcHeap.rawOk] using hraw
    refine ⟨?_, rfl, rfl⟩
    intro p
    obtain ⟨h1, h2, h3⟩ := hinv p
    simp only [reduceCtorEq, if_false, Int.add_zero] at h1
    have hl := live_append hp (some (some q)) p
    simp only [Option.some.injEq] at hl
    by_cases hpq : p = q
    · subst hpq
      simp only [if_true] at hl
      refine ⟨?_, h2, fun h4 => ?_⟩
      · show Function.update hp.refcount p _ p =
          int32 ((({ hp with handles := hp.handles ++ [some (some p)] } : RcHeap).live p : Int) +
            if (none : Option Nat) = some p then 1 else 0)
        rw [Function.update_same, hl, h1]
        simp only [reduceCtorEq, if_false, Int.add_zero]
        unfold int32
        omega
      · have : hp.deleted p = 1 := h4
        omega
    · have hne : ¬ (q = p) := fun h5 => hpq h5.symm
      simp only [hne, if_false, Nat.add_zero] at hl
      refine ⟨?_, h2, fun h4 => ⟨?_, fun h5 => by cases h5⟩⟩
      · show Function.update hp.refcount q _ p =
          int32 ((({ hp with handles := hp.handles ++ [some (some q)] } : RcHeap).live p : Int) +
            if (none : Option Nat) = some p then 1 else 0)
        rw [Function.update_noteq hpq, hl, h1]
        simp only [reduceCtorEq, if_false, Int.add_zero]
      · show ({ hp with handles := hp.handles ++ [some (some q)] } : RcHeap).live p = 0
        rw [hl]
        exact (h3 h4).1

theorem copy_eq_ctor (hp : RcHeap) (other : Nat) (value : Option Nat)
    (hv : hp.value? other = some value) :
    RCPtr.copy other hp = some (RCPtr.ctor value hp) := by
  cases value <;> simp only [RCPtr.copy, hv, RCPtr.gimme, RCPtr.ctor]
  rfl

theorem assign_eq_reset (hp : RcHeap) (h other : Nat) (value : Option Nat)
    (hv : hp.value? other = some value) :
    RCPtr.assign h other hp = RCPtr.reset h value hp := by
  cases value <;> simp only [RCPtr.assign, hv, RCPtr.gimme, RCPtr.reset]

theorem singleThreaded_eq :
    SingleThreadedRCPtr.ctor = RCPtr.ctor ∧ SingleThreadedRCPtr.copy = RCPtr.copy ∧
    SingleThreadedRCPtr.reset = RCPtr.reset ∧ SingleThreadedRCPtr.assign = RCPtr.assign ∧
    SingleThreadedRCPtr.dtor = RCPtr.dtor :=
  ⟨rfl, rfl, rfl, rfl, rfl⟩

/-- Sequentially the two classes do the same. -/
theorem rcStep_class (cls : PtrClass) (op : RcOp) (hp : RcHeap) :
    rcStep cls op hp = rcStep PtrClass.RCPtr op hp := by
  cases cls
  · rfl
  · cases op <;> rfl

theorem dropRef_handles (tmp : Option Nat) (hp : RcHeap) :
    (dropRef tmp hp).handles = hp.handles := by
  cases tmp with
  | none => rfl
  | some q =>
    simp only [dropRef]
    split <;> rfl

/-- An object that a live handle holds has not been deleted. -/
theorem not_deleted_of_value (hp : RcHeap) (h : Nat) (value : Option Nat)
    (hinv : RcPending hp none) (hv : hp.value? h = some value) : hp.rawOk value = true := by
  cases value with
  | none => rfl
  | some p =>
    have h1 := live_pos_of_value hp h p hv
    obtain ⟨_, h2, h3⟩ := hinv p
    have : hp.deleted p = 0 := by
      by_contra hne
      have h4 : hp.deleted p = 1 := by omega
      have := (h3 h4).1
      omega
    simp [RcHeap.rawOk, this]

/-- The effect of `reset` to a raw pointer. -/
theorem reset_effect (hp hp1 : RcHeap) (h : Nat) (newValue : Option Nat)
    (hinv : RcPending hp none) (hraw : hp.rawOk newValue = true)
    (hr : RCPtr.reset h newValue hp = some hp1)
    (hb : ∀ p, hp1.live p ≤ 2147483647) :
    RcPending hp1 none ∧
    ∀ p, hp1.deleted p =
      hp.deleted p + (if hp.live p = 1 ∧ hp1.live p = 0 then 1 else 0) := by
  cases newValue with
  | none =>
    simp only [RCPtr.reset, RCPtr.swap] at hr
    split at hr
    · cases hr
    · rename_i tmp hv
      simp only [Option.some.injEq] at hr
      subst hr
      have hb1 : ∀ p, (hp.handles.set h (some none)).count (some (some p)) ≤ 2147483647 := by
        intro p
        have := hb p
        simp only [RcHeap.live, dropRef_handles] at this
        exact this
      obtain ⟨k1, k2, k3⟩ := replace_effect hp none h tmp (some none) hinv hv
        (fun p => by simp) hb1
      refine ⟨k1, fun p => ?_⟩
      rw [k3 p]
      simp only [RcHeap.live, dropRef_handles]
  | some q =>
    have hdq : hp.deleted q = 0 := by
      simpa [RcHeap.rawOk] using hraw
    simp only [RCPtr.reset, RCPtr.swap] at hr
    split at hr
    · cases hr
    · rename_i tmp hv
      simp only [Option.some.injEq] at hr
      subst hr
      have hb1 : ∀ p, ((RCValue._rc_incref q hp).2.handles.set h (some (some q))).count
          (some (some p)) ≤ 2147483647 := by
        intro p
        have := hb p
        simp only [RcHeap.live, dropRef_handles] at this
        exact this
      obtain ⟨k1, k2, k3⟩ := replace_effect (RCValue._rc_incref q hp).2 (some q) h tmp
        (some (some q)) (incref_pending hp q hinv hdq) hv (fun p => by simp) hb1
      refine ⟨k1, fun p => ?_⟩
      rw [k3 p]
      simp only [RcHeap.live, dropRef_handles]
      rfl

/-- The effect of a destructor. -/
theorem dtor_effect (hp hp1 : RcHeap) (h : Nat) (hinv : RcPending hp none)
    (hr : RCPtr.dtor h hp = some hp1) (hb : ∀ p, hp1.live p ≤ 2147483647) :
    RcPending hp1 none ∧
    ∀ p, hp1.deleted p =
      hp.deleted p + (if hp.live p = 1 ∧ hp1.live p = 0 then 1 else 0) := by
  simp only [RCPtr.dtor] at hr
  split at hr
  · cases hr
  · rename_i tmp hv
    simp only [Option.some.injEq] at hr
    subst hr
    have hb1 : ∀ p, (hp.handles.set h none).count (some (some p)) ≤ 2147483647 := by
      intro p
      have := hb p
      simp only [RcHeap.live, dropRef_handles] at this
      exact this
    obtain ⟨k1, k2, k3⟩ := replace_effect hp none h tmp none hinv hv (fun p => by simp) hb1
    refine ⟨k1, fun p => ?_⟩
    rw [k3 p]
    simp only [RcHeap.live, dropRef_handles]

/-- One handle operation keeps the invariant, and runs `delete` on an object
exactly when it takes the number of its live handles from 1 to 0. -/
theorem rcStep_effect (cls : PtrClass) (op : RcOp) (hp hp1 : RcHeap)
    (hinv : RcPending hp none) (hs : rcStep cls op hp = some hp1)
    (hb : ∀ p, hp1.live p ≤ 2147483647) :
    RcPending hp1 none ∧
    ∀ p, hp1.deleted p =
      hp.deleted p + (if hp.live p = 1 ∧ hp1.live p = 0 then 1 else 0) := by
  rw [rcStep_class] at hs
  have hctor : ∀ init, hp.rawOk init = true → hp1 = RCPtr.ctor init hp →
      RcPending hp1 none ∧
      ∀ p, hp1.deleted p =
        hp.deleted p + (if hp.live p = 1 ∧ hp1.live p = 0 then 1 else 0) := by
    intro init hraw he
    subst he
    obtain ⟨k1, k2, k3⟩ := ctor_effect hp init hinv hraw
    refine ⟨k1, fun p => ?_⟩
    rw [k3]
    have hl : (RCPtr.ctor init hp).live p =
        hp.live p + (if some init = some (some p) then 1 else 0) := by
      simp only [RcHeap.live, k2, List.count_append, List.count_cons, List.count_nil,
        beq_iff_eq, Nat.zero_add]
    have : ¬ (hp.live p = 1 ∧ (RCPtr.ctor init hp).live p = 0) := by
      rintro ⟨h1, h2⟩
      rw [hl, h1] at h2
      omega
    simp only [this, if_false, Nat.add_zero]
  cases op with
  | construct init =>
    simp only [rcStep] at hs
    split at hs
    · rename_i hraw
      simp only [Option.some.injEq] at hs
      exact hctor init hraw hs.symm
    · cases hs
  | copy other =>
    simp only [rcStep] at hs
    cases hv : hp.value? other with
    | none => simp [RCPtr.copy, hv] at hs
    | some value =>
      rw [copy_eq_ctor hp other value hv, Option.some.injEq] at hs
      exact hctor value (not_deleted_of_value hp other value hinv hv) hs.symm
  | reset h newValue =>
    simp only [rcStep] at hs
    split at hs
    · rename_i hraw
      exact reset_effect hp hp1 h newValue hinv hraw hs hb
    · cases hs
  | assign h other =>
    simp only [rcStep] at hs
    cases hv : hp.value? other with
    | none => simp [RCPtr.assign, hv] at hs
    | some value =>
      rw [assign_eq_reset hp h other value hv] at hs
      exact reset_effect hp hp1 h value hinv
        (not_deleted_of_value hp other value hinv hv) hs hb
  | destroy h =>
    simp only [rcStep] at hs
    exact dtor_effect hp hp1 h hinv hs hb

theorem fresh_pending : RcPending RcHeap.fresh none := by
  intro p
  refine ⟨?_, Nat.zero_le _, fun h => ?_⟩
  · simp [RcHeap.fresh, RcHeap.live, int32]
  · simp [RcHeap.fresh] at h

theorem reach_pending (cls : PtrClass) (hp : RcHeap) (h : RcReach cls 2147483647 hp) :
    RcPending hp none ∧ ∀ p, hp.live p ≤ 2147483647 := by
  induction h with
  | fresh => exact ⟨fresh_pending, fun p => by simp [RcHeap.fresh, RcHeap.live]⟩
  | step op hp hp1 _ hs hb ih => exact ⟨(rcStep_effect cls op hp hp1 ih.1 hs hb).1, hb⟩

/-! ## C17: the reference count and the live handles -/

theorem rcRun_append (cls : PtrClass) (ops1 ops2 : List RcOp) (hp : RcHeap) :
    rcRun cls (ops1 ++ ops2) hp =
      match rcRun cls ops1 hp with
      | some hp1 => rcRun cls ops2 hp1
      | none => none := by
  induction ops1 generalizing hp with
  | nil => rfl
  | cons op ops ih =>
    simp only [List.cons_append, rcRun]
    cases rcStep cls op hp with
    | none => rfl
    | some hp1 => exact ih hp1

/-- One handle constructed on the object at 0 and `n` copies of it: the object
has `n + 1` live handles, and its count is `n + 1` as an `int`. -/
theorem rcRun_copies (n : Nat) :
    rcRun PtrClass.RCPtr (RcOp.construct (some 0) :: List.replicate n (RcOp.copy 0))
        RcHeap.fresh =
      some { refcount := Function.update (fun _ => 0) 0 (int32 ((n : Int) + 1))
             deleted := fun _ => 0
             handles := List.replicate (n + 1) (some (some 0)) } := by
  induction n with
  | zero =>
    simp only [List.replicate, rcRun, rcStep, RcHeap.rawOk, RcHeap.fresh, decide_True, if_true,
      RCPtr.ctor, RCValue._rc_incref]
    rfl
  | succ n ih =>
    have hsplit : RcOp.construct (some 0) :: List.replicate (n + 1) (RcOp.copy 0) =
        (RcOp.construct (some 0) :: List.replicate n (RcOp.copy 0)) ++ [RcOp.copy 0] := by
      rw [List.replicate_succ', List.cons_append]
    rw [hsplit, rcRun_append, ih]
    have hv : ({ refcount := Function.update (fun _ => 0) 0 (int32 ((n : Int) + 1))
                 deleted := fun _ => 0
                 handles := List.replicate (n + 1) (some (some 0)) } : RcHeap).value? 0 =
        some (some 0) := by
      simp [RcHeap.value?, List.replicate_succ]
    have e1 : int32 (int32 ((n : Int) + 1) + 1) = int32 (((n + 1 : Nat) : Int) + 1) := by
      unfold int32
      push_cast
      omega
    have e2 : List.replicate (n + 1) (some (some 0) : Option (Option Nat)) ++ [some (some 0)] =
        List.replicate (n + 1 + 1) (some (some 0)) := by
      rw [← List.replicate_succ']
    simp only [rcRun, rcStep, RCPtr.copy, hv, RCPtr.gimme, RCValue._rc_incref,
      Function.update_same, Function.update_idem, e1, e2]

theorem live_replicate (n : Nat) (r : Nat → Int) (d : Nat → Nat) :
    ({ refcount := r, deleted := d, handles := List.replicate n (some (some 0)) } :
      RcHeap).live 0 = n := by
  simp [RcHeap.live]

/-- C17, the claim as stated, fails: one `RCPtr` constructed on a fresh object
and 2^31 - 1 copies of it, one operation at a time. The object then has 2^31
live handles, but its count, an `int`, is -2^31. -/
theorem C17_count_wraps :
    ∃ hp, rcRun PtrClass.RCPtr
        (RcOp.construct (some 0) :: List.replicate 2147483647 (RcOp.copy 0))
        RcHeap.fresh = some hp ∧
      hp.live 0 = 2147483648 ∧ hp.refcount 0 = -2147483648 ∧ hp.deleted 0 = 0 ∧
      hp.refcount 0 ≠ (hp.live 0 : Int) := by
  have hrun := rcRun_copies 2147483647
  have hlive := live_replicate (2147483647 + 1)
    (Function.update (fun _ => 0) 0 (int32 ((2147483647 : Nat) + 1))) (fun _ => 0)
  refine ⟨_, hrun, hlive, ?_, rfl, ?_⟩
  · show Function.update (fun _ => (0 : Int)) 0 (int32 ((2147483647 : Nat) + 1)) 0 = _
    rw [Function.update_same]
    unfold int32
    omega
  · rw [hlive]
    show Function.update (fun _ => (0 : Int)) 0 (int32 ((2147483647 : Nat) + 1)) 0 ≠ _
    rw [Function.update_same]
    unfold int32
    omega

/-- C17 (amended): in every heap reached from freshly constructed objects by
handle operations of `RCPtr` or `SingleThreadedRCPtr`, one at a time (construct
a handle from a raw pointer to an object that is not deleted, copy a handle,
reset or assign a handle, destroy a handle), with fewer than 2^31 live handles
on an object at a time: the reference count of every object equals the number
of live handles that point to it; `delete` has run at most once on it, and then
no live handle points to it; and an operation runs `delete` on an object
exactly when it takes its count from 1 to 0. -/
theorem C17_count_is_live_handles (cls : PtrClass) (hp : RcHeap)
    (hreach : RcReach cls 2147483647 hp) :
    (∀ p, hp.refcount p = (hp.live p : Int) ∧ hp.deleted p ≤ 1 ∧
      (hp.deleted p = 1 → hp.live p = 0)) ∧
    (∀ op hp1, rcStep cls op hp = some hp1 → (∀ p, hp1.live p ≤ 2147483647) →
      ∀ p, hp1.refcount p = (hp1.live p : Int) ∧
        (hp1.deleted p = hp.deleted p + 1 ↔ hp.refcount p = 1 ∧ hp1.refcount p = 0) ∧
        (hp1.deleted p = hp.deleted p ∨ hp1.deleted p = hp.deleted p + 1)) := by
  obtain ⟨hinv, hb⟩ := reach_pending cls hp hreach
  have hcount : ∀ (x : RcHeap), RcPending x none → (∀ p, x.live p ≤ 2147483647) →
      ∀ p, x.refcount p = (x.live p : Int) := by
    intro x hx hbx p
    rw [(hx p).1]
    simp only [reduceCtorEq, if_false, Int.add_zero]
    exact int32_of_le _ (hbx p)
  refine ⟨fun p => ⟨hcount hp hinv hb p, (hinv p).2.1, fun h => ((hinv p).2.2 h).1⟩, ?_⟩
  intro op hp1 hs hb1 p
  obtain ⟨k1, k2⟩ := rcStep_effect cls op hp hp1 hinv hs hb1
  have c0 := hcount hp hinv hb p
  have c1 := hcount hp1 k1 hb1 p
  have kd := k2 p
  refine ⟨c1, ?_, ?_⟩
  · rw [c0, c1, kd]
    split <;> rename_i hc
    · simp [hc.1, hc.2]
    · constructor
      · intro h
        omega
      · rintro ⟨h1, h2⟩
        exact absurd ⟨by exact_mod_cast h1, by exact_mod_cast h2⟩ hc
  · rw [kd]
    split
    · exact Or.inr rfl
    · exact Or.inl rfl

theorem reach_heapOne : RcReach PtrClass.RCPtr 2147483647 heapOne :=
  RcReach.step (RcOp.construct (some 0)) RcHeap.fresh heapOne RcReach.fresh rfl
    (fun p => le_trans (List.count_le_length (some (some p)) _) (by decide))

/-- C17 at the heap with one handle on one object: its count is 1, and the
destructor of the handle, which takes the count from 1 to 0, deletes it. -/
theorem C17_count_is_live_handles_witness :
    (∀ p, heapOne.refcount p = (heapOne.live p : Int) ∧ heapOne.deleted p ≤ 1 ∧
      (heapOne.deleted p = 1 → heapOne.live p = 0)) ∧
    (∀ op hp1, rcStep PtrClass.RCPtr op heapOne = some hp1 →
      (∀ p, hp1.live p ≤ 2147483647) →
      ∀ p, hp1.refcount p = (hp1.live p : Int) ∧
        (hp1.deleted p = heapOne.deleted p + 1 ↔
          heapOne.refcount p = 1 ∧ hp1.refcount p = 0) ∧
        (hp1.deleted p = heapOne.deleted p ∨ hp1.deleted p = heapOne.deleted p + 1)) :=
  C17_count_is_live_handles PtrClass.RCPtr heapOne reach_heapOne

/-! ## C21: the operation that a row passes to the store -/

theorem processEntry_calls {σ : Type} (S : Store σ) (row : Row)
    (self : DecrementalRestorer) (w : World σ) :
    (DecrementalRestorer.processEntry S row self w).2.2.calls = w.calls ++ [storeCall row] := by
  unfold DecrementalRestorer.processEntry
  dsimp only
  split_ifs <;> rfl

theorem entryOp_del_iff (op : Bytes) :
    entryOp op = queue_operation.queue_op_del ↔ ∃ rest, op = 100 :: rest := by
  unfold entryOp
  cases op with
  | nil => simp
  | cons b rest =>
    by_cases hb : b = 100
    · subst hb
      simp
    · simp [hb]

theorem entryOp_set_iff (op : Bytes) :
    entryOp op = queue_operation.queue_op_set ↔ ¬ ∃ rest, op = 100 :: rest := by
  rw [← entryOp_del_iff]
  cases h : entryOp op <;> simp

/-- C21. For every row, `processEntry` makes one call of `addUnlessThere`, and
the operation of that call is `queue_op_del` if and only if column `op` is not
empty and its first byte is 100, the letter d; in every other case it is
`queue_op_set`, and so it is for an empty column. -/
theorem C21_operation_of_row {σ : Type} (S : Store σ) (row : Row)
    (self : DecrementalRestorer) (w : World σ) :
    (∃ call, (DecrementalRestorer.processEntry S row self w).2.2.calls = w.calls ++ [call] ∧
      (call.op = queue_operation.queue_op_del ↔ ∃ rest, row.op = 100 :: rest) ∧
      (call.op = queue_operation.queue_op_set ↔ ¬ ∃ rest, row.op = 100 :: rest)) ∧
    (DecrementalRestorer.processEntry S { row with op := [] } self w).2.2.calls.map
      StoreCall.op = w.calls.map StoreCall.op ++ [queue_operation.queue_op_set] := by
  refine ⟨⟨storeCall row, processEntry_calls S row self w, ?_, ?_⟩, ?_⟩
  · exact entryOp_del_iff row.op
  · exact entryOp_set_iff row.op
  · rw [processEntry_calls]
    simp [storeCall, entryOp]

/-! ## C22: the cas that a row passes to the store -/

theorem sqlite3_column_int_range (v : Int) :
    -2147483648 ≤ sqlite3_column_int v ∧ sqlite3_column_int v < 2147483648 := by
  unfold sqlite3_column_int
  omega

theorem sqlite3_column_int_mod (v : Int) :
    (sqlite3_column_int v - v) % 4294967296 = 0 := by
  unfold sqlite3_column_int
  omega

theorem sqlite3_column_int_small (v : Int) (h0 : -2147483648 ≤ v) (h1 : v < 2147483648) :
    sqlite3_column_int v = v := by
  unfold sqlite3_column_int
  omega

/-- C22 as stated fails. The stored cas 4294967296 lies in the range from 0 to
2^63, and the row that holds it passes the cas 0 to the store, which is also
what a row with the stored cas 0 passes. -/
theorem C22_cas_loses_high_bits :
    (0 : Int) ≤ 4294967296 ∧ (4294967296 : Int) < 9223372036854775808 ∧
    (DecrementalRestorer.processEntry acceptAll { rowA with cas := 4294967296 }
        (DecrementalRestorer.new "backup.mbb") { store := (), calls := [] }).2.2.calls.map
      StoreCall.cas = [0] ∧
    (DecrementalRestorer.processEntry acceptAll { rowA with cas := 0 }
        (DecrementalRestorer.new "backup.mbb") { store := (), calls := [] }).2.2.calls.map
      StoreCall.cas = [0] := by
  refine ⟨by decide, by decide, ?_, ?_⟩
  · rw [processEntry_calls]
    simp [storeCall, sqlite3_column_int]
  · rw [processEntry_calls]
    simp [storeCall, sqlite3_column_int]

/-- C22, amended. For every row, the cas passed to `addUnlessThere` is the low
32 bits of the stored cas read as a signed `int`: it lies between -2^31 and
2^31 and differs from the stored cas by a multiple of 2^32. A stored cas from 0
up to 2^31 is passed unchanged, so two rows whose stored cas values lie in that
range and differ pass different cas values. -/
theorem C22_cas_low_32_bits {σ : Type} (S : Store σ) (row : Row)
    (self : DecrementalRestorer) (w : World σ) :
    ∃ call,
      (DecrementalRestorer.processEntry S row self w).2.2.calls = w.calls ++ [call] ∧
      -2147483648 ≤ call.cas ∧ call.cas < 2147483648 ∧
      (call.cas - row.cas) % 4294967296 = 0 ∧
      (0 ≤ row.cas → row.cas < 2147483648 → call.cas = row.cas) ∧
      (∀ (row2 : Row) (call2 : StoreCall),
        (DecrementalRestorer.processEntry S row2 self w).2.2.calls = w.calls ++ [call2] →
        0 ≤ row.cas → row.cas < 2147483648 → 0 ≤ row2.cas → row2.cas < 2147483648 →
        row.cas ≠ row2.cas → call.cas ≠ call2.cas) := by
  refine ⟨storeCall row, processEntry_calls S row self w,
    (sqlite3_column_int_range row.cas).1, (sqlite3_column_int_range row.cas).2,
    sqlite3_column_int_mod row.cas, ?_, ?_⟩
  · intro h0 h1
    exact sqlite3_column_int_small row.cas (by omega) h1
  · intro row2 call2 hcalls h0 h1 h2 h3 hne
    rw [processEntry_calls] at hcalls
    have hc : call2 = storeCall row2 := by
      have := List.append_cancel_left hcalls
      simpa using this.symm
    subst hc
    show sqlite3_column_int row.cas ≠ sqlite3_column_int row2.cas
    rw [sqlite3_column_int_small row.cas (by omega) h1,
      sqlite3_column_int_small row2.cas (by omega) h3]
    exact hne

theorem C22_cas_low_32_bits_witness :
    ∃ call,
      (DecrementalRestorer.processEntry acceptAll { rowA with cas := 5 }
        (DecrementalRestorer.new "backup.mbb") { store := (), calls := [] }).2.2.calls =
          [] ++ [call] ∧
      call.cas = 5 ∧
      ∀ call2,
        (DecrementalRestorer.processEntry acceptAll { rowA with cas := 2147483647 }
          (DecrementalRestorer.new "backup.mbb") { store := (), calls := [] }).2.2.calls =
            [] ++ [call2] → call.cas ≠ call2.cas := by
  obtain ⟨call, hcalls, _, _, _, hsmall, hdiff⟩ :=
    C22_cas_low_32_bits acceptAll { rowA with cas := 5 }
      (DecrementalRestorer.new "backup.mbb") { store := (), calls := [] }
  exact ⟨call, hcalls, hsmall (by decide) (by decide), fun call2 h2 =>
    hdiff { rowA with cas := 2147483647 } call2 h2 (by decide) (by decide) (by decide)
      (by decide) (by decide)⟩

/-! ## C23: the helpers under interference -/

theorem setIfBigger_loop_safe {T : Type} [LinearOrder T] (sched : Nat → Option T) (n : T)
    (fuel : Nat) : ∀ (place : Nat) (old : T) (r : AtomicRun T),
    atomic_setIfBigger_loop sched n fuel place old = some r →
    (∀ v, r.replaced = some v → v < n ∧ r.obj = n) ∧
      (r.replaced = none → n ≤ r.lastSeen ∧ r.obj = r.lastSeen) := by
  induction fuel with
  | zero =>
    intro place old r h
    simp [atomic_setIfBigger_loop] at h
  | succ fuel ih =>
    intro place old r h
    unfold atomic_setIfBigger_loop at h
    by_cases hgt : n > old
    · rw [if_pos hgt] at h
      by_cases hsame : (sched place).getD old = old
      · rw [if_pos hsame] at h
        have hr := Option.some.inj h
        subst hr
        refine ⟨?_, ?_⟩
        · intro v hv
          have hv1 : old = v := Option.some.inj hv
          subst hv1
          exact ⟨hgt, rfl⟩
        · intro hnone
          cases hnone
      · rw [if_neg hsame] at h
        exact ih _ _ r h
    · rw [if_neg hgt] at h
      have hr := Option.some.inj h
      subst hr
      refine ⟨?_, ?_⟩
      · intro v hv
        cases hv
      · intro _
        exact ⟨not_lt.mp hgt, rfl⟩

theorem setIfLess_loop_safe {T : Type} [LinearOrder T] (sched : Nat → Option T) (n : T)
    (fuel : Nat) : ∀ (place : Nat) (old : T) (r : AtomicRun T),
    atomic_setIfLess_loop sched n fuel place old = some r →
    (∀ v, r.replaced = some v → n < v ∧ r.obj = n) ∧
      (r.replaced = none → r.lastSeen ≤ n ∧ r.obj = r.lastSeen) := by
  induction fuel with
  | zero =>
    intro place old r h
    simp [atomic_setIfLess_loop] at h
  | succ fuel ih =>
    intro place old r h
    unfold atomic_setIfLess_loop at h
    by_cases hlt : n < old
    · rw [if_pos hlt] at h
      by_cases hsame : (sched place).getD old = old
      · rw [if_pos hsame] at h
        have hr := Option.some.inj h
        subst hr
        refine ⟨?_, ?_⟩
        · intro v hv
          have hv1 : old = v := Option.some.inj hv
          subst hv1
          exact ⟨hlt, rfl⟩
        · intro hnone
          cases hnone
      · rw [if_neg hsame] at h
        exact ih _ _ r h
    · rw [if_neg hlt] at h
      have hr := Option.some.inj h
      subst hr
      refine ⟨?_, ?_⟩
      · intro v hv
        cases hv
      · intro _
        exact ⟨not_lt.mp hlt, rfl⟩

theorem getD_ne_self {T : Type} (a : Option T) (old : T) (h : ¬ a.getD old = old) :
    a ≠ none := by
  intro ha
  subst ha
  exact h rfl

theorem setIfBigger_loop_returns {T : Type} [LinearOrder T] (sched : Nat → Option T) (n : T)
    (N : Nat) (hquiet : ∀ j, N ≤ j → sched j = none) (fuel : Nat) :
    ∀ (place : Nat) (old : T), 1 ≤ fuel → N + 2 ≤ place + 2 * fuel →
    ∃ r, atomic_setIfBigger_loop sched n fuel place old = some r := by
  induction fuel with
  | zero =>
    intro place old h1
    omega
  | succ fuel ih =>
    intro place old _ hN
    unfold atomic_setIfBigger_loop
    by_cases hgt : n > old
    · rw [if_pos hgt]
      by_cases hsame : (sched place).getD old = old
      · rw [if_pos hsame]
        exact ⟨_, rfl⟩
      · rw [if_neg hsame]
        have hwrite := getD_ne_self _ _ hsame
        have hplace : place < N := by
          by_contra hge
          exact hwrite (hquiet place (by omega))
        exact ih _ _ (by omega) (by omega)
    · rw [if_neg hgt]
      exact ⟨_, rfl⟩

theorem setIfLess_loop_returns {T : Type} [LinearOrder T] (sched : Nat → Option T) (n : T)
    (N : Nat) (hquiet : ∀ j, N ≤ j → sched j = none) (fuel : Nat) :
    ∀ (place : Nat) (old : T), 1 ≤ fuel → N + 2 ≤ place + 2 * fuel →
    ∃ r, atomic_setIfLess_loop sched n fuel place old = some r := by
  induction fuel with
  | zero =>
    intro place old h1
    omega
  | succ fuel ih =>
    intro place old _ hN
    unfold atomic_setIfLess_loop
    by_cases hlt : n < old
    · rw [if_pos hlt]
      by_cases hsame : (sched place).getD old = old
      · rw [if_pos hsame]
        exact ⟨_, rfl⟩
      · rw [if_neg hsame]
        have hwrite := getD_ne_self _ _ hsame
        have hplace : place < N := by
          by_contra hge
          exact hwrite (hquiet place (by omega))
        exact ih _ _ (by omega) (by omega)
    · rw [if_neg hlt]
      exact ⟨_, rfl⟩

/-! ### The loop with fuel and the run over a finite interference agree -/

theorem setIfBigger_loop_shift {T : Type} [LinearOrder T] (sched : Nat → Option T) (n : T)
    (k fuel : Nat) : ∀ (place : Nat) (old : T),
    atomic_setIfBigger_loop sched n fuel (place + k) old =
      atomic_setIfBigger_loop (fun j => sched (j + k)) n fuel place old := by
  induction fuel with
  | zero =>
    intro place old
    rfl
  | succ fuel ih =>
    intro place old
    unfold atomic_setIfBigger_loop
    have e1 : place + k + 2 = place + 2 + k := by omega
    have e2 : place + k + 1 = place + 1 + k := by omega
    simp only [e1, e2, ih]

theorem setIfLess_loop_shift {T : Type} [LinearOrder T] (sched : Nat → Option T) (n : T)
    (k fuel : Nat) : ∀ (place : Nat) (old : T),
    atomic_setIfLess_loop sched n fuel (place + k) old =
      atomic_setIfLess_loop (fun j => sched (j + k)) n fuel place old := by
  induction fuel with
  | zero =>
    intro place old
    rfl
  | succ fuel ih =>
    intro place old
    unfold atomic_setIfLess_loop
    have e1 : place + k + 2 = place + 2 + k := by omega
    have e2 : place + k + 1 = place + 1 + k := by omega
    simp only [e1, e2, ih]

theorem schedOf_nil {T : Type} : schedOf ([] : List (Option T)) = fun _ => none := by
  funext i
  simp [schedOf]

theorem schedOf_shift_one {T : Type} (a : Option T) :
    (fun j => schedOf [a] (j + 2)) = schedOf ([] : List (Option T)) := by
  funext j
  simp [schedOf]

theorem schedOf_shift_two {T : Type} (a b : Option T) (env : List (Option T)) :
    (fun j => schedOf (a :: b :: env) (j + 2)) = schedOf env := by
  funext j
  simp [schedOf]

theorem setIfBigger_loop_list {T : Type} [LinearOrder T] (n : T) (k : Nat) :
    ∀ (env : List (Option T)) (obj : T) (fuel : Nat), env.length ≤ k →
    env.length + 1 ≤ fuel →
    atomic_setIfBigger_loop (schedOf env) n fuel 0 obj =
      some (atomic_setIfBigger env obj n) := by
  induction k using Nat.strong_induction_on with
  | _ k ih =>
    intro env obj fuel hk hfuel
    obtain ⟨fuel1, rfl⟩ : ∃ fuel1, fuel = fuel1 + 1 := ⟨fuel - 1, by omega⟩
    unfold atomic_setIfBigger_loop
    cases env with
    | nil =>
      unfold atomic_setIfBigger
      by_cases hgt : n > obj
      · simp [hgt, schedOf]
      · simp [hgt]
    | cons a env1 =>
      unfold atomic_setIfBigger
      by_cases hgt : n > obj
      · rw [if_pos hgt, if_pos hgt]
        have h0 : schedOf (a :: env1) 0 = a := by simp [schedOf]
        rw [h0]
        by_cases hsame : a.getD obj = obj
        · rw [if_pos hsame, if_pos hsame]
        · rw [if_neg hsame, if_neg hsame]
          cases env1 with
          | nil =>
            have h1 : schedOf [a] (0 + 1) = none := by simp [schedOf]
            rw [h1]
            have hs := setIfBigger_loop_shift (schedOf [a]) n 2 fuel1 0 (a.getD obj)
            rw [schedOf_shift_one] at hs
            simp only [Option.getD_none]
            rw [hs]
            simp only [List.length_cons, List.length_nil] at hk hfuel
            exact ih 0 (by omega) [] (a.getD obj) fuel1 (by simp) (by simp; omega)
          | cons b env2 =>
            have h1 : schedOf (a :: b :: env2) (0 + 1) = b := by simp [schedOf]
            rw [h1]
            have hs := setIfBigger_loop_shift (schedOf (a :: b :: env2)) n 2 fuel1 0
              (b.getD (a.getD obj))
            rw [schedOf_shift_two] at hs
            rw [hs]
            simp only [List.length_cons] at hk hfuel
            exact ih env2.length (by omega) env2 (b.getD (a.getD obj)) fuel1 (le_refl _)
              (by omega)
      · rw [if_neg hgt, if_neg hgt]

theorem setIfLess_loop_list {T : Type} [LinearOrder T] (n : T) (k : Nat) :
    ∀ (env : List (Option T)) (obj : T) (fuel : Nat), env.length ≤ k →
    env.length + 1 ≤ fuel →
    atomic_setIfLess_loop (schedOf env) n fuel 0 obj =
      some (atomic_setIfLess env obj n) := by
  induction k using Nat.strong_induction_on with
  | _ k ih =>
    intro env obj fuel hk hfuel
    obtain ⟨fuel1, rfl⟩ : ∃ fuel1, fuel = fuel1 + 1 := ⟨fuel - 1, by omega⟩
    unfold atomic_setIfLess_loop
    cases env with
    | nil =>
      unfold atomic_setIfLess
      by_cases hlt : n < obj
      · simp [hlt, schedOf]
      · simp [hlt]
    | cons a env1 =>
      unfold atomic_setIfLess
      by_cases hlt : n < obj
      · rw [if_pos hlt, if_pos hlt]
        have h0 : schedOf (a :: env1) 0 = a := by simp [schedOf]
        rw [h0]
        by_cases hsame : a.getD obj = obj
        · rw [if_pos hsame, if_pos hsame]
        · rw [if_neg hsame, if_neg hsame]
          cases env1 with
          | nil =>
            have h1 : schedOf [a] (0 + 1) = none := by simp [schedOf]
            rw [h1]
            have hs := setIfLess_loop_shift (schedOf [a]) n 2 fuel1 0 (a.getD obj)
            rw [schedOf_shift_one] at hs
            simp only [Option.getD_none]
            rw [hs]
            simp only [List.length_cons, List.length_nil] at hk hfuel
            exact ih 0 (by omega) [] (a.getD obj) fuel1 (by simp) (by simp; omega)
          | cons b env2 =>
            have h1 : schedOf (a :: b :: env2) (0 + 1) = b := by simp [schedOf]
            rw [h1]
            have hs := setIfLess_loop_shift (schedOf (a :: b :: env2)) n 2 fuel1 0
              (b.getD (a.getD obj))
            rw [schedOf_shift_two] at hs
            rw [hs]
            simp only [List.length_cons] at hk hfuel
            exact ih env2.length (by omega) env2 (b.getD (a.getD obj)) fuel1 (le_refl _)
              (by omega)
      · rw [if_neg hlt, if_neg hlt]

/-! ### What the loops return, in terms of the values that `obj` has held -/

theorem loadedAt_shift {T : Type} (sched : Nat → Option T) (obj : T) (k : Nat) :
    loadedAt (fun j => sched (j + 2)) (loadedAt sched obj 1) k = loadedAt sched obj (k + 1) := by
  induction k with
  | zero => rfl
  | succ k ih =>
    have e1 : 2 * k + 1 + 2 = 2 * (k + 1) + 1 := by omega
    have e2 : 2 * k + 2 = 2 * (k + 1) := by omega
    show (sched (2 * k + 1 + 2)).getD ((sched (2 * k + 2)).getD
        (loadedAt (fun j => sched (j + 2)) (loadedAt sched obj 1) k)) =
      (sched (2 * (k + 1) + 1)).getD ((sched (2 * (k + 1))).getD (loadedAt sched obj (k + 1)))
    rw [ih, e1, e2]

theorem heldAt_shift {T : Type} (sched : Nat → Option T) (obj : T) (k : Nat) :
    heldAt (fun j => sched (j + 2)) (loadedAt sched obj 1) k = heldAt sched obj (k + 1) := by
  have e2 : 2 * k + 2 = 2 * (k + 1) := by omega
  unfold heldAt
  rw [loadedAt_shift]
  simp only [e2]

/-- The run of `atomic_setIfBigger` in full: the loop returns at some load `k`
after `k` compare-exchanges that have failed because `obj` had been written;
it returns after a compare-exchange that has replaced the value it had loaded,
smaller than `n`, or without a write, having loaded a value not smaller than
`n`. -/
theorem setIfBigger_loop_spec {T : Type} [LinearOrder T] (n : T) (fuel : Nat) :
    ∀ (sched : Nat → Option T) (obj : T) (r : AtomicRun T),
    atomic_setIfBigger_loop sched n fuel 0 obj = some r →
    ∃ k, k < fuel ∧
      (∀ j, j < k → loadedAt sched obj j < n ∧ heldAt sched obj j ≠ loadedAt sched obj j) ∧
      r.lastSeen = loadedAt sched obj k ∧
      ((loadedAt sched obj k < n ∧ heldAt sched obj k = loadedAt sched obj k ∧
          r.replaced = some (heldAt sched obj k) ∧ r.obj = n) ∨
        (n ≤ loadedAt sched obj k ∧ r.replaced = none ∧ r.obj = loadedAt sched obj k)) := by
  induction fuel with
  | zero =>
    intro sched obj r h
    simp [atomic_setIfBigger_loop] at h
  | succ fuel ih =>
    intro sched obj r h
    unfold atomic_setIfBigger_loop at h
    by_cases hgt : n > obj
    · rw [if_pos hgt] at h
      by_cases hsame : (sched 0).getD obj = obj
      · rw [if_pos hsame] at h
        have hr := Option.some.inj h
        subst hr
        refine ⟨0, Nat.zero_lt_succ _, fun j hj => absurd hj (Nat.not_lt_zero j), rfl,
          Or.inl ⟨hgt, hsame, ?_, rfl⟩⟩
        show some obj = some ((sched (2 * 0)).getD obj)
        rw [Nat.mul_zero, hsame]
      · rw [if_neg hsame] at h
        have hs := setIfBigger_loop_shift sched n 2 fuel 0
          ((sched (0 + 1)).getD ((sched 0).getD obj))
        rw [hs] at h
        obtain ⟨k, hk, hfail, hlast, hend⟩ := ih _ _ r h
        have hone : (sched (0 + 1)).getD ((sched 0).getD obj) = loadedAt sched obj 1 := rfl
        rw [hone] at hfail hlast hend
        simp only [loadedAt_shift, heldAt_shift] at hfail hlast hend
        refine ⟨k + 1, Nat.succ_lt_succ hk, ?_, hlast, hend⟩
        intro j hj
        cases j with
        | zero => exact ⟨hgt, hsame⟩
        | succ j => exact hfail j (Nat.lt_of_succ_lt_succ hj)
    · rw [if_neg hgt] at h
      have hr := Option.some.inj h
      subst hr
      exact ⟨0, Nat.zero_lt_succ _, fun j hj => absurd hj (Nat.not_lt_zero j), rfl,
        Or.inr ⟨not_lt.mp hgt, rfl, rfl⟩⟩

/-- The run of `atomic_setIfLess` in full, as `setIfBigger_loop_spec` with the
order reversed. -/
theorem setIfLess_loop_spec {T : Type} [LinearOrder T] (n : T) (fuel : Nat) :
    ∀ (sched : Nat → Option T) (obj : T) (r : AtomicRun T),
    atomic_setIfLess_loop sched n fuel 0 obj = some r →
    ∃ k, k < fuel ∧
      (∀ j, j < k → n < loadedAt sched obj j ∧ heldAt sched obj j ≠ loadedAt sched obj j) ∧
      r.lastSeen = loadedAt sched obj k ∧
      ((n < loadedAt sched obj k ∧ heldAt sched obj k = loadedAt sched obj k ∧
          r.replaced = some (heldAt sched obj k) ∧ r.obj = n) ∨
        (loadedAt sched obj k ≤ n ∧ r.replaced = none ∧ r.obj = loadedAt sched obj k)) := by
  induction fuel with
  | zero =>
    intro sched obj r h
    simp [atomic_setIfLess_loop] at h
  | succ fuel ih =>
    intro sched obj r h
    unfold atomic_setIfLess_loop at h
    by_cases hlt : n < obj
    · rw [if_pos hlt] at h
      by_cases hsame : (sched 0).getD obj = obj
      · rw [if_pos hsame] at h
        have hr := Option.some.inj h
        subst hr
        refine ⟨0, Nat.zero_lt_succ _, fun j hj => absurd hj (Nat.not_lt_zero j), rfl,
          Or.inl ⟨hlt, hsame, ?_, rfl⟩⟩
        show some obj = some ((sched (2 * 0)).getD obj)
        rw [Nat.mul_zero, hsame]
      · rw [if_neg hsame] at h
        have hs := setIfLess_loop_shift sched n 2 fuel 0
          ((sched (0 + 1)).getD ((sched 0).getD obj))
        rw [hs] at h
        obtain ⟨k, hk, hfail, hlast, hend⟩ := ih _ _ r h
        have hone : (sched (0 + 1)).getD ((sched 0).getD obj) = loadedAt sched obj 1 := rfl
        rw [hone] at hfail hlast hend
        simp only [loadedAt_shift, heldAt_shift] at hfail hlast hend
        refine ⟨k + 1, Nat.succ_lt_succ hk, ?_, hlast, hend⟩
        intro j hj
        cases j with
        | zero => exact ⟨hlt, hsame⟩
        | succ j => exact hfail j (Nat.lt_of_succ_lt_succ hj)
    · rw [if_neg hlt] at h
      have hr := Option.some.inj h
      subst hr
      exact ⟨0, Nat.zero_lt_succ _, fun j hj => absurd hj (Nat.not_lt_zero j), rfl,
        Or.inr ⟨not_lt.mp hlt, rfl, rfl⟩⟩

/-- C23. Under any interference `sched` of other threads between the accesses
of the helper, with `loadedAt` the values that the successive loads read and
`heldAt` the values that `obj` holds at the successive compare-exchanges. When
`atomic_setIfBigger(obj, n)` returns, it does so at some load `k`, every
compare-exchange before having failed because `obj` had been written. Either
its compare-exchange `k` has succeeded: the value it has replaced is the value
that `obj` held then, it is strictly smaller than `n`, and `obj` now holds `n`,
so the write has raised `obj`. Or it returns without a write: the last value it
has observed is the value of load `k`, at least `n`, and that is the value of
`obj` at that load. The same holds of `atomic_setIfLess` with the order
reversed. When the other threads write finitely often (nothing from place `N`
on), both helpers return, after at most `N + 1` tests of the loop condition. -/
theorem C23_helpers_under_interference {T : Type} [LinearOrder T] (sched : Nat → Option T)
    (obj n : T) :
    (∀ fuel r, atomic_setIfBigger_loop sched n fuel 0 obj = some r →
      ∃ k, k < fuel ∧
        (∀ j, j < k →
          loadedAt sched obj j < n ∧ heldAt sched obj j ≠ loadedAt sched obj j) ∧
        r.lastSeen = loadedAt sched obj k ∧
        ((heldAt sched obj k = loadedAt sched obj k ∧
            r.replaced = some (heldAt sched obj k) ∧ heldAt sched obj k < n ∧ r.obj = n ∧
            heldAt sched obj k < r.obj) ∨
          (r.replaced = none ∧ n ≤ r.lastSeen ∧ r.obj = loadedAt sched obj k))) ∧
    (∀ fuel r, atomic_setIfLess_loop sched n fuel 0 obj = some r →
      ∃ k, k < fuel ∧
        (∀ j, j < k →
          n < loadedAt sched obj j ∧ heldAt sched obj j ≠ loadedAt sched obj j) ∧
        r.lastSeen = loadedAt sched obj k ∧
        ((heldAt sched obj k = loadedAt sched obj k ∧
            r.replaced = some (heldAt sched obj k) ∧ n < heldAt sched obj k ∧ r.obj = n ∧
            r.obj < heldAt sched obj k) ∨
          (r.replaced = none ∧ r.lastSeen ≤ n ∧ r.obj = loadedAt sched obj k))) ∧
    (∀ N, (∀ j, N ≤ j → sched j = none) →
      (∃ r, atomic_setIfBigger_loop sched n (N + 1) 0 obj = some r) ∧
      (∃ r, atomic_setIfLess_loop sched n (N + 1) 0 obj = some r)) := by
  refine ⟨?_, ?_, ?_⟩
  · intro fuel r h
    obtain ⟨k, hk, hfail, hlast, hend⟩ := setIfBigger_loop_spec n fuel sched obj r h
    refine ⟨k, hk, hfail, hlast, ?_⟩
    rcases hend with ⟨h1, h2, h3, h4⟩ | ⟨h1, h2, h3⟩
    · exact Or.inl ⟨h2, h3, by rw [h2]; exact h1, h4, by rw [h2, h4]; exact h1⟩
    · exact Or.inr ⟨h2, by rw [hlast]; exact h1, h3⟩
  · intro fuel r h
    obtain ⟨k, hk, hfail, hlast, hend⟩ := setIfLess_loop_spec n fuel sched obj r h
    refine ⟨k, hk, hfail, hlast, ?_⟩
    rcases hend with ⟨h1, h2, h3, h4⟩ | ⟨h1, h2, h3⟩
    · exact Or.inl ⟨h2, h3, by rw [h2]; exact h1, h4, by rw [h2, h4]; exact h1⟩
    · exact Or.inr ⟨h2, by rw [hlast]; exact h1, h3⟩
  · intro N hquiet
    exact ⟨setIfBigger_loop_returns sched n N hquiet (N + 1) 0 obj (by omega) (by omega),
      setIfLess_loop_returns sched n N hquiet (N + 1) 0 obj (by omega) (by omega)⟩

/-- C23 at a run with one interfering write: the first load reads 1, another
thread writes 7 before the compare-exchange, which fails; the second load reads
7. `atomic_setIfBigger(obj, 5)` then returns without a write, having observed 7;
`atomic_setIfLess(obj, 5)`, whose first load read 9, writes 5 over the 7. -/
theorem C23_helpers_under_interference_witness :
    atomic_setIfBigger_loop schedOnce 5 2 0 1 =
      some { obj := 7, replaced := none, lastSeen := 7 } ∧
    atomic_setIfLess_loop schedOnce 5 2 0 9 =
      some { obj := 5, replaced := some 7, lastSeen := 7 } ∧
    loadedAt schedOnce 1 1 = 7 ∧ heldAt schedOnce 9 1 = 7 ∧
    (∃ k, k < 2 ∧
      (∀ j, j < k →
        loadedAt schedOnce 1 j < 5 ∧ heldAt schedOnce 1 j ≠ loadedAt schedOnce 1 j) ∧
      (7 : Nat) = loadedAt schedOnce 1 k ∧
      ((heldAt schedOnce 1 k = loadedAt schedOnce 1 k ∧
          (none : Option Nat) = some (heldAt schedOnce 1 k) ∧ heldAt schedOnce 1 k < 5 ∧
          (7 : Nat) = 5 ∧ heldAt schedOnce 1 k < 7) ∨
        ((none : Option Nat) = none ∧ 5 ≤ 7 ∧ (7 : Nat) = loadedAt schedOnce 1 k))) ∧
    (∃ r, atomic_setIfBigger_loop schedOnce 5 (1 + 1) 0 1 = some r) ∧
    (∃ r, atomic_setIfLess_loop schedOnce 5 (1 + 1) 0 1 = some r) := by
  have hquiet : ∀ j, 1 ≤ j → schedOnce j = none := by
    intro j hj
    unfold schedOnce
    rw [if_neg (by omega)]
  exact ⟨rfl, rfl, rfl, rfl,
    (C23_helpers_under_interference schedOnce 1 5).1 2
      { obj := 7, replaced := none, lastSeen := 7 } rfl,
    (C23_helpers_under_interference schedOnce 1 5).2.2 1 hquiet⟩

/-! ## C24: the cancellation flag is never cleared -/

theorem state?_eq_some {α : Type} (c : Call α) (s : α) (h : c.state? = some s) :
    ∃ r, c = Call.returned r s := by
  cases c with
  | returned r s1 =>
    simp only [Call.state?, Option.some.injEq] at h
    exact ⟨r, by rw [h]⟩
  | blocked => cases h
  | aborted => cases h

theorem reap_terminate (os : Os) (fault : Option JoinFault) (sys sys1 : System)
    (r : Except String Unit)
    (h : RestoreManagerImpl.reap_UNLOCKED os fault sys = Call.returned r sys1) :
    sys1.mgr.terminate = sys.mgr.terminate := by
  unfold RestoreManagerImpl.reap_UNLOCKED at h
  split at h
  · split at h
    · cases h
    · split at h
      · cases h
        rfl
      · cases h
        rfl
  · cases h
    rfl

theorem initialize_new_terminate (config : String) (sys sys1 : System)
    (r : Except String Unit)
    (h : RestoreManagerImpl.initialize_new config sys = Call.returned r sys1) :
    sys1.mgr.terminate = sys.mgr.terminate := by
  unfold RestoreManagerImpl.initialize_new at h
  split at h
  · cases h
  · cases h
    rfl

theorem initialize_terminate (os : Os) (config : String) (fault : Option JoinFault)
    (sys sys1 : System) (r : Except String Unit)
    (h : RestoreManagerImpl.initialize os config fault sys = Call.returned r sys1) :
    sys1.mgr.terminate = sys.mgr.terminate := by
  unfold RestoreManagerImpl.initialize at h
  split at h
  · cases h
    rfl
  · split at h
    · split at h
      · cases h
        rfl
      · split at h
        · rename_i sys2 hreap
          rw [initialize_new_terminate config sys2 sys1 r h,
            reap_terminate os fault sys sys2 _ hreap]
        · rename_i c hc
          exact reap_terminate os fault sys sys1 r h
    · exact initialize_new_terminate config sys sys1 r h

theorem start_terminate (os : Os) (ret : Int) (tid : Nat) (sys sys1 : System)
    (r : Except String Unit)
    (h : RestoreManagerImpl.start os ret tid sys = Call.returned r sys1) :
    sys1.mgr.terminate = sys.mgr.terminate := by
  unfold RestoreManagerImpl.start at h
  split at h
  · cases h
    rfl
  · split at h
    · cases h
      rfl
    · split at h
      · cases h
        rfl
      · cases h
        rfl

theorem wait_terminate (os : Os) (fault : Option JoinFault) (sys sys1 : System)
    (r : Except String Unit)
    (h : RestoreManagerImpl.wait os fault sys = Call.returned r sys1) :
    sys1.mgr.terminate = sys.mgr.terminate := by
  unfold RestoreManagerImpl.wait at h
  split at h
  · exact reap_terminate os fault sys sys1 r h
  · cases h
    rfl

theorem run_process_terminate (sq : Sqlite) (results : List Int) (m m1 : RestoreManagerImpl)
    (r : Except String Unit)
    (h : RestoreManagerImpl.run_process sq results m = Call.returned r m1) :
    m1.terminate = m.terminate := by
  unfold RestoreManagerImpl.run_process at h
  split at h
  · cases h
  · split at h
    · cases h
    · cases h
      rfl
    · cases h

/-- A step other than `abort()` leaves the flag as it is, and `abort()` sets
it. -/
theorem step_terminate (os : Os) (a : Action) (sys sys1 : System)
    (h : step os a sys = some sys1) :
    sys1.mgr.terminate = sys.mgr.terminate ∨
      (a = Action.abortCall ∧ sys1.mgr.terminate = true) := by
  cases a with
  | initializeCall config fault =>
    simp only [step] at h
    obtain ⟨r, hr⟩ := state?_eq_some _ _ h
    exact Or.inl (initialize_terminate os config fault sys sys1 r hr)
  | startCall ret tid =>
    simp only [step] at h
    split at h
    · cases h
    · obtain ⟨r, hr⟩ := state?_eq_some _ _ h
      exact Or.inl (start_terminate os ret tid sys sys1 r hr)
  | abortCall =>
    simp only [step, RestoreManagerImpl.abort, Call.state?, Option.some.injEq] at h
    subst h
    exact Or.inr ⟨rfl, rfl⟩
  | waitCall fault =>
    simp only [step] at h
    obtain ⟨r, hr⟩ := state?_eq_some _ _ h
    exact Or.inl (wait_terminate os fault sys sys1 r hr)
  | statsCall =>
    simp only [step, Option.some.injEq] at h
    subst h
    exact Or.inl rfl
  | isRunningCall =>
    simp only [step, Option.some.injEq] at h
    subst h
    exact Or.inl rfl
  | workerSetRunning tid =>
    simp only [step] at h
    split at h
    · simp only [Option.some.injEq] at h
      subst h
      exact Or.inl rfl
    · cases h
  | workerReplay tid sq results =>
    simp only [step] at h
    split at h
    · split at h
      · rename_i r m1 hrun
        simp only [Option.some.injEq] at h
        subst h
        exact Or.inl (run_process_terminate sq results sys.mgr m1 r hrun)
      · cases h
    · cases h
  | workerSetZombie tid =>
    simp only [step] at h
    split at h
    · simp only [Option.some.injEq] at h
      subst h
      exact Or.inl rfl
    · cases h

theorem steps_append (os : Os) (xs ys : List Action) (sys : System) :
    steps os (xs ++ ys) sys = (steps os xs sys).bind (steps os ys) := by
  induction xs generalizing sys with
  | nil => rfl
  | cons a rest ih =>
    simp only [List.cons_append, steps]
    cases step os a sys with
    | none => rfl
    | some sys1 => exact ih sys1

theorem steps_terminate (os : Os) (acts : List Action) (sys sys1 : System)
    (hset : sys.mgr.terminate = true) (h : steps os acts sys = some sys1) :
    sys1.mgr.terminate = true := by
  induction acts generalizing sys with
  | nil =>
    simp only [steps, Option.some.injEq] at h
    exact h ▸ hset
  | cons a rest ih =>
    simp only [steps] at h
    cases hstep : step os a sys with
    | none =>
      rw [hstep] at h
      cases h
    | some sys2 =>
      rw [hstep] at h
      refine ih sys2 ?_ h
      rcases step_terminate os a sys sys2 hstep with h1 | h1
      · rw [h1, hset]
      · exact h1.2

/-- C24. No step of the manager or of its worker clears the cancellation flag:
in every sequence of initialize, start, abort, wait, stats, isRunning and worker
steps, from any state, the flag is true in the state that follows an `abort()`
and in every state after it, and a `stats()` there that finds a job reports
`terminate` as true. -/
theorem C24_terminate_never_cleared (os : Os) (sys0 sys1 : System)
    (before after : List Action)
    (h : steps os (before ++ Action.abortCall :: after) sys0 = some sys1) :
    sys1.mgr.terminate = true ∧
    step os Action.statsCall sys1 = some sys1 ∧
    ∀ job, sys1.mgr.instance_ = some job →
      RestoreManagerImpl.stats sys1.mgr =
        [("engine", StatValue.str "RestoreManagerImpl"),
         ("state", StatValue.str sys1.mgr.state.toString),
         ("file", StatValue.str job.file),
         ("number_busy", StatValue.num job.busy),
         ("number_skipped", StatValue.num job.skipped),
         ("number_restored", StatValue.num job.restored),
         ("terminate", StatValue.flag true)] := by
  have hterm : sys1.mgr.terminate = true := by
    rw [steps_append] at h
    cases hb : steps os before sys0 with
    | none =>
      rw [hb] at h
      cases h
    | some sysB =>
      rw [hb] at h
      simp only [Option.some_bind, steps] at h
      cases ha : step os Action.abortCall sysB with
      | none =>
        rw [ha] at h
        cases h
      | some sysA =>
        rw [ha] at h
        refine steps_terminate os after sysA sys1 ?_ h
        simp only [step, RestoreManagerImpl.abort, Call.state?, Option.some.injEq] at ha
        subst ha
        rfl
  refine ⟨hterm, rfl, ?_⟩
  intro job hjob
  simp [RestoreManagerImpl.stats, hjob, hterm]

theorem C24_terminate_never_cleared_witness :
    steps os0 ([Action.statsCall] ++ Action.abortCall ::
      [Action.waitCall none, Action.initializeCall "backup.mbb" none]) sysZombie =
        some sysAgain ∧
    sysAgain.mgr.terminate = true ∧
    step os0 Action.statsCall sysAgain = some sysAgain ∧
    ∀ job, sysAgain.mgr.instance_ = some job →
      RestoreManagerImpl.stats sysAgain.mgr =
        [("engine", StatValue.str "RestoreManagerImpl"),
         ("state", StatValue.str sysAgain.mgr.state.toString),
         ("file", StatValue.str job.file),
         ("number_busy", StatValue.num job.busy),
         ("number_skipped", StatValue.num job.skipped),
         ("number_restored", StatValue.num job.restored),
         ("terminate", StatValue.flag true)] :=
  ⟨rfl, C24_terminate_never_cleared os0 sysZombie sysAgain [Action.statsCall]
    [Action.waitCall none, Action.initializeCall "backup.mbb" none] rfl⟩

/-! ## C25: start when the worker thread cannot be created -/

/-- C25. When `start()` is called in state Initialized and `pthread_create`
returns an error `ret`, the call throws "Failed to create restore thread: "
followed by `strerror(ret)`; the job is freed, no thread exists and the state
is Uninitialized. A `start()` called then throws "you need to call initialize
before start" and changes nothing, and an `initialize` on a path that exists
returns normally with a new job in state Initialized. -/
theorem C25_start_thread_creation_fails (os : Os) (ret : Int) (tid : Nat) (sys : System)
    (hreach : Reachable os sys) (hstate : sys.mgr.state = State.Initialized)
    (hret : ret ≠ 0) :
    ∃ sys1,
      RestoreManagerImpl.start os ret tid sys =
        Call.returned
          (Except.error ("Failed to create restore thread: " ++ os.strerror ret)) sys1 ∧
      sys1.mgr.instance_ = none ∧ sys1.mgr.state = State.Uninitialized ∧
      sys1.mgr.state ≠ State.Initialized ∧ sys1.jobs = 0 ∧ sys1.threads = [] ∧
      (∀ ret2 tid2, RestoreManagerImpl.start os ret2 tid2 sys1 =
        Call.returned (Except.error "you need to call initialize before start") sys1) ∧
      (∀ config fault, os.access config = true →
        ∃ sys2, RestoreManagerImpl.initialize os config fault sys1 =
            Call.returned (Except.ok ()) sys2 ∧
          sys2.mgr.state = State.Initialized ∧
          sys2.mgr.instance_ = some (DecrementalRestorer.new config) ∧
          sys2.jobs = 1) := by
  have hinv := reachable_inv os sys hreach
  obtain ⟨⟨inst, term, st, th⟩, threads, jobs⟩ := sys
  simp only at hstate
  subst hstate
  simp only [Inv] at hinv
  obtain ⟨h1, h2, h3⟩ := hinv
  obtain ⟨job, rfl⟩ := Option.isSome_iff_exists.mp h1
  subst h2 h3
  refine ⟨{ mgr := { instance_ := none, terminate := term, state := State.Uninitialized,
                     thread := th }, threads := [], jobs := 0 }, ?_, rfl, rfl, ?_, rfl, rfl,
    ?_, ?_⟩
  · simp [RestoreManagerImpl.start, hret]
  · simp
  · intro ret2 tid2
    simp [RestoreManagerImpl.start]
  · intro config fault hacc
    refine ⟨{ mgr := { instance_ := some (DecrementalRestorer.new config), terminate := term,
                       state := State.Initialized, thread := th },
              threads := [], jobs := 1 }, ?_, rfl, rfl, rfl⟩
    simp [ RestoreManagerImpl.initialize, hacc, RestoreManagerImpl.initialize_new,
      RestoreManagerImpl.setState_UNLOCKED]

theorem C25_start_thread_creation_fails_witness :
    ∃ sys1,
      RestoreManagerImpl.start os0 11 7 sysInitialized =
        Call.returned
          (Except.error ("Failed to create restore thread: " ++ os0.strerror 11)) sys1 ∧
      sys1.mgr.instance_ = none ∧ sys1.mgr.state = State.Uninitialized ∧
      sys1.mgr.state ≠ State.Initialized ∧ sys1.jobs = 0 ∧ sys1.threads = [] ∧
      (∀ ret2 tid2, RestoreManagerImpl.start os0 ret2 tid2 sys1 =
        Call.returned (Except.error "you need to call initialize before start") sys1) ∧
      (∀ config fault, os0.access config = true →
        ∃ sys2, RestoreManagerImpl.initialize os0 config fault sys1 =
            Call.returned (Except.ok ()) sys2 ∧
          sys2.mgr.state = State.Initialized ∧
          sys2.mgr.instance_ = some (DecrementalRestorer.new config) ∧
          sys2.jobs = 1) :=
  C25_start_thread_creation_fails os0 11 7 sysInitialized reach_initialized rfl (by decide)

/-! ## C26: reset to the pointer held, and self-assignment -/

theorem int32_self (c : Int) (h0 : -2147483648 ≤ c) (h1 : c ≤ 2147483647) : int32 c = c := by
  unfold int32
  omega

theorem set_getElem?_self {α : Type} (l : List α) (i : Nat) (a : α)
    (h : l[i]? = some a) : l.set i a = l := by
  induction l generalizing i with
  | nil => rfl
  | cons b rest ih =>
    cases i with
    | zero =>
      simp only [List.getElem?_cons_zero, Option.some.injEq] at h
      rw [h]
      rfl
    | succ i =>
      simp only [List.getElem?_cons_succ] at h
      simp only [List.set_cons_succ, ih i h]

/-- A reset of handle `h` to the pointer `p` that it holds, on an object whose
count is at least 1, leaves the heap as it is. -/
theorem reset_self (hp : RcHeap) (h p : Nat) (hval : hp.value? h = some (some p))
    (hc : 1 ≤ hp.refcount p) (hint : hp.refcount p ≤ 2147483647) :
    RCPtr.reset h (some p) hp = some hp := by
  have hget := value?_eq_some hp h (some p) hval
  have hback : int32 (int32 (hp.refcount p + 1) - 1) = hp.refcount p := by
    rw [int32_succ_pred]
    exact int32_self _ (by omega) hint
  obtain ⟨refcount, deleted, handles⟩ := hp
  simp only at hget hc hint hback
  have hval1 : ∀ rc : Nat → Int, RcHeap.value?
      { refcount := rc, deleted := deleted, handles := handles } h = some (some p) := by
    intro rc
    simp only [RcHeap.value?, hget]
  have hne : ¬ refcount p = 0 := by omega
  simp only [RCPtr.reset, RCPtr.swap, RCValue._rc_incref, hval1, dropRef, RCValue._rc_decref,
    set_getElem?_self handles h _ hget, Function.update_same, hback, Function.update_idem,
    if_neg hne, Function.update_eq_self]

/-- C26. For a handle `h` of either class that holds the object `p`, whose count
`c` is at least 1: `h.reset(p)` and `h = h` return and leave the heap exactly as
it was, so `h` still points to `p`, the count of `p` is `c` and `delete` has not
run on `p`, for `c = 1` too. On the way the count is `c + 1` (as an `int`)
before it is decremented. -/
theorem C26_reset_to_self (hp : RcHeap) (h p : Nat) (hval : hp.value? h = some (some p))
    (hc : 1 ≤ hp.refcount p) (hint : hp.refcount p ≤ 2147483647) :
    RCPtr.reset h (some p) hp = some hp ∧ RCPtr.assign h h hp = some hp ∧
    SingleThreadedRCPtr.reset h (some p) hp = some hp ∧
    SingleThreadedRCPtr.assign h h hp = some hp ∧
    (RCPtr.gimme (some p) hp).2.refcount p = int32 (hp.refcount p + 1) ∧
    (SingleThreadedRCPtr.gimme (some p) hp).2.refcount p = int32 (hp.refcount p + 1) ∧
    (RCPtr.gimme (some p) hp).2.deleted = hp.deleted := by
  have hr := reset_self hp h p hval hc hint
  have ha : RCPtr.assign h h hp = some hp := by
    rw [assign_eq_reset hp h h (some p) hval]
    exact hr
  refine ⟨hr, ha, hr, ha, ?_, ?_, rfl⟩
  · simp [RCPtr.gimme, RCValue._rc_incref]
  · simp [SingleThreadedRCPtr.gimme, RCValue._rc_incref]

theorem C26_reset_to_self_witness :
    RCPtr.reset 0 (some 0) heapOne = some heapOne ∧
    RCPtr.assign 0 0 heapOne = some heapOne ∧
    SingleThreadedRCPtr.reset 0 (some 0) heapOne = some heapOne ∧
    SingleThreadedRCPtr.assign 0 0 heapOne = some heapOne ∧
    (RCPtr.gimme (some 0) heapOne).2.refcount 0 = int32 (heapOne.refcount 0 + 1) ∧
    (SingleThreadedRCPtr.gimme (some 0) heapOne).2.refcount 0 =
      int32 (heapOne.refcount 0 + 1) ∧
    (RCPtr.gimme (some 0) heapOne).2.deleted = heapOne.deleted :=
  C26_reset_to_self heapOne 0 0 (by decide) (by decide) (by decide)

/-! ## C27: setParameter with a size -/

theorem new_max_size (t : Target) :
    (Configuration.new t).attributes "max_size" =
      some { datatype := config_datatype.DT_SIZE, val := Val.v_size 0 } := rfl

theorem new_cache_size (t : Target) :
    (Configuration.new t).attributes "cache_size" =
      some { datatype := config_datatype.DT_SIZE, val := Val.v_size 0 } := rfl

/-- The entries after `setParameter("cache_size", v)`: the entry of
"cache_size" with the datatype `DT_SIZE`, the entry of "max_size" with the value
`v`, and every other entry as before. -/
theorem setParameter_cache_size (t : Target) (c : Configuration) (v : Nat) (k : String) :
    (c.setParameter_size t "cache_size" v).attributes k =
      if k = "max_size" then some { c.entry t "max_size" with val := Val.v_size v }
      else if k = "cache_size" then
        some { c.entry t "cache_size" with datatype := config_datatype.DT_SIZE }
      else c.attributes k := by
  have hne : ("max_size" : String) ≠ "cache_size" := by decide
  unfold Configuration.setParameter_size
  rw [if_pos rfl]
  by_cases h1 : k = "max_size"
  · subst h1
    simp [Configuration.setVal, Configuration.setDatatype, Configuration.entry,
      Function.update_noteq hne]
  · by_cases h2 : k = "cache_size"
    · subst h2
      simp [Configuration.setVal, Configuration.setDatatype, Function.update_noteq h1]
    · simp [Configuration.setVal, Configuration.setDatatype, Function.update_noteq h1,
        Function.update_noteq h2, h1, h2]

/-- The entries after `setParameter(key, v)` for a key other than
"cache_size": the entry of the key with the datatype `DT_SIZE` and the value
`v`, and every other entry as before. -/
theorem setParameter_other (t : Target) (c : Configuration) (key : String) (v : Nat)
    (hkey : key ≠ "cache_size") (k : String) :
    (c.setParameter_size t key v).attributes k =
      if k = key then some { datatype := config_datatype.DT_SIZE, val := Val.v_size v }
      else c.attributes k := by
  unfold Configuration.setParameter_size
  rw [if_neg hkey]
  by_cases h1 : k = key
  · subst h1
    simp [Configuration.setVal, Configuration.setDatatype, Configuration.entry]
  · simp [Configuration.setVal, Configuration.setDatatype, Function.update_noteq h1, h1]

/-- C27. On a freshly constructed `Configuration`, for every size `v`: after
`setParameter("cache_size", v)`, `getMaxSize()` returns `v`; the entry of the key
"cache_size" holds the value it held (0, which the integer getter returns for
it), with the datatype `DT_SIZE`; and the entries of all keys but "max_size" are
as before. For every configuration and every key other than "cache_size",
`setParameter(key, v)` makes the integer getter return `v` for that key and
leaves the entry of every other key as it was. -/
theorem C27_setParameter_size (t : Target) (v : Nat) :
    ((Configuration.new t).setParameter_size t "cache_size" v).getMaxSize = some v ∧
    (((Configuration.new t).setParameter_size t "cache_size" v).attributes "cache_size").map
        value_t.val =
      ((Configuration.new t).attributes "cache_size").map value_t.val ∧
    (((Configuration.new t).setParameter_size t "cache_size" v).attributes "cache_size").map
        value_t.datatype = some config_datatype.DT_SIZE ∧
    ((Configuration.new t).setParameter_size t "cache_size" v).getInteger "cache_size" =
      some 0 ∧
    (∀ k, k ≠ "max_size" →
      ((Configuration.new t).setParameter_size t "cache_size" v).attributes k =
        (Configuration.new t).attributes k) ∧
    (∀ (c : Configuration) (key : String), key ≠ "cache_size" →
      (c.setParameter_size t key v).getInteger key = some v ∧
      ∀ k, k ≠ key → (c.setParameter_size t key v).attributes k = c.attributes k) := by
  have hne : ("cache_size" : String) ≠ "max_size" := by decide
  have hcache : ((Configuration.new t).setParameter_size t "cache_size" v).attributes
      "cache_size" = some { datatype := config_datatype.DT_SIZE, val := Val.v_size 0 } := by
    rw [setParameter_cache_size, if_neg hne, if_pos rfl]
    simp [Configuration.entry, new_cache_size]
  refine ⟨?_, ?_, ?_, ?_, ?_, ?_⟩
  · unfold Configuration.getMaxSize Configuration.getInteger
    rw [setParameter_cache_size, if_pos rfl]
    simp [Configuration.entry, new_max_size]
  · rw [hcache, new_cache_size]
  · rw [hcache]
    rfl
  · unfold Configuration.getInteger
    rw [hcache]
    rfl
  · intro k hk
    rw [setParameter_cache_size, if_neg hk]
    by_cases h2 : k = "cache_size"
    · subst h2
      rw [if_pos rfl, new_cache_size]
      simp [Configuration.entry, new_cache_size]
    · rw [if_neg h2]
  · intro c key hkey
    refine ⟨?_, ?_⟩
    · unfold Configuration.getInteger
      rw [setParameter_other t c key v hkey, if_pos rfl]
      rfl
    · intro k hk
      rw [setParameter_other t c key v hkey, if_neg hk]

theorem C27_setParameter_size_witness :
    ((Configuration.new target64).setParameter_size target64 "ht_size" 77).getInteger
        "ht_size" = some 77 ∧
    ((Configuration.new target64).setParameter_size target64 "ht_size" 77).attributes
        "max_size" = (Configuration.new target64).attributes "max_size" ∧
    ((Configuration.new target64).setParameter_size target64 "cache_size" 77).attributes
        "ht_size" = (Configuration.new target64).attributes "ht_size" :=
  ⟨((C27_setParameter_size target64 77).2.2.2.2.2 (Configuration.new target64) "ht_size"
      (by decide)).1,
    ((C27_setParameter_size target64 77).2.2.2.2.2 (Configuration.new target64) "ht_size"
      (by decide)).2 "max_size" (by decide),
    (C27_setParameter_size target64 77).2.2.2.2.1 "ht_size" (by decide)⟩

end Restore
